import Mathlib

/-!
# Bulk importers of the e-commerce backend (`cmd/importer`)

A shallow embedding of the category, product, store and inventory importers
(`cmd/importer/category.go`, `product.go`, `store.go`, `inventory.go`) and theorems
about them.

Conventions of the embedding.

* Go strings are `String`; `strings.Compare(a, b) == 0` is `a = b`.
* `primitive.ObjectID` is the 12 bytes read as a big-endian number; every call of
  `primitive.NewObjectID()` takes the next value of a supply `gen : Nat → ObjectID`,
  the number of calls made so far being part of the state.
* A Go function ends normally (`Except.ok`), by returning a non-nil `error`
  (`Abort.error`), or by a run-time panic such as an index out of range (`Abort.panic`).
* The CSV file is the list of its records as `encoding/csv` returns them; record 0 is
  the header.
* The document store is a record of collections, each the list of its documents in
  insertion order.
-/

namespace Importer

/-! ## Identifiers -/

/-- The type `primitive.ObjectID`: twelve bytes, read as a big-endian number. -/
structure ObjectID where
  val : Nat
deriving DecidableEq, Repr

/-- The zero identifier `primitive.NilObjectID`. -/
def NilObjectID : ObjectID := ⟨0⟩

/-- One lower-case hexadecimal digit. -/
def hexDigit (d : Nat) : Char :=
  if d < 10 then Char.ofNat (48 + d) else Char.ofNat (87 + d)

/-- The `k` lowest hexadecimal digits of `n`, most significant first. -/
def hexDigits : Nat → Nat → List Char
  | 0, _ => []
  | k + 1, n => hexDigits k (n / 16) ++ [hexDigit (n % 16)]

/-- The method `ObjectID.Hex`: the 24 hexadecimal digits of the twelve bytes. -/
def ObjectID.Hex (id : ObjectID) : String :=
  String.mk (hexDigits 24 id.val)

/-! ## Errors -/

/-- The `error` values of `store.go` and `inventory.go`, kept in a type of their own: the
package-level `errors.New` values and the errors built inside the functions, none of which
wraps another error. -/
inductive InventoryError where
  /-- The value `errStoreNotFound` of `store.go`. -/
  | errStoreNotFound
  /-- Text: darkstore already exist in our database. -/
  | darkstoreAlreadyExist
  | errInventoryIDIsRequired
  | errInventoryStoreIDIsRequired
  | errInventoryShoptreeLocationIDIsRequired
  | errInventoryProductIsRequired
  | errInventoryProductIDIsRequired
  | errInventoryProductPriceIsRequired
  | errInventoryProductProductIDIsRequired
  | errInventoryProductVariantIDIsRequired
  | errInventoryProductShoptreeVariantIDIsRequired
  /-- Text: no products found in our database. -/
  | noProductsFound
  /-- Text: failed to find product with EN name: %s, on row: %d. -/
  | productNotFound (name : String) (rowNumber : Nat)
  /-- Text: failed to find product variant with shoptree variant id: %s, on row: %d. -/
  | productVariantNotFound (shoptreeVariantID : String) (rowNumber : Nat)
deriving DecidableEq, Repr

/-- The `error` values of the importer: the package-level `errors.New` values, and the
errors built with `fmt.Errorf` / `errors.New` inside the functions, one constructor per
format string, carrying the formatted arguments. -/
inductive GoError where
  | errCategoryNameENIsRequired
  | errCategoryNameIDIsRequired
  | errAbbreviationIsRequired
  | errCategoryImageURLIsRequired
  | errSubcategoryNameENIsRequired
  | errSubcategoryNameIDIsRequired
  | errSubcategoryImageURLIsRequired
  | errProductIDIsRequired
  | errProductNameENIsRequired
  | errProductNameIDIsRequired
  | errProductBrandIDIsRequired
  | errProductCategory1IDIsRequired
  | errProductCategory2IDIsRequired
  | errProductVariantsIsRequired
  | errProductVariantIDIsRequired
  | errShoptreeVariantIDIsRequired
  | errProductVariantImageURLIsRequired
  | errProductVariantVariantTypeIDIsRequired
  | errVariantValueIsRequired
  | errVariantQuantifierIDIsRequired
  | errVariantQuantifierENIsRequired
  | errSKUIsRequired
  | errSKUAndCategoryAbbreviationMismatch
  | errBarcodeIsRequired
  /-- The value `mongo.ErrEmptySlice`, returned by `BulkWrite` for an empty batch. -/
  | errEmptySlice
  /-- The `strconv.ErrSyntax` number error of `strconv.ParseInt`. -/
  | errSyntax (num : String)
  /-- The `strconv.ErrRange` number error of `strconv.ParseInt`. -/
  | errRange (num : String)
  /-- Text: abbreviation shown is the same on two different categories, on row: %d. -/
  | abbreviationConflict (rowNumber : Nat)
  /-- Text: error on row: %d, error: %w. -/
  | errorOnRow (rowNumber : Nat) (err : GoError)
  /-- Text: failed to execute BulkWrite, on import categories: %w. -/
  | bulkWriteCategories (err : GoError)
  /-- Text: image url on row: %d, is empty, skipping product. -/
  | imageURLEmpty (rowNumber : Nat)
  /-- Text: barcode on row: %d, is empty, skipping product. -/
  | barcodeEmpty (rowNumber : Nat)
  /-- Text: failed to convert maximum order on row: %d, err: %w. -/
  | maximumOrderOnRow (rowNumber : Nat) (err : GoError)
  /-- Text: failed to import products, on row: %d, err: %w. -/
  | failedToImportProducts (rowNumber : Nat) (err : GoError)
  /-- Text: mismatch sku: %s and category abbreviation: %s. -/
  | mismatchSKU (sku : String) (abbreviation : String)
  /-- Text: found several errors while importing products. -/
  | foundSeveralErrors
  /-- Text: failed to execute BulkWrite, on import products: %w. -/
  | bulkWriteProducts (err : GoError)
  /-- Text: no categories found in database. -/
  | noCategoriesFound
  /-- Text: failed to find level 1 category with EN name: %s, on row: %d. -/
  | level1NotFound (ctName : String) (rowNumber : Nat)
  /-- Text: failed to find level 2 category with EN name: %s, on row: %d. -/
  | level2NotFound (ctName : String) (rowNumber : Nat)
  /-- An `error` value of `store.go` or `inventory.go`. -/
  | inventory (err : InventoryError)
deriving DecidableEq, Repr

/-- The function `errors.Unwrap`: the error wrapped with `%w`, if any (`none` is nil). -/
def GoError.Unwrap : GoError → Option GoError
  | .errorOnRow _ e => some e
  | .bulkWriteCategories e => some e
  | .maximumOrderOnRow _ e => some e
  | .failedToImportProducts _ e => some e
  | .bulkWriteProducts e => some e
  | _ => none

/-- The function `errors.Is`: `err` or an error of its `Unwrap` chain is `target`. -/
def GoError.Is : GoError → GoError → Bool
  | .errorOnRow n e, target => decide (GoError.errorOnRow n e = target) || e.Is target
  | .bulkWriteCategories e, target =>
    decide (GoError.bulkWriteCategories e = target) || e.Is target
  | .maximumOrderOnRow n e, target =>
    decide (GoError.maximumOrderOnRow n e = target) || e.Is target
  | .failedToImportProducts n e, target =>
    decide (GoError.failedToImportProducts n e = target) || e.Is target
  | .bulkWriteProducts e, target =>
    decide (GoError.bulkWriteProducts e = target) || e.Is target
  | e, target => decide (e = target)

deriving instance DecidableEq for Except

/-- How a call ends when it does not end normally. -/
inductive Abort where
  /-- A run-time panic (index out of range). -/
  | panic
  /-- A non-nil `error` is returned. -/
  | error (e : GoError)
deriving DecidableEq, Repr

/-- The index expression `line[i]` on a slice: panics when `i` is out of range. -/
def index {α : Type} (xs : List α) (i : Nat) : Except Abort α :=
  match xs[i]? with
  | some s => .ok s
  | none => .error .panic

/-! ## Categories (`category.go`) -/

/-- The enumeration `ctpb.CategoryLevel`. -/
inductive CategoryLevel where
  | CATEGORY_LEVEL_UNSPECIFIED
  | CATEGORY_LEVEL_1
  | CATEGORY_LEVEL_2
deriving DecidableEq, Repr

/-- The type `category.Category` as a level-2 value, an element of `ChildCategories`.
The importers never read or write the `ChildCategories` of such a value. -/
structure SubCategory where
  ID : ObjectID := NilObjectID
  Level : CategoryLevel := .CATEGORY_LEVEL_UNSPECIFIED
  Name_EN : String := ""
  Name_ID : String := ""
  ImagesURLs : List String := []
  Abbreviation : String := ""
deriving DecidableEq, Repr

/-- The type `category.Category` with its child categories. -/
structure Category where
  ID : ObjectID := NilObjectID
  Level : CategoryLevel := .CATEGORY_LEVEL_UNSPECIFIED
  Name_EN : String := ""
  Name_ID : String := ""
  ImagesURLs : List String := []
  Abbreviation : String := ""
  ChildCategories : List SubCategory := []
deriving DecidableEq, Repr

/-- The function `validateC1`: a `switch ""` whose cases are tried in order; the case
`ct.ImagesURLs[0]` is evaluated only when the three before it did not match. -/
def validateC1 (ct : Category) : Except Abort Unit :=
  if ct.Name_EN = "" then .error (.error .errCategoryNameENIsRequired)
  else if ct.Name_ID = "" then .error (.error .errCategoryNameIDIsRequired)
  else if ct.Abbreviation = "" then .error (.error .errAbbreviationIsRequired)
  else
    match index ct.ImagesURLs 0 with
    | .error a => .error a
    | .ok url =>
      if url = "" then .error (.error .errCategoryImageURLIsRequired)
      else .ok ()

/-- The function `validateC2`. -/
def validateC2 (ct : SubCategory) : Except Abort Unit :=
  if ct.Name_EN = "" then .error (.error .errSubcategoryNameENIsRequired)
  else if ct.Name_ID = "" then .error (.error .errSubcategoryNameIDIsRequired)
  else
    match index ct.ImagesURLs 0 with
    | .error a => .error a
    | .ok url =>
      if url = "" then .error (.error .errSubcategoryImageURLIsRequired)
      else .ok ()

/-- The five header indices of `importCategories`, all zero until a header sets them. -/
structure CategoryHeaders where
  category_name_EN : Nat := 0
  category_name_ID : Nat := 0
  abbreviation : Nat := 0
  subcategory_name_EN : Nat := 0
  subcategory_name_ID : Nat := 0
deriving DecidableEq, Repr

/-- One iteration of the header loop of `importCategories`: the `switch header`. -/
def setCategoryHeader (h : CategoryHeaders) (idx : Nat) (header : String) : CategoryHeaders :=
  if header = "category_name_EN" then { h with category_name_EN := idx }
  else if header = "category_name_ID" then { h with category_name_ID := idx }
  else if header = "abbreviation" then { h with abbreviation := idx }
  else if header = "subcategory_name_EN" then { h with subcategory_name_EN := idx }
  else if header = "subcategory_name_ID" then { h with subcategory_name_ID := idx }
  else h

/-- The header loop `for idx, header := range line`, from position `idx` on. -/
def categoryHeaderLoop (h : CategoryHeaders) (idx : Nat) : List String → CategoryHeaders
  | [] => h
  | header :: rest => categoryHeaderLoop (setCategoryHeader h idx header) (idx + 1) rest

/-- The scan `for i, c := range categories` of `importCategories`, from position `i` on:
the index of the first category with the abbreviation of the line, `none` when there is
none, and the abbreviation-conflict error when that category has another English name. -/
def findCategory (line : List String) (h : CategoryHeaders) (rowNumber : Nat) (i : Nat) :
    List Category → Except Abort (Option Nat)
  | [] => .ok none
  | c :: rest => do
    let abbr ← index line h.abbreviation
    if c.Abbreviation = abbr then
      let nameEN ← index line h.category_name_EN
      if c.Name_EN ≠ nameEN then
        .error (.error (.abbreviationConflict rowNumber))
      else
        .ok (some i)
    else
      findCategory line h rowNumber (i + 1) rest

/-- The assignment `categories[i].ChildCategories = append(categories[i].ChildCategories, c2)`. -/
def appendChild (categories : List Category) (i : Nat) (c2 : SubCategory) :
    Except Abort (List Category) :=
  match categories[i]? with
  | none => .error .panic
  | some c => .ok (categories.set i { c with ChildCategories := c.ChildCategories ++ [c2] })

/-- The variables of the row loop of `importCategories`. -/
structure CategoryState where
  /-- The header indices. -/
  headers : CategoryHeaders := {}
  /-- The in-progress list `categories`. -/
  categories : List Category := []
  /-- The number of identifiers generated so far. -/
  nextID : Nat := 0
deriving DecidableEq, Repr

/-- The body of the row loop of `importCategories` for a data row (`rowNumber > 1`). -/
def categoryRow (gen : Nat → ObjectID) (st : CategoryState) (rowNumber : Nat)
    (line : List String) : Except Abort CategoryState := do
  let found ← findCategory line st.headers rowNumber 0 st.categories
  let categoryl2ID := gen st.nextID
  let categoryl2ImageURL := categoryl2ID.Hex ++ "-0.webp"
  let subEN ← index line st.headers.subcategory_name_EN
  let subID ← index line st.headers.subcategory_name_ID
  let categoryl2 : SubCategory :=
    { ID := categoryl2ID
      Level := .CATEGORY_LEVEL_2
      Name_EN := subEN
      Name_ID := subID
      ImagesURLs := [categoryl2ImageURL] }
  match validateC2 categoryl2 with
  | .error .panic => .error .panic
  | .error (.error err) => .error (.error (.errorOnRow rowNumber err))
  | .ok () =>
    match found with
    | some categoriesIdx =>
      let categories ← appendChild st.categories categoriesIdx categoryl2
      .ok { st with categories := categories, nextID := st.nextID + 1 }
    | none =>
      let categoryl1ID := gen (st.nextID + 1)
      let categoryl1ImageURL := categoryl1ID.Hex ++ "-0.webp"
      let nameEN ← index line st.headers.category_name_EN
      let nameID ← index line st.headers.category_name_ID
      let abbr ← index line st.headers.abbreviation
      let categoryl1 : Category :=
        { ID := categoryl1ID
          Level := .CATEGORY_LEVEL_1
          Name_EN := nameEN
          Name_ID := nameID
          Abbreviation := abbr
          ImagesURLs := [categoryl1ImageURL]
          ChildCategories := [categoryl2] }
      match validateC1 categoryl1 with
      | .error .panic => .error .panic
      | .error (.error err) => .error (.error (.errorOnRow rowNumber err))
      | .ok () =>
        .ok { st with categories := st.categories ++ [categoryl1], nextID := st.nextID + 2 }

/-- The loop `for i, line := range categoriesFileLines` of `importCategories`, from
position `i` on: row number 1 sets the header indices, every other row is a data row. -/
def categoryLoop (gen : Nat → ObjectID) (st : CategoryState) (i : Nat) :
    List (List String) → Except Abort CategoryState
  | [] => .ok st
  | line :: rest =>
    let rowNumber := i + 1
    if rowNumber = 1 then
      categoryLoop gen { st with headers := categoryHeaderLoop st.headers 0 line } (i + 1) rest
    else
      match categoryRow gen st rowNumber line with
      | .error a => .error a
      | .ok st1 => categoryLoop gen st1 (i + 1) rest

/-- The category fold of `importCategories`: the whole row loop, from the empty list. -/
def categoryFold (gen : Nat → ObjectID) (lines : List (List String)) :
    Except Abort CategoryState :=
  categoryLoop gen {} 0 lines

/-! ## Standard-library functions used by `product.go` -/

/-- Whether the characters `p` start the characters `s` (`strings.HasPrefix`). -/
def startsWith : List Char → List Char → Bool
  | _, [] => true
  | [], _ :: _ => false
  | c :: s, d :: p => c = d && startsWith s p

/-- Whether `sub` occurs in `s` at some position, tried from left to right. -/
def containsChars : List Char → List Char → Bool
  | [], sub => startsWith [] sub
  | c :: s, sub => startsWith (c :: s) sub || containsChars s sub

/-- The function `strings.Contains`: whether `substr` is within `s`. -/
def Contains (s substr : String) : Bool :=
  containsChars s.data substr.data

/-- The digit loop of `strconv.ParseUint` at base 10 and bit size 32, on unsigned 64-bit
numbers: a byte that is not a decimal digit is a syntax error; a value above
`1<<32 - 1` is a range error that returns at once with that maximum. -/
def parseUintLoop (s0 : String) : Nat → List Char → Nat × Option GoError
  | n, [] => (n, none)
  | n, c :: cs =>
    if 48 ≤ c.toNat ∧ c.toNat ≤ 57 then
      let d := c.toNat - 48
      if n ≥ (2 ^ 64 - 1) / 10 + 1 then (2 ^ 32 - 1, some (.errRange s0))
      else
        let n10 := n * 10 % 2 ^ 64
        let n1 := (n10 + d) % 2 ^ 64
        if n1 < n10 ∨ n1 > 2 ^ 32 - 1 then (2 ^ 32 - 1, some (.errRange s0))
        else parseUintLoop s0 n1 cs
    else (0, some (.errSyntax s0))

/-- The call `strconv.ParseUint(s, 10, 32)`. -/
def ParseUint (s : String) : Nat × Option GoError :=
  if s = "" then (0, some (.errSyntax s)) else parseUintLoop s 0 s.data

/-- The call `strconv.ParseInt(s, 10, 32)` of the Go standard library: an optional sign,
then `ParseUint`; a syntax error returns 0, a value out of the signed 32-bit range
returns the nearest bound together with a range error. -/
def ParseInt (s : String) : Int × Option GoError :=
  if s = "" then (0, some (.errSyntax s))
  else
    let signed : Bool × List Char :=
      match s.data with
      | '+' :: r => (false, r)
      | '-' :: r => (true, r)
      | r => (false, r)
    match ParseUint (String.mk signed.2) with
    | (_, some (.errSyntax _)) => (0, some (.errSyntax s))
    | (un, _) =>
      if signed.1 = false ∧ un ≥ 2 ^ 31 then ((2 : Int) ^ 31 - 1, some (.errRange s))
      else if signed.1 = true ∧ un > 2 ^ 31 then (-(2 : Int) ^ 31, some (.errRange s))
      else (if signed.1 then -(un : Int) else (un : Int), none)

/-- The conversion `int32(n)` of a 64-bit integer: the low 32 bits, signed. -/
def toInt32 (n : Int) : Int :=
  (n + 2 ^ 31) % 2 ^ 32 - 2 ^ 31

/-! ## Products (`product.go`) -/

/-- The enumeration `prpb.VariantStatus`: its zero value and `VARIANT_STATUS_DEFAULT`. -/
inductive VariantStatus where
  | VARIANT_STATUS_UNSPECIFIED
  | VARIANT_STATUS_DEFAULT
deriving DecidableEq, Repr

/-- The type `product.ProductVariant`. -/
structure ProductVariant where
  ID : ObjectID := NilObjectID
  ShoptreeVariantID : String := ""
  ImagesURLs : List String := []
  VariantTypeID : ObjectID := NilObjectID
  VariantValue : String := ""
  VariantQuantifier_ID : String := ""
  VariantQuantifier_EN : String := ""
  MaximumOrder : Int := 0
  SKU : String := ""
  Barcode : String := ""
  VariantStatus : VariantStatus := .VARIANT_STATUS_UNSPECIFIED
deriving DecidableEq, Repr

/-- The type `product.Product`; `Variants` is `none` for a nil slice. -/
structure Product where
  ID : ObjectID := NilObjectID
  Name_ID : String := ""
  Name_EN : String := ""
  Description_EN : String := ""
  Description_ID : String := ""
  BrandID : ObjectID := NilObjectID
  Category1ID : ObjectID := NilObjectID
  Category2ID : ObjectID := NilObjectID
  Variants : Option (List ProductVariant) := none
deriving DecidableEq, Repr

/-- The type `brand.Brand`. -/
structure Brand where
  ID : ObjectID := NilObjectID
  Name : String := ""
deriving DecidableEq, Repr

/-- The type `product.VariantType`. -/
structure VariantType where
  ID : ObjectID := NilObjectID
  Name : String := ""
deriving DecidableEq, Repr

/-- The type `HeadersIndex`. -/
structure HeadersIndex where
  shoptree_variant_id : Nat := 0
  sku : Nat := 0
  product_name_EN : Nat := 0
  product_name_ID : Nat := 0
  variant_value : Nat := 0
  variant_quantifier_EN : Nat := 0
  variant_quantifier_ID : Nat := 0
  maximum_order : Nat := 0
  barcode : Nat := 0
  category_name_EN : Nat := 0
  subcategory_name_EN : Nat := 0
  description_EN : Nat := 0
  description_ID : Nat := 0
  image_url : Nat := 0
  default_variant : Nat := 0
deriving DecidableEq, Repr

/-- One iteration of the loop of `getProductsHeaderIndex`: the `switch header`. -/
def setProductHeader (hi : HeadersIndex) (idx : Nat) (header : String) : HeadersIndex :=
  if header = "product_variant_id" then { hi with shoptree_variant_id := idx }
  else if header = "sku_structured" then { hi with sku := idx }
  else if header = "product_name_ENG" then { hi with product_name_EN := idx }
  else if header = "product_name_IND" then { hi with product_name_ID := idx }
  else if header = "option_value_1" then { hi with variant_value := idx }
  else if header = "quantifier_ENG" then { hi with variant_quantifier_EN := idx }
  else if header = "quantifier_IND" then { hi with variant_quantifier_ID := idx }
  else if header = "maximum_ordered_qty" then { hi with maximum_order := idx }
  else if header = "barcodes" then { hi with barcode := idx }
  else if header = "category_name_EN" then { hi with category_name_EN := idx }
  else if header = "sub_category_name_EN" then { hi with subcategory_name_EN := idx }
  else if header = "product_description_IND" then { hi with description_ID := idx }
  else if header = "product_description_ENG" then { hi with description_EN := idx }
  else if header = "image_link" then { hi with image_url := idx }
  else if header = "default_variant" then { hi with default_variant := idx }
  else hi

/-- The loop `for idx, header := range line` of `getProductsHeaderIndex`, from `idx` on. -/
def productHeaderLoop (hi : HeadersIndex) (idx : Nat) : List String → HeadersIndex
  | [] => hi
  | header :: rest => productHeaderLoop (setProductHeader hi idx header) (idx + 1) rest

/-- The function `getProductsHeaderIndex`. -/
def getProductsHeaderIndex (line : List String) : HeadersIndex :=
  productHeaderLoop {} 0 line

/-- The function `getParentCategory`: the first category with the English name. -/
def getParentCategory (categories : List Category) (ctName : String) (rowNumber : Nat) :
    Except GoError Category :=
  match categories with
  | [] => .error (.level1NotFound ctName rowNumber)
  | c :: rest => if c.Name_EN = ctName then .ok c else getParentCategory rest ctName rowNumber

/-- The function `getChildCategory`: the first child category with the English name. -/
def getChildCategory (categories : List SubCategory) (ctName : String) (rowNumber : Nat) :
    Except GoError SubCategory :=
  match categories with
  | [] => .error (.level2NotFound ctName rowNumber)
  | c :: rest => if c.Name_EN = ctName then .ok c else getChildCategory rest ctName rowNumber

/-- The function `validateProduct`: a `switch` whose cases are tried in order. -/
def validateProduct (p : Product) : Except Abort Unit :=
  if p.ID = NilObjectID then .error (.error .errProductIDIsRequired)
  else if p.Name_ID = "" then .error (.error .errProductNameIDIsRequired)
  else if p.Name_EN = "" then .error (.error .errProductNameENIsRequired)
  else if p.BrandID = NilObjectID then .error (.error .errProductBrandIDIsRequired)
  else if p.Category1ID = NilObjectID then .error (.error .errProductCategory1IDIsRequired)
  else if p.Category2ID = NilObjectID then .error (.error .errProductCategory2IDIsRequired)
  else if p.Variants = none then .error (.error .errProductVariantsIsRequired)
  else .ok ()

/-- The function `validateProductVariant`: a `switch` whose cases are tried in order; the
third case evaluates `pv.ImagesURLs[0]`, before the length of the slice is looked at. -/
def validateProductVariant (pv : ProductVariant) : Except Abort Unit :=
  if pv.ID = NilObjectID then .error (.error .errProductVariantIDIsRequired)
  else if pv.ShoptreeVariantID = "" then .error (.error .errShoptreeVariantIDIsRequired)
  else
    match index pv.ImagesURLs 0 with
    | .error a => .error a
    | .ok url =>
      if url = "" then .error (.error .errProductVariantImageURLIsRequired)
      else if pv.ImagesURLs.length < 1 then .error (.error .errProductVariantImageURLIsRequired)
      else if pv.VariantTypeID = NilObjectID then
        .error (.error .errProductVariantVariantTypeIDIsRequired)
      else if pv.VariantValue = "" then .error (.error .errVariantValueIsRequired)
      else if pv.VariantQuantifier_ID = "" then .error (.error .errVariantQuantifierIDIsRequired)
      else if pv.VariantQuantifier_EN = "" then .error (.error .errVariantQuantifierENIsRequired)
      else if pv.SKU = "" then .error (.error .errSKUIsRequired)
      else if pv.Barcode = "" then .error (.error .errBarcodeIsRequired)
      else .ok ()

/-- The scan `for i, p := range products` of `importProducts`, from position `i` on: the
index of the first product with the English product name of the line. -/
def findProduct (line : List String) (hi : HeadersIndex) (i : Nat) :
    List Product → Except Abort (Option Nat)
  | [] => .ok none
  | p :: rest => do
    let nameEN ← index line hi.product_name_EN
    if p.Name_EN = nameEN then .ok (some i) else findProduct line hi (i + 1) rest

/-- The assignment `products[i].Variants = append(products[i].Variants, pv)`. -/
def appendVariant (products : List Product) (i : Nat) (pv : ProductVariant) :
    Except Abort (List Product) :=
  match products[i]? with
  | none => .error .panic
  | some p => .ok (products.set i { p with Variants := some (p.Variants.getD [] ++ [pv]) })

/-- The variables of the row loop of `importProducts`. -/
structure ProductState where
  /-- The header indices `hi`. -/
  hi : HeadersIndex := {}
  /-- The in-progress list `products`. -/
  products : List Product := []
  /-- The list `logList` of deferred errors, each entry the error whose text is logged. -/
  logList : List GoError := []
  /-- The number of identifiers generated so far. -/
  nextID : Nat := 0
deriving DecidableEq, Repr

/-- The statement `if desc != "#N/A" then p.Description_EN = desc` of `importProducts`. -/
def withDescriptionEN (p : Product) (desc : String) : Product :=
  if desc ≠ "#N/A" then { p with Description_EN := desc } else p

/-- The statement `if desc != "#N/A" then p.Description_ID = desc` of `importProducts`. -/
def withDescriptionID (p : Product) (desc : String) : Product :=
  if desc ≠ "#N/A" then { p with Description_ID := desc } else p

/-- The part of the row loop of `importProducts` that creates a new product, entered
when no product of the in-progress list has the product name of the line. -/
def newProduct (gen : Nat → ObjectID) (categories : List Category) (brandData : Brand)
    (st : ProductState) (rowNumber : Nat) (line : List String)
    (productVariant : ProductVariant) : Except Abort ProductState := do
  let hi := st.hi
  -- look for level 1 category
  let ctName1 ← index line hi.category_name_EN
  let parent := getParentCategory categories ctName1 rowNumber
  let categoryl1 : Category :=
    match parent with
    | .ok c => c
    | .error _ => { ID := gen st.nextID }
  let logList1 :=
    match parent with
    | .ok _ => st.logList
    | .error err => st.logList ++ [err]
  let n1 :=
    match parent with
    | .ok _ => st.nextID
    | .error _ => st.nextID + 1
  -- look for C2 category
  let ctName2 ← index line hi.subcategory_name_EN
  let child := getChildCategory categoryl1.ChildCategories ctName2 rowNumber
  let categoryl2 : SubCategory :=
    match child with
    | .ok c => c
    | .error _ => { ID := gen n1 }
  -- skip logging if child categories is empty.
  let logList2 :=
    match child with
    | .ok _ => logList1
    | .error err => if categoryl1.ChildCategories.length > 0 then logList1 ++ [err] else logList1
  let n2 :=
    match child with
    | .ok _ => n1
    | .error _ => n1 + 1
  -- check if variant SKU is designated with the correct category.
  let sku ← index line hi.sku
  if Contains sku categoryl1.Abbreviation = false then
    .error (.error (.mismatchSKU sku categoryl1.Abbreviation))
  else
    let nameID ← index line hi.product_name_ID
    let nameEN ← index line hi.product_name_EN
    let p : Product :=
      { ID := gen n2
        Name_ID := nameID
        Name_EN := nameEN
        BrandID := brandData.ID
        Category1ID := categoryl1.ID
        Category2ID := categoryl2.ID
        Variants := some [productVariant] }
    -- if description is #N/A, means description is empty
    let descEN ← index line hi.description_EN
    let p := withDescriptionEN p descEN
    let descID ← index line hi.description_ID
    let p := withDescriptionID p descID
    match validateProduct p with
    | .error .panic => .error .panic
    | .error (.error err) => .error (.error (.failedToImportProducts rowNumber err))
    | .ok () =>
      .ok { st with products := st.products ++ [p], logList := logList2, nextID := n2 + 1 }

/-- The body of the row loop of `importProducts` for a data row (`rowNumber > 1`). -/
def productRow (gen : Nat → ObjectID) (categories : List Category) (brandData : Brand)
    (variantTypeData : VariantType) (st : ProductState) (rowNumber : Nat)
    (line : List String) : Except Abort ProductState := do
  let hi := st.hi
  -- product without barcode/image_url will be skipped
  let imageURL ← index line hi.image_url
  if imageURL = "" then
    .ok { st with logList := st.logList ++ [.imageURLEmpty rowNumber] }
  else
    let barcode ← index line hi.barcode
    if barcode = "" then
      .ok { st with logList := st.logList ++ [.barcodeEmpty rowNumber] }
    else
      -- convert max number to type int32
      let maximumOrder ← index line hi.maximum_order
      let parsed := ParseInt maximumOrder
      let logList0 :=
        match parsed.2 with
        | some err => st.logList ++ [.maximumOrderOnRow rowNumber err]
        | none => st.logList
      -- look for product in products
      let found ← findProduct line hi 0 st.products
      let sku ← index line hi.sku
      let variantImageURL := sku ++ "-0.webp"
      let shoptreeVariantID ← index line hi.shoptree_variant_id
      let variantValue ← index line hi.variant_value
      let quantifierID ← index line hi.variant_quantifier_ID
      let quantifierEN ← index line hi.variant_quantifier_EN
      let productVariant0 : ProductVariant :=
        { ID := gen st.nextID
          ShoptreeVariantID := shoptreeVariantID
          ImagesURLs := [variantImageURL]
          VariantTypeID := variantTypeData.ID
          VariantValue := variantValue
          VariantQuantifier_ID := quantifierID
          VariantQuantifier_EN := quantifierEN
          MaximumOrder := toInt32 parsed.1
          SKU := sku
          Barcode := barcode }
      -- check if default variant
      let defaultVariant ← index line hi.default_variant
      let productVariant :=
        if defaultVariant = "yes" then
          { productVariant0 with VariantStatus := .VARIANT_STATUS_DEFAULT }
        else productVariant0
      match validateProductVariant productVariant with
      | .error .panic => .error .panic
      | .error (.error err) => .error (.error (.failedToImportProducts rowNumber err))
      | .ok () =>
        let st1 : ProductState := { st with logList := logList0, nextID := st.nextID + 1 }
        match found with
        | some productIdx =>
          let products ← appendVariant st.products productIdx productVariant
          .ok { st1 with products := products }
        | none => newProduct gen categories brandData st1 rowNumber line productVariant

/-- The loop `for i, line := range productsFileData` of `importProducts`, from position
`i` on: row number 1 sets the header indices, every other row is a data row. -/
def productLoop (gen : Nat → ObjectID) (categories : List Category) (brandData : Brand)
    (variantTypeData : VariantType) (st : ProductState) (i : Nat) :
    List (List String) → Except Abort ProductState
  | [] => .ok st
  | line :: rest =>
    let rowNumber := i + 1
    if rowNumber = 1 then
      productLoop gen categories brandData variantTypeData
        { st with hi := getProductsHeaderIndex line } (i + 1) rest
    else
      match productRow gen categories brandData variantTypeData st rowNumber line with
      | .error a => .error a
      | .ok st1 => productLoop gen categories brandData variantTypeData st1 (i + 1) rest

/-! ## Stores and inventories (`store.go`, `inventory.go`) -/

/-- The type `darkstore.Store`, with the fields the importers set or read. -/
structure Store where
  ID : ObjectID := NilObjectID
  Name : String := ""
  ShoptreeLocationID : String := ""
  LocationCode : String := ""
deriving DecidableEq, Repr

/-- The enumeration `mpb.Currency`: its zero value and `CURRENCY_IDR`. -/
inductive Currency where
  | CURRENCY_UNSPECIFIED
  | CURRENCY_IDR
deriving DecidableEq, Repr

/-- The type `model.Amount`. -/
structure Amount where
  Num : String := ""
  Cur : Currency := .CURRENCY_UNSPECIFIED
deriving DecidableEq, Repr

/-- The enumeration `prpb.ProductStatus`: its zero value, enabled and disabled. -/
inductive ProductStatus where
  | PRODUCT_STATUS_UNSPECIFIED
  | PRODUCT_STATUS_ENABLED
  | PRODUCT_STATUS_DISABLED
deriving DecidableEq, Repr

/-- The type `inventory.Product`; `Price` is `none` for a nil pointer. -/
structure InventoryProduct where
  ID : ObjectID := NilObjectID
  Stock : Int := 0
  Price : Option Amount := none
  ProductID : ObjectID := NilObjectID
  VariantID : ObjectID := NilObjectID
  ShoptreeVariantID : String := ""
  Status : ProductStatus := .PRODUCT_STATUS_UNSPECIFIED
deriving DecidableEq, Repr

/-- The type `inventory.Inventory`. -/
structure Inventory where
  ID : ObjectID := NilObjectID
  StoreID : ObjectID := NilObjectID
  ShoptreeLocationID : String := ""
  Products : List InventoryProduct := []
deriving DecidableEq, Repr

/-- The four header indices of `importInventories`, all zero until a header sets them. -/
structure InventoryHeaders where
  product_name_EN : Nat := 0
  product_variant_id : Nat := 0
  variant_product_sellable : Nat := 0
  price : Nat := 0
deriving DecidableEq, Repr

/-- One iteration of the header loop of `importInventories`: the `switch header`. -/
def setInventoryHeader (h : InventoryHeaders) (idx : Nat) (header : String) :
    InventoryHeaders :=
  if header = "product_name_ENG" then { h with product_name_EN := idx }
  else if header = "product_variant_id" then { h with product_variant_id := idx }
  else if header = "variant_product_sellable" then { h with variant_product_sellable := idx }
  else if header = "selling_price" then { h with price := idx }
  else h

/-- The header loop `for idx, header := range line` of `importInventories`. -/
def inventoryHeaderLoop (h : InventoryHeaders) (idx : Nat) : List String → InventoryHeaders
  | [] => h
  | header :: rest => inventoryHeaderLoop (setInventoryHeader h idx header) (idx + 1) rest

/-- The function `getProduct`: the first product with the English name. -/
def getProduct (products : List Product) (name : String) (rowNumber : Nat) :
    Except GoError Product :=
  match products with
  | [] => .error (.inventory (.productNotFound name rowNumber))
  | p :: rest => if p.Name_EN = name then .ok p else getProduct rest name rowNumber

/-- The function `getProductVariant`: the first variant with the external variant id. -/
def getProductVariant (variants : List ProductVariant) (shoptreeVariantID : String)
    (rowNumber : Nat) : Except GoError ProductVariant :=
  match variants with
  | [] => .error (.inventory (.productVariantNotFound shoptreeVariantID rowNumber))
  | pv :: rest =>
    if pv.ShoptreeVariantID = shoptreeVariantID then .ok pv
    else getProductVariant rest shoptreeVariantID rowNumber

/-- The function `validateInventory`: a `switch` whose cases are tried in order. -/
def validateInventory (i : Inventory) : Except Abort Unit :=
  if i.ID = NilObjectID then .error (.error (.inventory .errInventoryIDIsRequired))
  else if i.StoreID = NilObjectID then .error (.error (.inventory .errInventoryStoreIDIsRequired))
  else if i.ShoptreeLocationID = "" then
    .error (.error (.inventory .errInventoryShoptreeLocationIDIsRequired))
  else if i.Products.length < 1 then .error (.error (.inventory .errInventoryProductIsRequired))
  else .ok ()

/-- The function `validateInventoryProduct`: a `switch` whose cases are tried in order. -/
def validateInventoryProduct (p : InventoryProduct) : Except Abort Unit :=
  if p.ID = NilObjectID then .error (.error (.inventory .errInventoryProductIDIsRequired))
  else if p.Price = none then .error (.error (.inventory .errInventoryProductPriceIsRequired))
  else if p.ProductID = NilObjectID then .error (.error (.inventory .errInventoryProductProductIDIsRequired))
  else if p.VariantID = NilObjectID then .error (.error (.inventory .errInventoryProductVariantIDIsRequired))
  else if p.ShoptreeVariantID = "" then
    .error (.error (.inventory .errInventoryProductShoptreeVariantIDIsRequired))
  else .ok ()

/-- The variables of the row loop of `importInventories`. -/
structure InventoryState where
  /-- The header indices. -/
  headers : InventoryHeaders := {}
  /-- The inventory `inv` under construction. -/
  inv : Inventory := {}
  /-- The number of identifiers generated so far. -/
  nextID : Nat := 0
deriving DecidableEq, Repr

/-- The body of the row loop of `importInventories` for a data row (`rowNumber > 1`).
When no variant has the external variant id of the row, the two print statements of the
error branch are evaluated before the error is returned: the first reads
`p.Variants[0]`, the second `line[product_variant_id]`. -/
def inventoryRow (gen : Nat → ObjectID) (products : List Product) (st : InventoryState)
    (rowNumber : Nat) (line : List String) : Except Abort InventoryState := do
  -- look for product in products
  let name ← index line st.headers.product_name_EN
  match getProduct products name rowNumber with
  | .error err => .error (.error err)
  | .ok p =>
    -- look for product variant in product
    let variantID ← index line st.headers.product_variant_id
    match getProductVariant (p.Variants.getD []) variantID rowNumber with
    | .error err =>
      let _ ← index (p.Variants.getD []) 0
      let _ ← index line st.headers.product_variant_id
      .error (.error err)
    | .ok pv =>
      let price ← index line st.headers.price
      let inventoryProduct0 : InventoryProduct :=
        { ID := gen st.nextID
          Stock := 10
          Price := some { Num := price ++ "00", Cur := .CURRENCY_IDR }
          ProductID := p.ID
          VariantID := pv.ID
          ShoptreeVariantID := pv.ShoptreeVariantID }
      let sellable ← index line st.headers.variant_product_sellable
      let inventoryProduct : InventoryProduct :=
        if sellable = "yes" then
          { inventoryProduct0 with Status := .PRODUCT_STATUS_ENABLED }
        else { inventoryProduct0 with Status := .PRODUCT_STATUS_DISABLED }
      match validateInventoryProduct inventoryProduct with
      | .error a => .error a
      | .ok () =>
        .ok { st with
          inv := { st.inv with Products := st.inv.Products ++ [inventoryProduct] }
          nextID := st.nextID + 1 }

/-- The loop `for i, line := range productsFileLines` of `importInventories`, from
position `i` on: row number 1 sets the header indices, every other row is a data row. -/
def inventoryLoop (gen : Nat → ObjectID) (products : List Product) (st : InventoryState)
    (i : Nat) : List (List String) → Except Abort InventoryState
  | [] => .ok st
  | line :: rest =>
    let rowNumber := i + 1
    if rowNumber = 1 then
      inventoryLoop gen products { st with headers := inventoryHeaderLoop st.headers 0 line }
        (i + 1) rest
    else
      match inventoryRow gen products st rowNumber line with
      | .error a => .error a
      | .ok st1 => inventoryLoop gen products st1 (i + 1) rest

/-- The inventory fold of `importInventories`: the inventory is created for the store
`ds`, with the first generated identifier and no product, then the whole row loop runs. -/
def inventoryFold (gen : Nat → ObjectID) (ds : Store) (products : List Product)
    (lines : List (List String)) : Except Abort InventoryState :=
  inventoryLoop gen products
    { inv := { ID := gen 0, StoreID := ds.ID, ShoptreeLocationID := ds.ShoptreeLocationID }
      nextID := 1 } 0 lines

/-! ## The document store -/

/-- The database: one list of documents per collection, in insertion order. The
operations below are those of an in-memory store, which never fails on its own: a find
returns what is there, an insert appends. -/
structure Database where
  /-- The collection `category`. -/
  category : List Category := []
  /-- The collection `brand`. -/
  brand : List Brand := []
  /-- The collection `variant_type`. -/
  variant_type : List VariantType := []
  /-- The collection `product`. -/
  product : List Product := []
  /-- The collection `store`. -/
  store : List Store := []
  /-- The collection `inventory`. -/
  inventory : List Inventory := []
deriving DecidableEq, Repr

/-- The call `BulkWrite` of insert models on a collection: the documents are appended in
order; the driver refuses an empty batch with `mongo.ErrEmptySlice`. -/
def BulkWrite {α : Type} (collection : List α) (models : List α) : Except GoError (List α) :=
  match models with
  | [] => .error .errEmptySlice
  | _ :: _ => .ok (collection ++ models)

/-- The function `getCategories`: every category of the database, and an error when
there is none. -/
def getCategories (db : Database) : Except Abort (List Category) :=
  if db.category.length < 1 then .error (.error .noCategoriesFound) else .ok db.category

/-- The function `findOrInsertBrand`: the first brand named Dropezy; when there is none,
one is inserted with only its name, the store gives it the next generated identifier,
and the brand returned carries that identifier alone. The result is the brand, the
database and the number of identifiers generated so far. -/
def findOrInsertBrand (gen : Nat → ObjectID) (db : Database) (nextID : Nat) :
    Brand × Database × Nat :=
  match db.brand.find? (fun b => b.Name = "Dropezy") with
  | some brandData => (brandData, db, nextID)
  | none =>
    let insertedID := gen nextID
    ({ ID := insertedID },
      { db with brand := db.brand ++ [{ ID := insertedID, Name := "Dropezy" }] },
      nextID + 1)

/-- The function `findOrInsertVariantType`: as `findOrInsertBrand`, for the variant type
named UOM in the collection `variant_type`. -/
def findOrInsertVariantType (gen : Nat → ObjectID) (db : Database) (nextID : Nat) :
    VariantType × Database × Nat :=
  match db.variant_type.find? (fun v => v.Name = "UOM") with
  | some variantType => (variantType, db, nextID)
  | none =>
    let insertedID := gen nextID
    ({ ID := insertedID },
      { db with variant_type := db.variant_type ++ [{ ID := insertedID, Name := "UOM" }] },
      nextID + 1)

/-- The function `importCategories`, from the records of the file on: the row loop, then
one bulk insert of the categories. The result is what the call returns and the database
it leaves. -/
def importCategories (gen : Nat → ObjectID) (db : Database) (lines : List (List String)) :
    Except Abort Unit × Database :=
  match categoryFold gen lines with
  | .error a => (.error a, db)
  | .ok st =>
    match BulkWrite db.category st.categories with
    | .error err => (.error (.error (.bulkWriteCategories err)), db)
    | .ok collection => (.ok (), { db with category := collection })

/-- The brand and the variant type that `importProducts` fetches before it reads the
file (`findOrInsertBrand`, then `findOrInsertVariantType`), with the database these two
calls leave and the number of identifiers generated so far. -/
def referenceData (gen : Nat → ObjectID) (db : Database) :
    Brand × VariantType × Database × Nat :=
  let b := findOrInsertBrand gen db 0
  let v := findOrInsertVariantType gen b.2.1 b.2.2
  (b.1, v.1, v.2.1, v.2.2)

/-- The product fold of `importProducts`: the reference data is fetched (categories,
brand, variant type), then the whole row loop runs from the empty list. The result is
the outcome of the loop and the database left by fetching the reference data. -/
def productFold (gen : Nat → ObjectID) (db : Database) (lines : List (List String)) :
    Except Abort ProductState × Database :=
  match getCategories db with
  | .error a => (.error a, db)
  | .ok categories =>
    let ref := referenceData gen db
    (productLoop gen categories ref.1 ref.2.1 { nextID := ref.2.2.2 } 0 lines, ref.2.2.1)

/-- The end of `importProducts`, after the gate: every product becomes an insert model
and the batch goes to the collection `product` in one `BulkWrite`. -/
def insertProducts (db : Database) (products : List Product) : Except Abort Unit × Database :=
  match BulkWrite db.product products with
  | .error err => (.error (.error (.bulkWriteProducts err)), db)
  | .ok collection => (.ok (), { db with product := collection })

/-- The function `importProducts`, from the records of the file on: the product fold,
the gate on the deferred errors, then one bulk insert of the products. The result is
what the call returns and the database it leaves. -/
def importProducts (gen : Nat → ObjectID) (db : Database) (lines : List (List String)) :
    Except Abort Unit × Database :=
  match productFold gen db lines with
  | (.error a, db2) => (.error a, db2)
  | (.ok st, db2) =>
    -- if log list is not empty, fails bulk insert and return errors.
    if st.logList.length > 0 then (.error (.error .foundSeveralErrors), db2)
    else insertProducts db2 st.products

/-- The function `getStores`: every store of the database, and the nil slice with
`errStoreNotFound` when there is none. -/
def getStores (db : Database) : List Store × Option GoError :=
  if db.store.length < 1 then ([], some (.inventory .errStoreNotFound)) else (db.store, none)

/-- The function `importStore`: it returns the error of `getStores` unless that error is
`errStoreNotFound`, fails when a store exists, and otherwise inserts the one store written
in the code. The result is what the call returns and the database it leaves. -/
def importStore (gen : Nat → ObjectID) (db : Database) : Except Abort Unit × Database :=
  let darkstores := (getStores db).1
  match (getStores db).2.filter (fun err => !(err.Is (.inventory .errStoreNotFound))) with
  | some err => (.error (.error err), db)
  | none =>
    if darkstores.length > 0 then (.error (.error (.inventory .darkstoreAlreadyExist)), db)
    else
      let ds : Store :=
        { ID := gen 0
          Name := "Dropezy Store"
          ShoptreeLocationID := "962553ec420c45388a6bfb26308bdc23"
          LocationCode := "WHT" }
      (.ok (), { db with store := db.store ++ [ds] })

/-- The function `getProducts`: every product of the database, and an error when there
is none. -/
def getProducts (db : Database) : Except GoError (List Product) :=
  if db.product.length < 1 then .error (.inventory .noProductsFound) else .ok db.product

/-- The function `importInventories`, from the records of the file on: the stores and
the products are fetched, the inventory fold runs for the first store, the inventory is
validated and inserted with one `InsertOne`. The result is what the call returns and the
database it leaves. -/
def importInventories (gen : Nat → ObjectID) (db : Database) (lines : List (List String)) :
    Except Abort Unit × Database :=
  match (getStores db).2 with
  | some err => (.error (.error err), db)
  | none =>
    match getProducts db with
    | .error err => (.error (.error err), db)
    | .ok products =>
      match index (getStores db).1 0 with
      | .error a => (.error a, db)
      | .ok ds =>
        match inventoryFold gen ds products lines with
        | .error a => (.error a, db)
        | .ok st =>
          match validateInventory st.inv with
          | .error a => (.error a, db)
          | .ok () => (.ok (), { db with inventory := db.inventory ++ [st.inv] })

/-! ## Vocabulary of the statements -/

/-- The field at position `i` of a record, the empty string when there is none. -/
def field (line : List String) (i : Nat) : String :=
  line.getD i ""

/-- The distinct elements of a list, each at the place of its first appearance. -/
def firstAppearances {α : Type} [DecidableEq α] : List α → List α
  | [] => []
  | a :: l => a :: (firstAppearances l).filter (fun b => b ≠ a)

/-- The records a CSV reader returns: a header with at least one field, and every
record with as many fields as the header. -/
def Rectangular (header : List String) (rows : List (List String)) : Prop :=
  header ≠ [] ∧ ∀ r ∈ rows, r.length = header.length

instance (header : List String) (rows : List (List String)) :
    Decidable (Rectangular header rows) :=
  inferInstanceAs (Decidable (header ≠ [] ∧ ∀ r ∈ rows, r.length = header.length))

/-- Every header index of `importCategories` is a position below `n`. -/
def CategoryHeaders.Below (h : CategoryHeaders) (n : Nat) : Prop :=
  h.category_name_EN < n ∧ h.category_name_ID < n ∧ h.abbreviation < n ∧
    h.subcategory_name_EN < n ∧ h.subcategory_name_ID < n

/-- The level-2 category the row loop of `importCategories` builds from a data row. -/
def subOf (gen : Nat → ObjectID) (st : CategoryState) (line : List String) : SubCategory :=
  { ID := gen st.nextID
    Level := .CATEGORY_LEVEL_2
    Name_EN := field line st.headers.subcategory_name_EN
    Name_ID := field line st.headers.subcategory_name_ID
    ImagesURLs := [(gen st.nextID).Hex ++ "-0.webp"] }

/-- The level-1 category the row loop of `importCategories` builds from a data row whose
abbreviation is not in the list yet. -/
def catOf (gen : Nat → ObjectID) (st : CategoryState) (line : List String) : Category :=
  { ID := gen (st.nextID + 1)
    Level := .CATEGORY_LEVEL_1
    Name_EN := field line st.headers.category_name_EN
    Name_ID := field line st.headers.category_name_ID
    Abbreviation := field line st.headers.abbreviation
    ImagesURLs := [(gen (st.nextID + 1)).Hex ++ "-0.webp"]
    ChildCategories := [subOf gen st line] }

/-- What the row loop of `importCategories` maintains, `pre` being the data rows
processed so far: the abbreviations of the list are those of the rows in order of first
appearance; the children of a category are the subcategory names of the rows with its
abbreviation, in row order; and every such row has the English name of the category. -/
def CategoryInv (h : CategoryHeaders) (pre : List (List String)) (st : CategoryState) : Prop :=
  st.headers = h ∧
  st.categories.map (fun c => c.Abbreviation) =
    firstAppearances (pre.map (fun r => field r h.abbreviation)) ∧
  (∀ c ∈ st.categories,
    c.ChildCategories.map (fun k => (k.Name_EN, k.Name_ID)) =
      (pre.filter (fun r => field r h.abbreviation = c.Abbreviation)).map
        (fun r => (field r h.subcategory_name_EN, field r h.subcategory_name_ID))) ∧
  (∀ c ∈ st.categories, ∀ r ∈ pre,
    field r h.abbreviation = c.Abbreviation → field r h.category_name_EN = c.Name_EN)

/-- Every header index of `importProducts` is a position below `n`. -/
def HeadersIndex.Below (hi : HeadersIndex) (n : Nat) : Prop :=
  hi.shoptree_variant_id < n ∧ hi.sku < n ∧ hi.product_name_EN < n ∧ hi.product_name_ID < n ∧
    hi.variant_value < n ∧ hi.variant_quantifier_EN < n ∧ hi.variant_quantifier_ID < n ∧
    hi.maximum_order < n ∧ hi.barcode < n ∧ hi.category_name_EN < n ∧
    hi.subcategory_name_EN < n ∧ hi.description_EN < n ∧ hi.description_ID < n ∧
    hi.image_url < n ∧ hi.default_variant < n

/-- A data row that `importProducts` skips: its image URL or its barcode is empty. -/
def Skipped (hi : HeadersIndex) (r : List String) : Prop :=
  field r hi.image_url = "" ∨ field r hi.barcode = ""

instance (hi : HeadersIndex) (r : List String) : Decidable (Skipped hi r) :=
  inferInstanceAs (Decidable (_ ∨ _))

/-- The data rows that `importProducts` does not skip, in row order. -/
def kept (hi : HeadersIndex) (rows : List (List String)) : List (List String) :=
  rows.filter (fun r => ¬ Skipped hi r)

/-- The variant the row loop of `importProducts` builds from a data row. -/
def variantOf (gen : Nat → ObjectID) (variantTypeData : VariantType) (st : ProductState)
    (line : List String) : ProductVariant :=
  let productVariant0 : ProductVariant :=
    { ID := gen st.nextID
      ShoptreeVariantID := field line st.hi.shoptree_variant_id
      ImagesURLs := [field line st.hi.sku ++ "-0.webp"]
      VariantTypeID := variantTypeData.ID
      VariantValue := field line st.hi.variant_value
      VariantQuantifier_ID := field line st.hi.variant_quantifier_ID
      VariantQuantifier_EN := field line st.hi.variant_quantifier_EN
      MaximumOrder := toInt32 (ParseInt (field line st.hi.maximum_order)).1
      SKU := field line st.hi.sku
      Barcode := field line st.hi.barcode }
  if field line st.hi.default_variant = "yes" then
    { productVariant0 with VariantStatus := .VARIANT_STATUS_DEFAULT }
  else productVariant0

/-- The list `logList` of a data row that is not skipped, before the category lookups:
the error of the maximum order quantity is added when that field does not parse. -/
def parsedLog (hi : HeadersIndex) (logList : List GoError) (rowNumber : Nat)
    (line : List String) : List GoError :=
  match (ParseInt (field line hi.maximum_order)).2 with
  | some err => logList ++ [.maximumOrderOnRow rowNumber err]
  | none => logList

/-- What identifies the variant of a row: external variant id, SKU and barcode. -/
def variantKey (v : ProductVariant) : String × String × String :=
  (v.ShoptreeVariantID, v.SKU, v.Barcode)

/-- The product_variant_id, SKU and barcode fields of a data row. -/
def rowKey (hi : HeadersIndex) (r : List String) : String × String × String :=
  (field r hi.shoptree_variant_id, field r hi.sku, field r hi.barcode)

/-- A product resolved from the data row `r` against the persisted categories: its
Category1ID is that of the first category with the English category name of the row, the
SKU of the row contains the abbreviation of that category, and, when that category has
children, its Category2ID is that of the first child with the English subcategory name of
the row. -/
def ResolvedBy (hi : HeadersIndex) (categories : List Category) (r : List String)
    (p : Product) : Prop :=
  ∃ c, categories.find? (fun c => c.Name_EN = field r hi.category_name_EN) = some c ∧
    p.Category1ID = c.ID ∧
    Contains (field r hi.sku) c.Abbreviation = true ∧
    (c.ChildCategories ≠ [] →
      ∃ k, c.ChildCategories.find? (fun k => k.Name_EN = field r hi.subcategory_name_EN) = some k ∧
        p.Category2ID = k.ID)

/-- What the row loop of `importProducts` maintains, `pre` being the data rows processed
so far: the English names of the list are those of the rows that are not skipped, in
order of first appearance; the variants of a product are those of the rows with its
name that are not skipped, in row order; and, as long as no deferred error is recorded,
every product is resolved by the first such row. -/
def ProductInv (hi : HeadersIndex) (categories : List Category) (pre : List (List String))
    (st : ProductState) : Prop :=
  st.hi = hi ∧
  st.products.map (fun p => p.Name_EN) =
    firstAppearances ((kept hi pre).map (fun r => field r hi.product_name_EN)) ∧
  (∀ p ∈ st.products, ∃ vs, p.Variants = some vs ∧
    vs.map variantKey =
      ((kept hi pre).filter (fun r => field r hi.product_name_EN = p.Name_EN)).map (rowKey hi)) ∧
  (st.logList = [] → ∀ p ∈ st.products,
    ∃ r, (kept hi pre).find? (fun r => field r hi.product_name_EN = p.Name_EN) = some r ∧
      ResolvedBy hi categories r p)

/-! ## Sample data -/

/-- A supply of identifiers: 1, 2, 3, ... -/
def sampleGen : Nat → ObjectID := fun n => ⟨n + 1⟩

/-- The header of a category file. -/
def categoryHeader : List String :=
  ["category_name_EN", "category_name_ID", "abbreviation", "subcategory_name_EN",
    "subcategory_name_ID"]

/-- Two category rows with the abbreviation DRK. -/
def drinksRows : List (List String) :=
  [["Drinks", "Minuman", "DRK", "Soda", "Soda-ID"],
   ["Drinks", "Minuman", "DRK", "Water", "Air-ID"]]

/-- The state the category fold reaches on `drinksRows`. -/
def drinksState : CategoryState :=
  { headers :=
      { category_name_EN := 0, category_name_ID := 1, abbreviation := 2,
        subcategory_name_EN := 3, subcategory_name_ID := 4 }
    categories :=
      [{ ID := ⟨2⟩
         Level := .CATEGORY_LEVEL_1
         Name_EN := "Drinks"
         Name_ID := "Minuman"
         ImagesURLs := ["000000000000000000000002-0.webp"]
         Abbreviation := "DRK"
         ChildCategories :=
           [{ ID := ⟨1⟩, Level := .CATEGORY_LEVEL_2, Name_EN := "Soda", Name_ID := "Soda-ID",
              ImagesURLs := ["000000000000000000000001-0.webp"] },
            { ID := ⟨3⟩, Level := .CATEGORY_LEVEL_2, Name_EN := "Water", Name_ID := "Air-ID",
              ImagesURLs := ["000000000000000000000003-0.webp"] }] }]
    nextID := 3 }

/-- A file with the Drinks rows and a row using DRK for another category. -/
def conflictRow : List String := ["Food", "Makanan", "DRK", "Rice", "Nasi"]

/-- A category file whose only data row has no category name and no subcategory name. -/
def namelessRow : List String := ["", "", "DRK", "", "Soda-ID"]

/-- A data row without category names that reuses the abbreviation DRK. -/
def namelessDrinksRow : List String := ["", "", "DRK", "Juice", "Jus"]

/-- A data row without category names, with the new abbreviation SNK. -/
def namelessSnackRow : List String := ["", "", "SNK", "Chips", "Keripik"]

/-- The header of a product file. -/
def productHeader : List String :=
  ["product_variant_id", "sku_structured", "product_name_ENG", "product_name_IND",
    "option_value_1", "quantifier_ENG", "quantifier_IND", "maximum_ordered_qty", "barcodes",
    "category_name_EN", "sub_category_name_EN", "product_description_IND",
    "product_description_ENG", "image_link", "default_variant"]

/-- Two persisted categories: Drinks (DRK) with the child Soda, and Misc (MSC) without
children. -/
def sampleCategories : List Category :=
  [{ ID := ⟨100⟩, Level := .CATEGORY_LEVEL_1, Name_EN := "Drinks", Name_ID := "Minuman",
     ImagesURLs := ["drinks-0.webp"], Abbreviation := "DRK",
     ChildCategories :=
       [{ ID := ⟨101⟩, Level := .CATEGORY_LEVEL_2, Name_EN := "Soda", Name_ID := "Soda-ID",
          ImagesURLs := ["soda-0.webp"] }] },
   { ID := ⟨200⟩, Level := .CATEGORY_LEVEL_1, Name_EN := "Misc", Name_ID := "Lain",
     ImagesURLs := ["misc-0.webp"], Abbreviation := "MSC" }]

/-- A database with the sample categories, the brand Dropezy and the variant type UOM. -/
def sampleDb : Database :=
  { category := sampleCategories
    brand := [{ ID := ⟨300⟩, Name := "Dropezy" }]
    variant_type := [{ ID := ⟨301⟩, Name := "UOM" }] }

/-- A product row: the 330 ml variant of Cola, in Drinks / Soda, SKU DRK-001. -/
def colaRow : List String :=
  ["v1", "DRK-001", "Cola", "Kola", "330", "ml", "ml", "5", "899", "Drinks", "Soda", "#N/A",
    "Cola can", "cola.png", "yes"]

/-- A second variant of Cola whose SKU does not contain DRK. -/
def strayColaRow : List String :=
  ["v2", "XXX-002", "Cola", "Kola", "500", "ml", "ml", "9", "900", "Drinks", "Soda", "#N/A",
    "Cola bottle", "cola2.png", "no"]

/-- A product row with an empty barcode. -/
def noBarcodeRow : List String :=
  ["v3", "DRK-003", "Fanta", "Fanta", "330", "ml", "ml", "5", "", "Drinks", "Soda", "#N/A",
    "Fanta can", "fanta.png", "no"]

/-- A product row with an empty image URL. -/
def noImageRow : List String :=
  ["v3", "DRK-003", "Fanta", "Fanta", "330", "ml", "ml", "5", "901", "Drinks", "Soda", "#N/A",
    "Fanta can", "", "no"]

/-- A product row in the category Misc, which has no children. -/
def miscRow : List String :=
  ["v4", "MSC-004", "Thing", "Benda", "1", "pc", "bh", "0", "902", "Misc", "Whatever", "#N/A",
    "#N/A", "thing.png", "no"]

/-- A product row in a category that is not persisted. -/
def unknownCategoryRow : List String :=
  ["v5", "TOY-005", "Robot", "Robot", "1", "pc", "bh", "2", "903", "Toys", "Figures", "#N/A",
    "#N/A", "robot.png", "no"]

/-- A row that starts the product Fanta in Drinks with a SKU that does not contain DRK. -/
def wrongSkuRow : List String :=
  ["v6", "XXX-006", "Fanta", "Fanta", "330", "ml", "ml", "5", "904", "Drinks", "Soda", "#N/A",
    "Fanta can", "fanta.png", "no"]

/-- The product that `colaRow` creates. -/
def colaProduct : Product :=
  { ID := ⟨2⟩
    Name_ID := "Kola"
    Name_EN := "Cola"
    Description_EN := "Cola can"
    BrandID := ⟨300⟩
    Category1ID := ⟨100⟩
    Category2ID := ⟨101⟩
    Variants := some
      [{ ID := ⟨1⟩, ShoptreeVariantID := "v1", ImagesURLs := ["DRK-001-0.webp"],
         VariantTypeID := ⟨301⟩, VariantValue := "330", VariantQuantifier_ID := "ml",
         VariantQuantifier_EN := "ml", MaximumOrder := 5, SKU := "DRK-001",
         Barcode := "899", VariantStatus := .VARIANT_STATUS_DEFAULT }] }

/-- The state the product fold reaches on `colaRow` alone. -/
def colaOnlyState : ProductState :=
  { hi := getProductsHeaderIndex productHeader, products := [colaProduct], nextID := 2 }

/-- The state the product fold reaches on `colaRow` followed by `strayColaRow`. -/
def colaState : ProductState :=
  { hi :=
      { shoptree_variant_id := 0, sku := 1, product_name_EN := 2, product_name_ID := 3,
        variant_value := 4, variant_quantifier_EN := 5, variant_quantifier_ID := 6,
        maximum_order := 7, barcode := 8, category_name_EN := 9, subcategory_name_EN := 10,
        description_EN := 12, description_ID := 11, image_url := 13, default_variant := 14 }
    products :=
      [{ ID := ⟨2⟩
         Name_ID := "Kola"
         Name_EN := "Cola"
         Description_EN := "Cola can"
         BrandID := ⟨300⟩
         Category1ID := ⟨100⟩
         Category2ID := ⟨101⟩
         Variants := some
           [{ ID := ⟨1⟩, ShoptreeVariantID := "v1", ImagesURLs := ["DRK-001-0.webp"],
              VariantTypeID := ⟨301⟩, VariantValue := "330", VariantQuantifier_ID := "ml",
              VariantQuantifier_EN := "ml", MaximumOrder := 5, SKU := "DRK-001",
              Barcode := "899", VariantStatus := .VARIANT_STATUS_DEFAULT },
            { ID := ⟨3⟩, ShoptreeVariantID := "v2", ImagesURLs := ["XXX-002-0.webp"],
              VariantTypeID := ⟨301⟩, VariantValue := "500", VariantQuantifier_ID := "ml",
              VariantQuantifier_EN := "ml", MaximumOrder := 9, SKU := "XXX-002",
              Barcode := "900" }] }]
    nextID := 3 }

/-- The state the product fold reaches on `colaRow` followed by `unknownCategoryRow`. -/
def robotState : ProductState :=
  { hi := getProductsHeaderIndex productHeader
    products :=
      [colaProduct,
       { ID := ⟨6⟩
         Name_ID := "Robot"
         Name_EN := "Robot"
         BrandID := ⟨300⟩
         Category1ID := ⟨4⟩
         Category2ID := ⟨5⟩
         Variants := some
           [{ ID := ⟨3⟩, ShoptreeVariantID := "v5", ImagesURLs := ["TOY-005-0.webp"],
              VariantTypeID := ⟨301⟩, VariantValue := "1", VariantQuantifier_ID := "bh",
              VariantQuantifier_EN := "pc", MaximumOrder := 2, SKU := "TOY-005",
              Barcode := "903" }] }]
    logList := [.level1NotFound "Toys" 3]
    nextID := 6 }

/-- The state the product fold reaches on `colaRow` followed by `noBarcodeRow`. -/
def colaSkipState : ProductState :=
  { hi := getProductsHeaderIndex productHeader, products := [colaProduct],
    logList := [.barcodeEmpty 3], nextID := 2 }

/-- The shape of the categories the row loop of `importCategories` builds: a level-1
node and each of its children has level 1, respectively level 2, a generated identifier,
and one image URL, the hexadecimal form of that identifier followed by `-0.webp`. -/
def CategoryShape (gen : Nat → ObjectID) (categories : List Category) : Prop :=
  ∀ c ∈ categories,
    (∃ n, c.ID = gen n) ∧ c.ImagesURLs = [c.ID.Hex ++ "-0.webp"] ∧
    c.Level = .CATEGORY_LEVEL_1 ∧
    ∀ k ∈ c.ChildCategories,
      (∃ n, k.ID = gen n) ∧ k.ImagesURLs = [k.ID.Hex ++ "-0.webp"] ∧
      k.Level = .CATEGORY_LEVEL_2

/-- A category file with two further columns for image URLs, both empty in its row. -/
def imageColumnsFile : List (List String) :=
  [["category_name_EN", "category_name_ID", "abbreviation", "subcategory_name_EN",
      "subcategory_name_ID", "category_image_url", "subcategory_image_url"],
   ["Drinks", "Minuman", "DRK", "Soda", "Soda-ID", "", ""]]

/-- An error that wraps neither of the two image URL errors of the categories. -/
def NotImageURLError (e : GoError) : Prop :=
  e.Unwrap ≠ some .errCategoryImageURLIsRequired ∧
    e.Unwrap ≠ some .errSubcategoryImageURLIsRequired

/-- A second variant of Cola whose maximum_ordered_qty is out of the 32-bit range. -/
def bigMaximumRow : List String :=
  ["v7", "DRK-007", "Cola", "Kola", "1500", "ml", "ml", "99999999999", "907", "Drinks", "Soda",
    "#N/A", "Cola family", "cola7.png", "no"]

/-- A second variant of Cola whose maximum_ordered_qty is not a number, marked Yes. -/
def wordMaximumRow : List String :=
  ["v8", "DRK-008", "Cola", "Kola", "250", "ml", "ml", "many", "908", "Drinks", "Soda",
    "#N/A", "Cola mini", "cola8.png", "Yes"]

/-- The variant the row loop builds from `wordMaximumRow` after `colaRow`. -/
def wordMaximumVariant : ProductVariant :=
  { ID := ⟨3⟩, ShoptreeVariantID := "v8", ImagesURLs := ["DRK-008-0.webp"],
    VariantTypeID := ⟨301⟩, VariantValue := "250", VariantQuantifier_ID := "ml",
    VariantQuantifier_EN := "ml", MaximumOrder := 0, SKU := "DRK-008", Barcode := "908" }

instance (hi : HeadersIndex) (n : Nat) : Decidable (hi.Below n) := by
  unfold HeadersIndex.Below
  infer_instance

/-- The header names that `getProductsHeaderIndex` recognises, in the order of the fields
of `HeadersIndex`. -/
def recognisedHeaders : List String :=
  ["product_variant_id",
   "sku_structured",
   "product_name_ENG",
   "product_name_IND",
   "option_value_1",
   "quantifier_ENG",
   "quantifier_IND",
   "maximum_ordered_qty",
   "barcodes",
   "category_name_EN",
   "sub_category_name_EN",
   "product_description_ENG",
   "product_description_IND",
   "image_link",
   "default_variant"]

/-- The position of the last occurrence of `name` in a row, if it occurs. -/
def lastOccurrence (name : String) : List String → Option Nat
  | [] => none
  | h :: t =>
    match lastOccurrence name t with
    | some i => some (i + 1)
    | none => if h = name then some 0 else none

/-- The position of the last occurrence of `name` in a row, and 0 when it is absent. -/
def headerPosition (name : String) (xs : List String) : Nat :=
  (lastOccurrence name xs).getD 0

/-- The position of the last occurrence of `name` in the part `xs` of a row that starts
at column `idx`, and `dflt` when `xs` does not hold it. -/
def positionFrom (name : String) (idx dflt : Nat) (xs : List String) : Nat :=
  match lastOccurrence name xs with
  | some i => idx + i
  | none => dflt

/-- The header cells that the 15 fields of an index point at, in the order of the
fields. -/
def HeadersIndex.columns (hi : HeadersIndex) (xs : List String) : List (Option String) :=
  [xs[hi.shoptree_variant_id]?,
   xs[hi.sku]?,
   xs[hi.product_name_EN]?,
   xs[hi.product_name_ID]?,
   xs[hi.variant_value]?,
   xs[hi.variant_quantifier_EN]?,
   xs[hi.variant_quantifier_ID]?,
   xs[hi.maximum_order]?,
   xs[hi.barcode]?,
   xs[hi.category_name_EN]?,
   xs[hi.subcategory_name_EN]?,
   xs[hi.description_EN]?,
   xs[hi.description_ID]?,
   xs[hi.image_url]?,
   xs[hi.default_variant]?]

/-- A header row in another column order, with two columns the importer does not know. -/
def shuffledHeader : List String :=
  ["notes", "default_variant", "image_link", "product_description_ENG",
   "product_description_IND", "sub_category_name_EN", "category_name_EN", "barcodes",
   "maximum_ordered_qty", "quantifier_IND", "quantifier_ENG", "option_value_1",
   "product_name_IND", "product_name_ENG", "sku_structured", "product_variant_id", "extra"]

/-- A header row with a repeated name, a missing name and an unknown name. -/
def repeatedHeader : List String :=
  ["barcodes", "sku_structured", "colour", "barcodes", "image_link"]

/-- A variant with an identifier and an external variant id, and no image URL. -/
def noImageVariant : ProductVariant :=
  { ID := ⟨1⟩, ShoptreeVariantID := "V1", VariantTypeID := ⟨301⟩, VariantValue := "330",
    VariantQuantifier_ID := "ml", VariantQuantifier_EN := "ml", SKU := "DRK-001",
    Barcode := "899" }

/-- A second row of the product Cola whose SKU does not hold the abbreviation DRK. -/
def colaCanRow : List String :=
  ["V9", "XXX-009", "Cola", "Kola", "250", "ml", "ml", "many", "777", "Nowhere",
   "Nothing", "#N/A", "#N/A", "img9", "no"]

/-- A row that reuses the abbreviation DRK with its English name, and whose localized
category name is empty. -/
def drinksJuiceRow : List String := ["Drinks", "", "DRK", "Juice", "Jus"]

/-- A row with a new abbreviation whose category names and subcategory names are empty. -/
def snackNoNamesRow : List String := ["", "", "SNK", "", ""]

/-- The store that `importStore` inserts, with the identifier `id`. -/
def dropezyStore (id : ObjectID) : Store :=
  { ID := id, Name := "Dropezy Store", ShoptreeLocationID := "962553ec420c45388a6bfb26308bdc23",
    LocationCode := "WHT" }

/-- Every header index of `importInventories` is a position below `n`. -/
def InventoryHeaders.Below (h : InventoryHeaders) (n : Nat) : Prop :=
  h.product_name_EN < n ∧ h.product_variant_id < n ∧ h.variant_product_sellable < n ∧
    h.price < n

instance (h : InventoryHeaders) (n : Nat) : Decidable (h.Below n) := by
  unfold InventoryHeaders.Below
  infer_instance

/-- The inventory product the row loop of `importInventories` builds from a data row,
for the product `p` and the variant `pv` found for the row. -/
def inventoryProductOf (gen : Nat → ObjectID) (st : InventoryState) (p : Product)
    (pv : ProductVariant) (line : List String) : InventoryProduct :=
  { ID := gen st.nextID
    Stock := 10
    Price := some { Num := field line st.headers.price ++ "00", Cur := .CURRENCY_IDR }
    ProductID := p.ID
    VariantID := pv.ID
    ShoptreeVariantID := pv.ShoptreeVariantID
    Status :=
      if field line st.headers.variant_product_sellable = "yes" then .PRODUCT_STATUS_ENABLED
      else .PRODUCT_STATUS_DISABLED }

/-- An inventory product resolved from the data row `r` against the persisted products:
its product reference is that of the first product with the English name of the row, its
variant reference that of the first variant of that product with the external variant id
of the row, which it carries, and its price is the selling price of the row. -/
def InventoryRowOf (h : InventoryHeaders) (products : List Product) (r : List String)
    (ip : InventoryProduct) : Prop :=
  ∃ p pv, products.find? (fun p => p.Name_EN = field r h.product_name_EN) = some p ∧
    (p.Variants.getD []).find?
      (fun v => v.ShoptreeVariantID = field r h.product_variant_id) = some pv ∧
    ip.ProductID = p.ID ∧ ip.VariantID = pv.ID ∧
    ip.ShoptreeVariantID = field r h.product_variant_id ∧
    ip.Price = some { Num := field r h.price ++ "00", Cur := .CURRENCY_IDR }

/-- The header of an inventory file. -/
def inventoryHeader : List String :=
  ["product_name_ENG", "product_variant_id", "variant_product_sellable", "selling_price"]

/-- A database with one store and the product Cola with its variant v1. -/
def inventoryDb : Database :=
  { store := [dropezyStore ⟨500⟩], product := [colaProduct] }

/-- A database with one store and a product Cola without variants. -/
def noVariantDb : Database :=
  { store := [dropezyStore ⟨500⟩],
    product := [{ colaProduct with Variants := some [] }] }

/-- An inventory row for the variant v1 of Cola. -/
def colaInventoryRow : List String := ["Cola", "v1", "yes", "15000"]

/-- An inventory row of Cola for a variant that Cola does not have. -/
def colaUnknownVariantRow : List String := ["Cola", "v7", "yes", "15000"]

/-! # Theorems -/

/-! ## Lemmas on lists and records -/

theorem firstAppearances_mem {α : Type} [DecidableEq α] (l : List α) (b : α) :
    b ∈ firstAppearances l ↔ b ∈ l := by
  induction l with
  | nil => simp [firstAppearances]
  | cons a l ih =>
    simp only [firstAppearances, List.mem_cons, List.mem_filter, ih]
    by_cases hb : b = a <;> simp [hb]

theorem firstAppearances_nodup {α : Type} [DecidableEq α] (l : List α) :
    (firstAppearances l).Nodup := by
  induction l with
  | nil => simp [firstAppearances]
  | cons a l ih =>
    simp only [firstAppearances, List.nodup_cons, List.mem_filter]
    exact ⟨by simp, ih.filter _⟩

theorem firstAppearances_snoc {α : Type} [DecidableEq α] (l : List α) (a : α) :
    firstAppearances (l ++ [a]) =
      if a ∈ l then firstAppearances l else firstAppearances l ++ [a] := by
  induction l with
  | nil => simp [firstAppearances]
  | cons b l ih =>
    rw [List.cons_append, firstAppearances, ih, firstAppearances]
    by_cases hab : a = b
    · subst hab
      by_cases hl : a ∈ l <;> simp [hl, List.filter_append]
    · by_cases hl : a ∈ l <;> simp [hl, hab, List.filter_append]

theorem index_ok {α : Type} {xs : List α} {i : Nat} {s : α} (h : index xs i = .ok s) :
    xs[i]? = some s := by
  unfold index at h
  split at h <;> simp_all

theorem index_field {xs : List String} {i : Nat} {s : String} (h : index xs i = .ok s) :
    field xs i = s := by
  have := index_ok h
  simp [field, List.getD, this]

theorem index_of_lt {xs : List String} {i : Nat} (h : i < xs.length) :
    index xs i = .ok (field xs i) := by
  simp [index, field, List.getD, List.getElem?_eq_getElem h]

/-! ## The row loop of `importCategories` -/

theorem findCategory_none {line : List String} {h : CategoryHeaders} {row : Nat}
    {cats : List Category} : ∀ {i : Nat}, findCategory line h row i cats = .ok none →
    ∀ c ∈ cats, c.Abbreviation ≠ field line h.abbreviation := by
  induction cats with
  | nil => intro i _ c hc; simp at hc
  | cons c0 rest ih =>
    intro i hf c hc
    cases ha : index line h.abbreviation with
    | error e => simp [findCategory, ha, bind, Except.bind] at hf
    | ok a =>
      simp only [findCategory, ha, bind, Except.bind] at hf
      have hfa := index_field ha
      by_cases hc0 : c0.Abbreviation = a
      · simp only [hc0, if_true] at hf
        cases hn : index line h.category_name_EN with
        | error e => simp [hn] at hf
        | ok n =>
          simp only [hn] at hf
          split at hf <;> simp at hf
      · simp only [hc0, if_false] at hf
        rcases List.mem_cons.mp hc with rfl | hc
        · rw [hfa]; exact hc0
        · exact ih hf c hc

theorem findCategory_some {line : List String} {h : CategoryHeaders} {row : Nat}
    {cats : List Category} : ∀ {i j : Nat}, findCategory line h row i cats = .ok (some j) →
    ∃ l1 c l2, cats = l1 ++ c :: l2 ∧ j = i + l1.length ∧
      c.Abbreviation = field line h.abbreviation ∧
      c.Name_EN = field line h.category_name_EN ∧
      ∀ c1 ∈ l1, c1.Abbreviation ≠ field line h.abbreviation := by
  induction cats with
  | nil => intro i j hf; simp [findCategory] at hf
  | cons c0 rest ih =>
    intro i j hf
    cases ha : index line h.abbreviation with
    | error e => simp [findCategory, ha, bind, Except.bind] at hf
    | ok a =>
      simp only [findCategory, ha, bind, Except.bind] at hf
      have hfa := index_field ha
      by_cases hc0 : c0.Abbreviation = a
      · simp only [hc0, if_true] at hf
        cases hn : index line h.category_name_EN with
        | error e => simp [hn] at hf
        | ok n =>
          simp only [hn] at hf
          have hfn := index_field hn
          by_cases hne : c0.Name_EN = n
          · simp [hne] at hf
            exact ⟨[], c0, rest, rfl, by simp [hf], by rw [hfa]; exact hc0,
              by rw [hfn]; exact hne, by simp⟩
          · simp [hne] at hf
      · simp only [hc0, if_false] at hf
        obtain ⟨l1, c, l2, hcat, hj, hab, hnm, hl1⟩ := ih hf
        refine ⟨c0 :: l1, c, l2, by simp [hcat], by simp [hj]; omega, hab, hnm, ?_⟩
        intro c1 hc1
        rcases List.mem_cons.mp hc1 with rfl | hc1
        · rw [hfa]; exact hc0
        · exact hl1 c1 hc1

theorem appendChild_ok {cats cats1 : List Category} {j : Nat} {k : SubCategory}
    (h : appendChild cats j k = .ok cats1) :
    ∃ c, cats[j]? = some c ∧
      cats1 = cats.set j { c with ChildCategories := c.ChildCategories ++ [k] } := by
  unfold appendChild at h
  split at h
  · simp at h
  · rename_i c hc
    simp only [Except.ok.injEq] at h
    exact ⟨c, hc, h.symm⟩

theorem categoryRow_ok {gen : Nat → ObjectID} {st st1 : CategoryState} {row : Nat}
    {line : List String} (h : categoryRow gen st row line = .ok st1) :
    ∃ found, findCategory line st.headers row 0 st.categories = .ok found ∧
      validateC2 (subOf gen st line) = .ok () ∧
      ((∃ j c, found = some j ∧ st.categories[j]? = some c ∧
          st1 = { st with
            categories := st.categories.set j
              { c with ChildCategories := c.ChildCategories ++ [subOf gen st line] }
            nextID := st.nextID + 1 }) ∨
       (found = none ∧ validateC1 (catOf gen st line) = .ok () ∧
          st1 = { st with
            categories := st.categories ++ [catOf gen st line]
            nextID := st.nextID + 2 })) := by
  unfold categoryRow at h
  simp only [bind, Except.bind] at h
  split at h
  · simp at h
  · rename_i found hfound
    refine ⟨found, hfound, ?_⟩
    split at h
    · simp at h
    · rename_i subEN hsubEN
      split at h
      · simp at h
      · rename_i subID hsubID
        have e1 := index_field hsubEN
        have e2 := index_field hsubID
        have hk : subOf gen st line = { ID := gen st.nextID, Level := .CATEGORY_LEVEL_2, Name_EN := subEN, Name_ID := subID, ImagesURLs := [(gen st.nextID).Hex ++ "-0.webp"] } := by
          simp [subOf, e1, e2]
        rw [← hk] at h
        split at h
        · simp at h
        · simp at h
        · rename_i hv
          refine ⟨hv, ?_⟩
          split at h
          · rename_i j
            left
            cases hap : appendChild st.categories j (subOf gen st line) with
            | error e => simp [hap] at h
            | ok cats1 =>
              simp only [hap, Except.ok.injEq] at h
              obtain ⟨c, hc, hcats⟩ := appendChild_ok hap
              exact ⟨j, c, rfl, hc, by rw [← h, hcats]⟩
          · right
            split at h
            · simp at h
            · rename_i nameEN hnameEN
              split at h
              · simp at h
              · rename_i nameID hnameID
                split at h
                · simp at h
                · rename_i abbr habbr
                  have e3 := index_field hnameEN
                  have e4 := index_field hnameID
                  have e5 := index_field habbr
                  have hc : catOf gen st line = { ID := gen (st.nextID + 1), Level := .CATEGORY_LEVEL_1, Name_EN := nameEN, Name_ID := nameID, ImagesURLs := [(gen (st.nextID + 1)).Hex ++ "-0.webp"], Abbreviation := abbr, ChildCategories := [subOf gen st line] } := by
                    simp [catOf, e3, e4, e5]
                  rw [← hc] at h
                  split at h
                  · simp at h
                  · simp at h
                  · rename_i hv1
                    simp only [Except.ok.injEq] at h
                    exact ⟨rfl, hv1, h.symm⟩

/-- A row whose abbreviation is in the list keeps the invariant. -/
theorem categoryInv_found {h : CategoryHeaders} {pre : List (List String)} {st : CategoryState}
    {line : List String} {l1 l2 : List Category} {c : Category} {k : SubCategory} {n : Nat}
    (hinv : CategoryInv h pre st) (hcat : st.categories = l1 ++ c :: l2)
    (hab : c.Abbreviation = field line h.abbreviation)
    (hnm : c.Name_EN = field line h.category_name_EN)
    (hk : (k.Name_EN, k.Name_ID) =
      (field line h.subcategory_name_EN, field line h.subcategory_name_ID)) :
    CategoryInv h (pre ++ [line])
      { st with
        categories := st.categories.set l1.length
          { c with ChildCategories := c.ChildCategories ++ [k] }
        nextID := n } := by
  obtain ⟨hh, habbrs, hch, hnames⟩ := hinv
  have hnd : (st.categories.map (fun c => c.Abbreviation)).Nodup := by
    rw [habbrs]; exact firstAppearances_nodup _
  have hset : st.categories.set l1.length { c with ChildCategories := c.ChildCategories ++ [k] }
      = l1 ++ { c with ChildCategories := c.ChildCategories ++ [k] } :: l2 := by
    rw [hcat]; simp
  have hin : field line h.abbreviation ∈ pre.map (fun r => field r h.abbreviation) := by
    rw [← firstAppearances_mem, ← habbrs, hcat, ← hab]; simp
  -- the other categories have another abbreviation
  have hother : ∀ c1, c1 ∈ l1 ∨ c1 ∈ l2 → c1.Abbreviation ≠ c.Abbreviation := by
    intro c1 hc1 heq
    rw [hcat] at hnd
    simp only [List.map_append, List.map_cons] at hnd
    rw [List.nodup_append] at hnd
    obtain ⟨_, hnd2, hdis⟩ := hnd
    rcases hc1 with hc1 | hc1
    · exact hdis (List.mem_map_of_mem _ hc1) (by rw [heq]; simp)
    · rw [List.nodup_cons] at hnd2
      exact hnd2.1 (by rw [← heq]; exact List.mem_map_of_mem _ hc1)
  refine ⟨hh, ?_, ?_, ?_⟩
  · simp only [hset, List.map_append, List.map_cons, List.map_nil, firstAppearances_snoc, hin, if_true]
    rw [← habbrs, hcat]; simp
  · intro c1 hc1
    simp only [hset, List.mem_append, List.mem_cons] at hc1
    have hmem : ∀ c2, c2 ∈ l1 ∨ c2 ∈ l2 → c2 ∈ st.categories := by
      intro c2 h2; rw [hcat]; simp; tauto
    rcases hc1 with hc1 | rfl | hc1
    · have := hother c1 (Or.inl hc1)
      rw [hab] at this
      simp [List.filter_append, Ne.symm this, hch c1 (hmem c1 (Or.inl hc1))]
    · have := hch c (by rw [hcat]; simp)
      simp [List.filter_append, hab, this, hk]
    · have := hother c1 (Or.inr hc1)
      rw [hab] at this
      simp [List.filter_append, Ne.symm this, hch c1 (hmem c1 (Or.inr hc1))]
  · intro c1 hc1 r hr hra
    simp only [hset, List.mem_append, List.mem_cons] at hc1
    have hmem : ∀ c2, c2 ∈ l1 ∨ c2 ∈ l2 → c2 ∈ st.categories := by
      intro c2 h2; rw [hcat]; simp; tauto
    simp only [List.mem_append, List.mem_singleton] at hr
    rcases hc1 with hc1 | rfl | hc1
    · rcases hr with hr | rfl
      · exact hnames c1 (hmem c1 (Or.inl hc1)) r hr hra
      · exact absurd (hra.symm.trans hab.symm) (hother c1 (Or.inl hc1))
    · rcases hr with hr | rfl
      · exact hnames c (by rw [hcat]; simp) r hr hra
      · exact hnm.symm
    · rcases hr with hr | rfl
      · exact hnames c1 (hmem c1 (Or.inr hc1)) r hr hra
      · exact absurd (hra.symm.trans hab.symm) (hother c1 (Or.inr hc1))

/-- A row whose abbreviation is not in the list keeps the invariant. -/
theorem categoryInv_new {h : CategoryHeaders} {pre : List (List String)} {st : CategoryState}
    {line : List String} {c1 : Category} {k : SubCategory} {n : Nat}
    (hinv : CategoryInv h pre st)
    (hnone : ∀ c ∈ st.categories, c.Abbreviation ≠ field line h.abbreviation)
    (hab : c1.Abbreviation = field line h.abbreviation)
    (hnm : c1.Name_EN = field line h.category_name_EN)
    (hch1 : c1.ChildCategories = [k])
    (hk : (k.Name_EN, k.Name_ID) =
      (field line h.subcategory_name_EN, field line h.subcategory_name_ID)) :
    CategoryInv h (pre ++ [line])
      { st with categories := st.categories ++ [c1], nextID := n } := by
  obtain ⟨hh, habbrs, hch, hnames⟩ := hinv
  have hnotin : field line h.abbreviation ∉ pre.map (fun r => field r h.abbreviation) := by
    rw [← firstAppearances_mem, ← habbrs]
    intro hmem
    obtain ⟨c, hc, hce⟩ := List.mem_map.mp hmem
    exact hnone c hc hce
  have hpre : ∀ r ∈ pre, field r h.abbreviation ≠ field line h.abbreviation := by
    intro r hr heq
    exact hnotin (List.mem_map.mpr ⟨r, hr, heq⟩)
  refine ⟨hh, ?_, ?_, ?_⟩
  · simp only [List.map_append, List.map_cons, List.map_nil, firstAppearances_snoc, hnotin,
      if_false, habbrs, hab]
  · intro c hc
    simp only [List.mem_append, List.mem_singleton] at hc
    rcases hc with hc | rfl
    · have := hnone c hc
      simp [List.filter_append, Ne.symm this, hch c hc]
    · have hfil : pre.filter (fun r => decide (field r h.abbreviation = c.Abbreviation)) = [] := by
        rw [List.filter_eq_nil_iff]
        intro r hr
        simpa [hab] using hpre r hr
      rw [hab] at hfil
      simp [List.filter_append, hfil, hab, hch1, hk]
  · intro c hc r hr hra
    simp only [List.mem_append, List.mem_singleton] at hc hr
    rcases hc with hc | rfl
    · rcases hr with hr | rfl
      · exact hnames c hc r hr hra
      · exact absurd hra.symm (hnone c hc)
    · rcases hr with hr | rfl
      · exact absurd (hra.trans hab) (hpre r hr)
      · exact hnm.symm

theorem categoryRow_inv {gen : Nat → ObjectID} {h : CategoryHeaders} {pre : List (List String)}
    {st st1 : CategoryState} {row : Nat} {line : List String}
    (hinv : CategoryInv h pre st) (hrow : categoryRow gen st row line = .ok st1) :
    CategoryInv h (pre ++ [line]) st1 := by
  obtain ⟨found, hfound, _, hcase⟩ := categoryRow_ok hrow
  have hh : st.headers = h := hinv.1
  rcases hcase with ⟨j, c, rfl, hc, rfl⟩ | ⟨rfl, _, rfl⟩
  · obtain ⟨l1, c0, l2, hcat, hj, hab, hnm, _⟩ := findCategory_some hfound
    have hc0 : c = c0 := by
      rw [hcat, hj, Nat.zero_add, List.getElem?_append_right (le_refl _)] at hc
      simp at hc
      exact hc.symm
    subst hc0
    rw [hj, Nat.zero_add]
    rw [hh] at hab hnm
    exact categoryInv_found hinv hcat hab hnm (by simp [subOf, hh])
  · have hnone := findCategory_none hfound
    rw [hh] at hnone
    exact categoryInv_new hinv hnone (by simp [catOf, hh]) (by simp [catOf, hh]) rfl
      (by simp [subOf, hh])

theorem categoryLoop_inv {gen : Nat → ObjectID} {h : CategoryHeaders} {st1 : CategoryState} :
    ∀ (rest pre : List (List String)) (st : CategoryState) (i : Nat), 1 ≤ i →
      CategoryInv h pre st → categoryLoop gen st i rest = .ok st1 →
      CategoryInv h (pre ++ rest) st1 := by
  intro rest
  induction rest with
  | nil =>
    intro pre st i _ hinv hl
    simp only [categoryLoop, Except.ok.injEq] at hl
    subst hl
    simpa using hinv
  | cons line rest ih =>
    intro pre st i hi hinv hl
    have hne : ¬ (i + 1 = 1) := by omega
    simp only [categoryLoop, hne, if_false] at hl
    cases hrow : categoryRow gen st (i + 1) line with
    | error e => simp [hrow] at hl
    | ok st2 =>
      simp only [hrow] at hl
      have := ih (pre ++ [line]) st2 (i + 1) (by omega) (categoryRow_inv hinv hrow) hl
      simpa using this

theorem categoryFold_cons (gen : Nat → ObjectID) (header : List String)
    (rows : List (List String)) :
    categoryFold gen (header :: rows) =
      categoryLoop gen { headers := categoryHeaderLoop {} 0 header } 1 rows := by
  simp [categoryFold, categoryLoop]

theorem categoryFold_inv {gen : Nat → ObjectID} {header : List String}
    {rows : List (List String)} {st : CategoryState}
    (hfold : categoryFold gen (header :: rows) = .ok st) :
    CategoryInv (categoryHeaderLoop {} 0 header) rows st := by
  rw [categoryFold_cons] at hfold
  have h0 : CategoryInv (categoryHeaderLoop {} 0 header) []
      { headers := categoryHeaderLoop {} 0 header } := by
    refine ⟨rfl, ?_, ?_, ?_⟩ <;> simp [firstAppearances]
  simpa using categoryLoop_inv rows [] _ 1 (le_refl 1) h0 hfold

theorem setCategoryHeader_below {h : CategoryHeaders} {n idx : Nat} {header : String}
    (hb : h.Below n) (hidx : idx < n) : (setCategoryHeader h idx header).Below n := by
  obtain ⟨h1, h2, h3, h4, h5⟩ := hb
  unfold setCategoryHeader
  split_ifs <;> exact ⟨by assumption, by assumption, by assumption, by assumption, by assumption⟩

theorem categoryHeaderLoop_below {n : Nat} : ∀ (l : List String) (h : CategoryHeaders) (i : Nat),
    h.Below n → i + l.length ≤ n → (categoryHeaderLoop h i l).Below n := by
  intro l
  induction l with
  | nil => intro h i hb _; exact hb
  | cons a l ih =>
    intro h i hb hlen
    simp only [List.length_cons] at hlen
    exact ih _ (i + 1) (setCategoryHeader_below hb (by omega)) (by omega)

theorem categoryHeaders_below {header : List String} (hne : header ≠ []) :
    (categoryHeaderLoop {} 0 header).Below header.length := by
  have hpos : 0 < header.length := List.length_pos.mpr hne
  exact categoryHeaderLoop_below header {} 0 ⟨hpos, hpos, hpos, hpos, hpos⟩ (by omega)

theorem findCategory_no_panic {line : List String} {h : CategoryHeaders} {row : Nat}
    (ha : h.abbreviation < line.length) (hn : h.category_name_EN < line.length) :
    ∀ (cats : List Category) (i : Nat), findCategory line h row i cats ≠ .error .panic := by
  intro cats
  induction cats with
  | nil => intro i; simp [findCategory]
  | cons c rest ih =>
    intro i
    simp only [findCategory, index_of_lt ha, index_of_lt hn, bind, Except.bind]
    split_ifs
    · simp
    · simp
    · exact ih (i + 1)

theorem hex_url_ne_empty (id : ObjectID) : id.Hex ++ "-0.webp" ≠ "" := by
  intro h
  have := congrArg String.length h
  simp only [String.length_append] at this
  have h2 : "-0.webp".length = 7 := by decide
  have h3 : ("" : String).length = 0 := by decide
  omega

theorem validateC2_subOf_no_panic (gen : Nat → ObjectID) (st : CategoryState)
    (line : List String) : validateC2 (subOf gen st line) ≠ .error .panic := by
  unfold validateC2
  simp only [subOf, index, List.getElem?_cons_zero]
  split_ifs <;> simp

theorem validateC1_catOf_no_panic (gen : Nat → ObjectID) (st : CategoryState)
    (line : List String) : validateC1 (catOf gen st line) ≠ .error .panic := by
  unfold validateC1
  simp only [catOf, index, List.getElem?_cons_zero]
  split_ifs <;> simp

theorem categoryRow_find_error {gen : Nat → ObjectID} {st : CategoryState} {row : Nat}
    {line : List String} {a : Abort}
    (hf : findCategory line st.headers row 0 st.categories = .error a) :
    categoryRow gen st row line = .error a := by
  simp only [categoryRow, hf, bind, Except.bind]

theorem categoryRow_c2_error {gen : Nat → ObjectID} {st : CategoryState} {row : Nat}
    {line : List String} {found : Option Nat} {e : GoError}
    (hb : st.headers.Below line.length)
    (hf : findCategory line st.headers row 0 st.categories = .ok found)
    (hv : validateC2 (subOf gen st line) = .error (.error e)) :
    categoryRow gen st row line = .error (.error (.errorOnRow row e)) := by
  obtain ⟨h1, h2, h3, h4, h5⟩ := hb
  simp only [subOf] at hv
  simp only [categoryRow, hf, index_of_lt h4, index_of_lt h5, bind, Except.bind, hv]

theorem categoryRow_c1_error {gen : Nat → ObjectID} {st : CategoryState} {row : Nat}
    {line : List String} {e : GoError}
    (hb : st.headers.Below line.length)
    (hf : findCategory line st.headers row 0 st.categories = .ok none)
    (hv2 : validateC2 (subOf gen st line) = .ok ())
    (hv1 : validateC1 (catOf gen st line) = .error (.error e)) :
    categoryRow gen st row line = .error (.error (.errorOnRow row e)) := by
  obtain ⟨h1, h2, h3, h4, h5⟩ := hb
  simp only [subOf] at hv2
  simp only [catOf, subOf] at hv1
  simp only [categoryRow, hf, index_of_lt h1, index_of_lt h2, index_of_lt h3, index_of_lt h4,
    index_of_lt h5, bind, Except.bind, hv2, hv1]

theorem categoryRow_new {gen : Nat → ObjectID} {st : CategoryState} {row : Nat}
    {line : List String}
    (hb : st.headers.Below line.length)
    (hf : findCategory line st.headers row 0 st.categories = .ok none)
    (hv2 : validateC2 (subOf gen st line) = .ok ())
    (hv1 : validateC1 (catOf gen st line) = .ok ()) :
    categoryRow gen st row line =
      .ok { st with
        categories := st.categories ++ [catOf gen st line], nextID := st.nextID + 2 } := by
  obtain ⟨h1, h2, h3, h4, h5⟩ := hb
  simp only [subOf] at hv2
  simp only [catOf, subOf] at hv1
  simp only [categoryRow, hf, index_of_lt h1, index_of_lt h2, index_of_lt h3, index_of_lt h4,
    index_of_lt h5, bind, Except.bind, hv2, hv1, catOf, subOf]

theorem categoryRow_found {gen : Nat → ObjectID} {st : CategoryState} {row j : Nat}
    {line : List String} {cats : List Category}
    (hb : st.headers.Below line.length)
    (hf : findCategory line st.headers row 0 st.categories = .ok (some j))
    (hv2 : validateC2 (subOf gen st line) = .ok ())
    (hap : appendChild st.categories j (subOf gen st line) = .ok cats) :
    categoryRow gen st row line =
      .ok { st with categories := cats, nextID := st.nextID + 1 } := by
  obtain ⟨h1, h2, h3, h4, h5⟩ := hb
  simp only [subOf] at hv2 hap
  simp only [categoryRow, hf, index_of_lt h4, index_of_lt h5, bind, Except.bind, hv2, hap]

theorem categoryRow_no_panic {gen : Nat → ObjectID} {st : CategoryState} {row : Nat}
    {line : List String} (hb : st.headers.Below line.length) :
    categoryRow gen st row line ≠ .error .panic := by
  cases hf : findCategory line st.headers row 0 st.categories with
  | error a =>
    have := @findCategory_no_panic line st.headers row hb.2.2.1 hb.1 st.categories 0
    rw [categoryRow_find_error hf]
    rw [hf] at this
    intro hp
    apply this
    cases a with
    | panic => rfl
    | error e => simp at hp
  | ok found =>
    have hv2 := validateC2_subOf_no_panic gen st line
    cases hv : validateC2 (subOf gen st line) with
    | error a =>
      cases a with
      | panic => exact absurd hv hv2
      | error e => rw [categoryRow_c2_error hb hf hv]; simp
    | ok u =>
      cases found with
      | some j =>
        cases hap : appendChild st.categories j (subOf gen st line) with
        | ok cats => rw [categoryRow_found hb hf hv hap]; simp
        | error a =>
          exfalso
          obtain ⟨l1, c, l2, hcat, hj, _⟩ := findCategory_some hf
          unfold appendChild at hap
          rw [hcat, hj, Nat.zero_add, List.getElem?_append_right (le_refl _)] at hap
          simp at hap
      | none =>
        have hv1 := validateC1_catOf_no_panic gen st line
        cases hv1c : validateC1 (catOf gen st line) with
        | error a =>
          cases a with
          | panic => exact absurd hv1c hv1
          | error e => rw [categoryRow_c1_error hb hf hv hv1c]; simp
        | ok u => rw [categoryRow_new hb hf hv hv1c]; simp

theorem categoryRow_headers {gen : Nat → ObjectID} {st st1 : CategoryState} {row : Nat}
    {line : List String} (h : categoryRow gen st row line = .ok st1) :
    st1.headers = st.headers := by
  obtain ⟨found, _, _, hcase⟩ := categoryRow_ok h
  rcases hcase with ⟨j, c, _, _, rfl⟩ | ⟨_, _, rfl⟩ <;> rfl

theorem categoryLoop_no_panic {gen : Nat → ObjectID} {n : Nat} :
    ∀ (rows : List (List String)) (st : CategoryState) (i : Nat), 1 ≤ i →
      st.headers.Below n → (∀ r ∈ rows, r.length = n) →
      categoryLoop gen st i rows ≠ .error .panic := by
  intro rows
  induction rows with
  | nil => intro st i _ _ _; simp [categoryLoop]
  | cons line rest ih =>
    intro st i hi hb hlen
    have hne : ¬ (i + 1 = 1) := by omega
    have hl : line.length = n := hlen line (by simp)
    simp only [categoryLoop, hne, if_false]
    cases hrow : categoryRow gen st (i + 1) line with
    | error a =>
      have := @categoryRow_no_panic gen st (i + 1) line (hl ▸ hb)
      rw [hrow] at this
      simpa using this
    | ok st2 =>
      simp only
      exact ih st2 (i + 1) (by omega) (by rw [categoryRow_headers hrow]; exact hb)
        (fun r hr => hlen r (by simp [hr]))

theorem categoryLoop_append {gen : Nat → ObjectID} :
    ∀ (pre rest : List (List String)) (st : CategoryState) (i : Nat), 1 ≤ i →
      categoryLoop gen st i (pre ++ rest) =
        match categoryLoop gen st i pre with
        | .error a => .error a
        | .ok st1 => categoryLoop gen st1 (i + pre.length) rest := by
  intro pre
  induction pre with
  | nil => intro rest st i _; simp [categoryLoop]
  | cons line pre ih =>
    intro rest st i hi
    have hne : ¬ (i + 1 = 1) := by omega
    simp only [List.cons_append, categoryLoop, hne, if_false]
    cases hrow : categoryRow gen st (i + 1) line with
    | error a => simp
    | ok st2 =>
      simp only
      have := ih rest st2 (i + 1) (by omega)
      rw [show i + 1 + pre.length = i + (line :: pre).length by simp; omega] at this
      exact this

theorem findCategory_conflict {line : List String} {h : CategoryHeaders} {row : Nat}
    (ha : h.abbreviation < line.length) (hn : h.category_name_EN < line.length) :
    ∀ (cats : List Category) (i : Nat),
      (∃ c ∈ cats, c.Abbreviation = field line h.abbreviation) →
      (∀ c ∈ cats, c.Abbreviation = field line h.abbreviation →
        c.Name_EN ≠ field line h.category_name_EN) →
      findCategory line h row i cats = .error (.error (.abbreviationConflict row)) := by
  intro cats
  induction cats with
  | nil => intro i hex; simp at hex
  | cons c0 rest ih =>
    intro i hex hall
    simp only [findCategory, index_of_lt ha, index_of_lt hn, bind, Except.bind]
    by_cases hc0 : c0.Abbreviation = field line h.abbreviation
    · have := hall c0 (by simp) hc0
      simp [hc0, this]
    · simp only [hc0, if_false]
      apply ih (i + 1)
      · obtain ⟨c, hc, hca⟩ := hex
        rcases List.mem_cons.mp hc with rfl | hc
        · exact absurd hca hc0
        · exact ⟨c, hc, hca⟩
      · intro c hc; exact hall c (by simp [hc])

/-- C1. When the category fold of `importCategories` succeeds on a header and data rows,
the abbreviations of the resulting level-1 list are pairwise distinct and are those of
the rows in order of first appearance, and the (Name_EN, Name_ID) pairs of the children
of every level-1 node are the (subcategory_name_EN, subcategory_name_ID) pairs of the
rows carrying its abbreviation, one child per row, in row order (so at least one). -/
theorem categoryFold_groups_rows (gen : Nat → ObjectID) (header : List String)
    (rows : List (List String)) (st : CategoryState)
    (hfold : categoryFold gen (header :: rows) = .ok st) :
    (st.categories.map (fun c => c.Abbreviation)).Nodup ∧
    st.categories.map (fun c => c.Abbreviation) =
      firstAppearances
        (rows.map (fun r => field r (categoryHeaderLoop {} 0 header).abbreviation)) ∧
    ∀ c ∈ st.categories,
      c.ChildCategories.map (fun k => (k.Name_EN, k.Name_ID)) =
        (rows.filter
          (fun r => field r (categoryHeaderLoop {} 0 header).abbreviation = c.Abbreviation)).map
          (fun r => (field r (categoryHeaderLoop {} 0 header).subcategory_name_EN,
            field r (categoryHeaderLoop {} 0 header).subcategory_name_ID)) ∧
      c.ChildCategories ≠ [] := by
  obtain ⟨_, habbrs, hch, _⟩ := categoryFold_inv hfold
  refine ⟨by rw [habbrs]; exact firstAppearances_nodup _, habbrs, ?_⟩
  intro c hc
  refine ⟨hch c hc, ?_⟩
  have hmem : c.Abbreviation ∈
      rows.map (fun r => field r (categoryHeaderLoop {} 0 header).abbreviation) := by
    rw [← firstAppearances_mem, ← habbrs]
    exact List.mem_map_of_mem _ hc
  obtain ⟨r, hr, hra⟩ := List.mem_map.mp hmem
  intro hnil
  have h1 := hch c hc
  rw [hnil] at h1
  have h2 : r ∈ rows.filter
      (fun r => field r (categoryHeaderLoop {} 0 header).abbreviation = c.Abbreviation) := by
    simp [List.mem_filter, hr, hra]
  have h3 := List.map_eq_nil_iff.mp h1.symm
  rw [h3] at h2
  simp at h2

/-- C1, on the two DRK rows: one DRK node with the children Soda and Water. -/
theorem categoryFold_groups_rows_witness :
    categoryFold sampleGen (categoryHeader :: drinksRows) = .ok drinksState ∧
    drinksState.categories.map (fun c => c.Abbreviation) = ["DRK"] ∧
    drinksState.categories.map
      (fun c => c.ChildCategories.map (fun k => (k.Name_EN, k.Name_ID))) =
      [[("Soda", "Soda-ID"), ("Water", "Air-ID")]] ∧
    ((drinksState.categories.map (fun c => c.Abbreviation)).Nodup ∧
    drinksState.categories.map (fun c => c.Abbreviation) =
      firstAppearances
        (drinksRows.map (fun r => field r (categoryHeaderLoop {} 0 categoryHeader).abbreviation)) ∧
    ∀ c ∈ drinksState.categories,
      c.ChildCategories.map (fun k => (k.Name_EN, k.Name_ID)) =
        (drinksRows.filter
          (fun r => field r (categoryHeaderLoop {} 0 categoryHeader).abbreviation
            = c.Abbreviation)).map
          (fun r => (field r (categoryHeaderLoop {} 0 categoryHeader).subcategory_name_EN,
            field r (categoryHeaderLoop {} 0 categoryHeader).subcategory_name_ID)) ∧
      c.ChildCategories ≠ []) :=
  ⟨by decide, by decide, by decide,
    categoryFold_groups_rows sampleGen categoryHeader drinksRows drinksState (by decide)⟩

/-- C9. For a level-1 category with a non-empty image URL list, `validateC1` returns the
error of the first empty field in the order Name_EN, Name_ID, Abbreviation, first image
URL, and returns nil exactly when all four are non-empty. -/
theorem validateC1_first_empty_field (ct : Category) (himg : ct.ImagesURLs ≠ []) :
    (ct.Name_EN = "" → validateC1 ct = .error (.error .errCategoryNameENIsRequired)) ∧
    (ct.Name_EN ≠ "" → ct.Name_ID = "" →
      validateC1 ct = .error (.error .errCategoryNameIDIsRequired)) ∧
    (ct.Name_EN ≠ "" → ct.Name_ID ≠ "" → ct.Abbreviation = "" →
      validateC1 ct = .error (.error .errAbbreviationIsRequired)) ∧
    (ct.Name_EN ≠ "" → ct.Name_ID ≠ "" → ct.Abbreviation ≠ "" → ct.ImagesURLs.head himg = "" →
      validateC1 ct = .error (.error .errCategoryImageURLIsRequired)) ∧
    (validateC1 ct = .ok () ↔
      ct.Name_EN ≠ "" ∧ ct.Name_ID ≠ "" ∧ ct.Abbreviation ≠ "" ∧
        ct.ImagesURLs.head himg ≠ "") := by
  obtain ⟨url, rest, hurl⟩ := List.exists_cons_of_ne_nil himg
  have hidx : index ct.ImagesURLs 0 = .ok url := by simp [index, hurl]
  have hhead : ct.ImagesURLs.head himg = url := by simp [hurl]
  rw [hhead]
  unfold validateC1
  rw [hidx]
  by_cases h1 : ct.Name_EN = "" <;> by_cases h2 : ct.Name_ID = "" <;>
    by_cases h3 : ct.Abbreviation = "" <;> by_cases h4 : url = "" <;>
    simp [h1, h2, h3, h4]

/-- C9, on a category whose English name and abbreviation are both empty. -/
theorem validateC1_first_empty_field_witness :
    ({ Name_ID := "Minuman", ImagesURLs := ["a-0.webp"] } : Category).ImagesURLs ≠ [] ∧
    ({ Name_ID := "Minuman", ImagesURLs := ["a-0.webp"] } : Category).Name_EN = "" ∧
    validateC1 { Name_ID := "Minuman", ImagesURLs := ["a-0.webp"] } =
      .error (.error .errCategoryNameENIsRequired) :=
  ⟨by decide, by decide,
    (validateC1_first_empty_field { Name_ID := "Minuman", ImagesURLs := ["a-0.webp"] }
      (by decide)).1 (by decide)⟩

/-- C2. On the records of a CSV file: when two data rows share an abbreviation but differ
in category_name_EN, `importCategories` returns an error and leaves the database as it
was (no bulk write); and when the rows before a row that conflicts with an earlier one
are processed without failure, the error is the abbreviation-conflict error with the
number of that row. -/
theorem importCategories_abbreviation_conflict (gen : Nat → ObjectID) (db : Database)
    (header : List String) (rows : List (List String)) (hrect : Rectangular header rows) :
    ((∃ q ∈ rows, ∃ r ∈ rows,
        field q (categoryHeaderLoop {} 0 header).abbreviation =
          field r (categoryHeaderLoop {} 0 header).abbreviation ∧
        field q (categoryHeaderLoop {} 0 header).category_name_EN ≠
          field r (categoryHeaderLoop {} 0 header).category_name_EN) →
      ∃ e, importCategories gen db (header :: rows) = (.error (.error e), db)) ∧
    (∀ (pre : List (List String)) (r : List String) (rest : List (List String))
        (st : CategoryState),
      rows = pre ++ r :: rest → categoryFold gen (header :: pre) = .ok st →
      (∃ q ∈ pre,
        field q (categoryHeaderLoop {} 0 header).abbreviation =
          field r (categoryHeaderLoop {} 0 header).abbreviation ∧
        field q (categoryHeaderLoop {} 0 header).category_name_EN ≠
          field r (categoryHeaderLoop {} 0 header).category_name_EN) →
      importCategories gen db (header :: rows) =
        (.error (.error (.abbreviationConflict (pre.length + 2))), db)) := by
  obtain ⟨hne, hlen⟩ := hrect
  have hb := categoryHeaders_below hne
  constructor
  · rintro ⟨q, hq, r, hr, hab, hnm⟩
    cases hfold : categoryFold gen (header :: rows) with
    | ok st =>
      exfalso
      obtain ⟨_, habbrs, _, hnames⟩ := categoryFold_inv hfold
      have hmem : field q (categoryHeaderLoop {} 0 header).abbreviation ∈
          st.categories.map (fun c => c.Abbreviation) := by
        rw [habbrs, firstAppearances_mem]
        exact List.mem_map.mpr ⟨q, hq, rfl⟩
      obtain ⟨c, hc, hca⟩ := List.mem_map.mp hmem
      have h1 := hnames c hc q hq hca.symm
      have h2 := hnames c hc r hr (hab ▸ hca.symm)
      exact hnm (h1.trans h2.symm)
    | error a =>
      cases a with
      | panic =>
        exfalso
        rw [categoryFold_cons] at hfold
        exact categoryLoop_no_panic rows _ 1 (le_refl 1) hb hlen hfold
      | error e => exact ⟨e, by simp [importCategories, hfold]⟩
  · rintro pre r rest st hrows hpre ⟨q, hq, hab, hnm⟩
    obtain ⟨_, habbrs, _, hnames⟩ := categoryFold_inv hpre
    have hst : st.headers = categoryHeaderLoop {} 0 header := (categoryFold_inv hpre).1
    have hrlen : r.length = header.length := hlen r (by simp [hrows])
    have hmem : field r (categoryHeaderLoop {} 0 header).abbreviation ∈
        st.categories.map (fun c => c.Abbreviation) := by
      rw [habbrs, firstAppearances_mem, ← hab]
      exact List.mem_map.mpr ⟨q, hq, rfl⟩
    obtain ⟨c, hc, hca⟩ := List.mem_map.mp hmem
    have hfind : findCategory r st.headers (pre.length + 2) 0 st.categories =
        .error (.error (.abbreviationConflict (pre.length + 2))) := by
      rw [hst]
      apply findCategory_conflict (hrlen ▸ hb.2.2.1) (hrlen ▸ hb.1)
      · exact ⟨c, hc, hca⟩
      · intro c1 hc1 hc1a heq
        have := hnames c1 hc1 q hq (hab.trans hc1a.symm)
        exact hnm (this.trans heq)
    have hfold : categoryFold gen (header :: rows) =
        .error (.error (.abbreviationConflict (pre.length + 2))) := by
      rw [categoryFold_cons] at hpre ⊢
      rw [hrows, categoryLoop_append pre (r :: rest) _ 1 (le_refl 1), hpre]
      have hne1 : ¬ (1 + pre.length + 1 = 1) := by omega
      simp only [categoryLoop, hne1, if_false]
      rw [show 1 + pre.length + 1 = pre.length + 2 by omega, categoryRow_find_error hfind]
    simp [importCategories, hfold]

/-- C2, on the two Drinks rows followed by a row that uses DRK for Food: the run fails
with the abbreviation-conflict error of row 4 and the database is unchanged. -/
theorem importCategories_abbreviation_conflict_witness :
    Rectangular categoryHeader (drinksRows ++ [conflictRow]) ∧
    importCategories sampleGen {} (categoryHeader :: (drinksRows ++ [conflictRow])) =
      (.error (.error (.abbreviationConflict 4)), {}) :=
  ⟨by decide,
    (importCategories_abbreviation_conflict sampleGen {} categoryHeader
      (drinksRows ++ [conflictRow]) (by decide)).2 drinksRows conflictRow [] drinksState rfl
      (by decide) ⟨["Drinks", "Minuman", "DRK", "Soda", "Soda-ID"], by decide, by decide,
        by decide⟩⟩

theorem findCategory_absent {line : List String} {h : CategoryHeaders} {row : Nat}
    (ha : h.abbreviation < line.length) :
    ∀ (cats : List Category) (i : Nat),
      (∀ c ∈ cats, c.Abbreviation ≠ field line h.abbreviation) →
      findCategory line h row i cats = .ok none := by
  intro cats
  induction cats with
  | nil => intro i _; simp [findCategory]
  | cons c0 rest ih =>
    intro i hall
    simp only [findCategory, index_of_lt ha, bind, Except.bind]
    have hc0 := hall c0 (by simp)
    simp only [hc0, if_false]
    exact ih (i + 1) (fun c hc => hall c (by simp [hc]))

theorem validateC2_subOf_ok {gen : Nat → ObjectID} {st : CategoryState} {line : List String}
    (hEN : field line st.headers.subcategory_name_EN ≠ "")
    (hID : field line st.headers.subcategory_name_ID ≠ "") :
    validateC2 (subOf gen st line) = .ok () := by
  unfold validateC2
  simp only [subOf, index, List.getElem?_cons_zero, hEN, hID, if_false,
    hex_url_ne_empty (gen st.nextID)]

/-- C10, as stated, fails: a data row whose category_name_EN and category_name_ID are
both empty, with no failing row before it, makes `importCategories` fail with an error
whose Unwrap is the subcategory-name error when its subcategory name is empty too, and
with the abbreviation-conflict error, whose Unwrap is nil, when it reuses the
abbreviation of an earlier row. -/
theorem importCategories_both_names_empty_counterexample :
    (field namelessRow (categoryHeaderLoop {} 0 categoryHeader).category_name_EN = "" ∧
      field namelessRow (categoryHeaderLoop {} 0 categoryHeader).category_name_ID = "" ∧
      (importCategories sampleGen {} [categoryHeader, namelessRow]).1 =
        .error (.error (.errorOnRow 2 .errSubcategoryNameENIsRequired)) ∧
      (GoError.errorOnRow 2 .errSubcategoryNameENIsRequired).Unwrap ≠
        some .errCategoryNameENIsRequired) ∧
    (field namelessDrinksRow (categoryHeaderLoop {} 0 categoryHeader).category_name_EN = "" ∧
      field namelessDrinksRow (categoryHeaderLoop {} 0 categoryHeader).category_name_ID = "" ∧
      categoryFold sampleGen (categoryHeader :: drinksRows) = .ok drinksState ∧
      (importCategories sampleGen {}
          (categoryHeader :: (drinksRows ++ [namelessDrinksRow]))).1 =
        .error (.error (.abbreviationConflict 4)) ∧
      (GoError.abbreviationConflict 4).Unwrap ≠ some .errCategoryNameENIsRequired) := by
  decide

/-- C10, amended. On the records of a CSV file: when a data row has an empty
category_name_EN and an empty category_name_ID, its abbreviation is that of no earlier
row, its two subcategory names are not empty, and the rows before it are processed
without failure, `importCategories` fails at that row with an error whose Unwrap is
`errCategoryNameENIsRequired`, and leaves the database as it was. -/
theorem importCategories_both_names_empty (gen : Nat → ObjectID) (db : Database)
    (header : List String) (pre : List (List String)) (r : List String)
    (rest : List (List String)) (st : CategoryState)
    (hrect : Rectangular header (pre ++ r :: rest))
    (hpre : categoryFold gen (header :: pre) = .ok st)
    (hEN : field r (categoryHeaderLoop {} 0 header).category_name_EN = "")
    (_hID : field r (categoryHeaderLoop {} 0 header).category_name_ID = "")
    (hnew : ∀ q ∈ pre, field q (categoryHeaderLoop {} 0 header).abbreviation ≠
      field r (categoryHeaderLoop {} 0 header).abbreviation)
    (hsubEN : field r (categoryHeaderLoop {} 0 header).subcategory_name_EN ≠ "")
    (hsubID : field r (categoryHeaderLoop {} 0 header).subcategory_name_ID ≠ "") :
    ∃ e, importCategories gen db (header :: (pre ++ r :: rest)) = (.error (.error e), db) ∧
      e.Unwrap = some .errCategoryNameENIsRequired := by
  obtain ⟨hne, hlen⟩ := hrect
  have hb := categoryHeaders_below hne
  obtain ⟨hst, habbrs, _, _⟩ := categoryFold_inv hpre
  have hrlen : r.length = header.length := hlen r (by simp)
  have hbr : st.headers.Below r.length := by rw [hst, hrlen]; exact hb
  have hfind : findCategory r st.headers (pre.length + 2) 0 st.categories = .ok none := by
    apply findCategory_absent hbr.2.2.1
    intro c hc hca
    have hmem : c.Abbreviation ∈ st.categories.map (fun c => c.Abbreviation) :=
      List.mem_map_of_mem _ hc
    rw [habbrs, firstAppearances_mem] at hmem
    obtain ⟨q, hq, hqa⟩ := List.mem_map.mp hmem
    rw [hst] at hca
    exact hnew q hq (hqa.trans hca)
  have hv2 : validateC2 (subOf gen st r) = .ok () :=
    validateC2_subOf_ok (by rw [hst]; exact hsubEN) (by rw [hst]; exact hsubID)
  have hv1 : validateC1 (catOf gen st r) = .error (.error .errCategoryNameENIsRequired) := by
    unfold validateC1
    simp [catOf, hst, hEN]
  have hfold : categoryFold gen (header :: (pre ++ r :: rest)) =
      .error (.error (.errorOnRow (pre.length + 2) .errCategoryNameENIsRequired)) := by
    rw [categoryFold_cons] at hpre ⊢
    rw [categoryLoop_append pre (r :: rest) _ 1 (le_refl 1), hpre]
    have hne1 : ¬ (1 + pre.length + 1 = 1) := by omega
    simp only [categoryLoop, hne1, if_false]
    rw [show 1 + pre.length + 1 = pre.length + 2 by omega,
      categoryRow_c1_error hbr hfind hv2 hv1]
  exact ⟨.errorOnRow (pre.length + 2) .errCategoryNameENIsRequired,
    by simp [importCategories, hfold], rfl⟩

/-- C10, amended, on the two Drinks rows followed by a row without category names. -/
theorem importCategories_both_names_empty_witness :
    Rectangular categoryHeader (drinksRows ++ namelessSnackRow :: []) ∧
    categoryFold sampleGen (categoryHeader :: drinksRows) = .ok drinksState ∧
    ∃ e, importCategories sampleGen {} (categoryHeader :: (drinksRows ++ namelessSnackRow :: []))
        = (.error (.error e), {}) ∧
      e.Unwrap = some .errCategoryNameENIsRequired :=
  ⟨by decide, by decide,
    importCategories_both_names_empty sampleGen {} categoryHeader drinksRows namelessSnackRow []
      drinksState (by decide) (by decide) (by decide) (by decide) (by decide) (by decide)
      (by decide)⟩

theorem getParentCategory_ok {cats : List Category} {n : String} {row : Nat} {c : Category} :
    getParentCategory cats n row = .ok c ↔ cats.find? (fun c => c.Name_EN = n) = some c := by
  induction cats with
  | nil => simp [getParentCategory]
  | cons c0 rest ih =>
    unfold getParentCategory
    by_cases h : c0.Name_EN = n <;> simp [h, ih, List.find?_cons]

theorem getParentCategory_error {cats : List Category} {n : String} {row : Nat} {e : GoError} :
    getParentCategory cats n row = .error e → cats.find? (fun c => c.Name_EN = n) = none := by
  induction cats with
  | nil => simp [getParentCategory]
  | cons c0 rest ih =>
    unfold getParentCategory
    by_cases h : c0.Name_EN = n <;> simp [h, List.find?_cons]
    simpa using ih

theorem getChildCategory_ok {cats : List SubCategory} {n : String} {row : Nat}
    {c : SubCategory} :
    getChildCategory cats n row = .ok c ↔ cats.find? (fun c => c.Name_EN = n) = some c := by
  induction cats with
  | nil => simp [getChildCategory]
  | cons c0 rest ih =>
    unfold getChildCategory
    by_cases h : c0.Name_EN = n <;> simp [h, ih, List.find?_cons]

theorem withDescription_fields (p : Product) (d1 d2 : String) :
    (withDescriptionID (withDescriptionEN p d1) d2).ID = p.ID ∧
    (withDescriptionID (withDescriptionEN p d1) d2).Name_EN = p.Name_EN ∧
    (withDescriptionID (withDescriptionEN p d1) d2).Name_ID = p.Name_ID ∧
    (withDescriptionID (withDescriptionEN p d1) d2).BrandID = p.BrandID ∧
    (withDescriptionID (withDescriptionEN p d1) d2).Category1ID = p.Category1ID ∧
    (withDescriptionID (withDescriptionEN p d1) d2).Category2ID = p.Category2ID ∧
    (withDescriptionID (withDescriptionEN p d1) d2).Variants = p.Variants := by
  unfold withDescriptionID withDescriptionEN
  split_ifs <;> exact ⟨rfl, rfl, rfl, rfl, rfl, rfl, rfl⟩

theorem index_ok_field {xs : List String} {i : Nat} {s : String} (h : index xs i = .ok s) :
    index xs i = .ok (field xs i) := by
  rw [index_field h]; exact h

/-- The fields a successful call of `newProduct` has read. -/
theorem newProduct_index {gen : Nat → ObjectID} {cats : List Category} {b : Brand}
    {st st1 : ProductState} {row : Nat} {line : List String} {v : ProductVariant}
    (h : newProduct gen cats b st row line v = .ok st1) :
    index line st.hi.category_name_EN = .ok (field line st.hi.category_name_EN) ∧
    index line st.hi.subcategory_name_EN = .ok (field line st.hi.subcategory_name_EN) ∧
    index line st.hi.sku = .ok (field line st.hi.sku) ∧
    index line st.hi.product_name_ID = .ok (field line st.hi.product_name_ID) ∧
    index line st.hi.product_name_EN = .ok (field line st.hi.product_name_EN) ∧
    index line st.hi.description_EN = .ok (field line st.hi.description_EN) ∧
    index line st.hi.description_ID = .ok (field line st.hi.description_ID) := by
  unfold newProduct at h
  simp only [bind, Except.bind] at h
  split at h
  · simp at h
  · rename_i ctName1 hct1
    split at h
    · simp at h
    · rename_i ctName2 hct2
      split at h
      · simp at h
      · rename_i sku hsku
        split at h
        · simp at h
        · split at h
          · simp at h
          · rename_i nameID hnameID
            split at h
            · simp at h
            · rename_i nameEN hnameEN
              split at h
              · simp at h
              · rename_i descEN hdescEN
                split at h
                · simp at h
                · rename_i descID hdescID
                  exact ⟨index_ok_field hct1, index_ok_field hct2, index_ok_field hsku,
                    index_ok_field hnameID, index_ok_field hnameEN, index_ok_field hdescEN,
                    index_ok_field hdescID⟩

theorem newProduct_ok {gen : Nat → ObjectID} {cats : List Category} {b : Brand}
    {st st1 : ProductState} {row : Nat} {line : List String} {v : ProductVariant}
    (h : newProduct gen cats b st row line v = .ok st1) :
    ∃ p extra, st1.hi = st.hi ∧ st1.products = st.products ++ [p] ∧
      st1.logList = st.logList ++ extra ∧
      p.Name_EN = field line st.hi.product_name_EN ∧ p.Variants = some [v] ∧
      (cats.find? (fun c => c.Name_EN = field line st.hi.category_name_EN) = none →
        extra ≠ []) ∧
      (extra = [] → ResolvedBy st.hi cats line p) := by
  obtain ⟨i1, i2, i3, i4, i5, i6, i7⟩ := newProduct_index h
  cases hp : getParentCategory cats (field line st.hi.category_name_EN) row with
  | error e =>
    cases hc : getChildCategory ({ ID := gen st.nextID } : Category).ChildCategories
        (field line st.hi.subcategory_name_EN) row with
    | ok k => simp [getChildCategory] at hc
    | error e2 =>
      simp only [newProduct, i1, i2, i3, i4, i5, i6, i7, hp, hc, bind, Except.bind] at h
      split at h
      · simp at h
      · split at h
        · simp at h
        · simp at h
        · simp only [Except.ok.injEq] at h
          subst h
          obtain ⟨_, f2, _, _, _, _, f7⟩ := withDescription_fields
            { ID := gen (st.nextID + 1 + 1), Name_ID := field line st.hi.product_name_ID,
              Name_EN := field line st.hi.product_name_EN, BrandID := b.ID,
              Category1ID := gen st.nextID, Category2ID := gen (st.nextID + 1),
              Variants := some [v] }
            (field line st.hi.description_EN) (field line st.hi.description_ID)
          exact ⟨_, [e], rfl, rfl, by simp, f2, f7, by simp, by simp⟩
  | ok c =>
    have hfind := getParentCategory_ok.mp hp
    cases hc : getChildCategory c.ChildCategories (field line st.hi.subcategory_name_EN) row with
    | ok k =>
      have hfindk := getChildCategory_ok.mp hc
      simp only [newProduct, i1, i2, i3, i4, i5, i6, i7, hp, hc, bind, Except.bind] at h
      split at h
      · simp at h
      · rename_i hcontains
        split at h
        · simp at h
        · simp at h
        · simp only [Except.ok.injEq] at h
          subst h
          obtain ⟨_, f2, _, _, f5, f6, f7⟩ := withDescription_fields
            { ID := gen st.nextID, Name_ID := field line st.hi.product_name_ID,
              Name_EN := field line st.hi.product_name_EN, BrandID := b.ID,
              Category1ID := c.ID, Category2ID := k.ID,
              Variants := some [v] }
            (field line st.hi.description_EN) (field line st.hi.description_ID)
          exact ⟨_, [], rfl, rfl, by simp, f2, f7, by simp [hfind],
            fun _ => ⟨c, hfind, f5, by simpa using hcontains, fun _ => ⟨k, hfindk, f6⟩⟩⟩
    | error e2 =>
      simp only [newProduct, i1, i2, i3, i4, i5, i6, i7, hp, hc, bind, Except.bind] at h
      split at h
      · simp at h
      · rename_i hcontains
        split at h
        · simp at h
        · simp at h
        · simp only [Except.ok.injEq] at h
          subst h
          obtain ⟨_, f2, _, _, f5, f6, f7⟩ := withDescription_fields
            { ID := gen (st.nextID + 1), Name_ID := field line st.hi.product_name_ID,
              Name_EN := field line st.hi.product_name_EN, BrandID := b.ID,
              Category1ID := c.ID, Category2ID := gen st.nextID,
              Variants := some [v] }
            (field line st.hi.description_EN) (field line st.hi.description_ID)
          by_cases hch : c.ChildCategories.length > 0
          · exact ⟨_, [e2], rfl, rfl, by simp [hch], f2, f7, by simp, by simp⟩
          · refine ⟨_, [], rfl, rfl, by simp [hch], f2, f7, by simp [hfind], fun _ => ?_⟩
            refine ⟨c, hfind, f5, by simpa using hcontains, fun hne => ?_⟩
            exact absurd (List.length_pos.mpr hne) hch

theorem findProduct_none {line : List String} {hi : HeadersIndex} {ps : List Product} :
    ∀ {i : Nat}, findProduct line hi i ps = .ok none →
    ∀ p ∈ ps, p.Name_EN ≠ field line hi.product_name_EN := by
  induction ps with
  | nil => intro i _ p hp; simp at hp
  | cons p0 rest ih =>
    intro i hf p hp
    cases hn : index line hi.product_name_EN with
    | error e => simp [findProduct, hn, bind, Except.bind] at hf
    | ok n =>
      simp only [findProduct, hn, bind, Except.bind] at hf
      have hfn := index_field hn
      by_cases hp0 : p0.Name_EN = n
      · simp [hp0] at hf
      · simp only [hp0, if_false] at hf
        rcases List.mem_cons.mp hp with rfl | hp
        · rw [hfn]; exact hp0
        · exact ih hf p hp

theorem findProduct_some {line : List String} {hi : HeadersIndex} {ps : List Product} :
    ∀ {i j : Nat}, findProduct line hi i ps = .ok (some j) →
    ∃ l1 p l2, ps = l1 ++ p :: l2 ∧ j = i + l1.length ∧
      p.Name_EN = field line hi.product_name_EN ∧
      ∀ q ∈ l1, q.Name_EN ≠ field line hi.product_name_EN := by
  induction ps with
  | nil => intro i j hf; simp [findProduct] at hf
  | cons p0 rest ih =>
    intro i j hf
    cases hn : index line hi.product_name_EN with
    | error e => simp [findProduct, hn, bind, Except.bind] at hf
    | ok n =>
      simp only [findProduct, hn, bind, Except.bind] at hf
      have hfn := index_field hn
      by_cases hp0 : p0.Name_EN = n
      · simp [hp0] at hf
        exact ⟨[], p0, rest, rfl, by simp [hf], by rw [hfn]; exact hp0, by simp⟩
      · simp only [hp0, if_false] at hf
        obtain ⟨l1, p, l2, hps, hj, hnm, hl1⟩ := ih hf
        refine ⟨p0 :: l1, p, l2, by simp [hps], by simp [hj]; omega, hnm, ?_⟩
        intro q hq
        rcases List.mem_cons.mp hq with rfl | hq
        · rw [hfn]; exact hp0
        · exact hl1 q hq

theorem appendVariant_ok {ps ps1 : List Product} {j : Nat} {v : ProductVariant}
    (h : appendVariant ps j v = .ok ps1) :
    ∃ p, ps[j]? = some p ∧
      ps1 = ps.set j { p with Variants := some (p.Variants.getD [] ++ [v]) } := by
  unfold appendVariant at h
  split at h
  · simp at h
  · rename_i p hp
    simp only [Except.ok.injEq] at h
    exact ⟨p, hp, h.symm⟩

theorem productRow_ok {gen : Nat → ObjectID} {cats : List Category} {b : Brand}
    {vt : VariantType} {st st1 : ProductState} {row : Nat} {line : List String}
    (h : productRow gen cats b vt st row line = .ok st1) :
    (Skipped st.hi line ∧ ∃ e, st1 = { st with logList := st.logList ++ [e] }) ∨
    (¬ Skipped st.hi line ∧ validateProductVariant (variantOf gen vt st line) = .ok () ∧
      ∃ found, findProduct line st.hi 0 st.products = .ok found ∧
        ((∃ j p, found = some j ∧ st.products[j]? = some p ∧
            st1 = { st with
              products := st.products.set j
                { p with Variants := some (p.Variants.getD [] ++ [variantOf gen vt st line]) }
              logList := parsedLog st.hi st.logList row line
              nextID := st.nextID + 1 }) ∨
         (found = none ∧
            newProduct gen cats b
              { st with logList := parsedLog st.hi st.logList row line, nextID := st.nextID + 1 }
              row line (variantOf gen vt st line) = .ok st1))) := by
  unfold productRow at h
  simp only [bind, Except.bind] at h
  split at h
  · simp at h
  · rename_i imageURL himg
    have e1 := index_field himg
    subst e1
    split at h
    · rename_i hempty
      left
      simp only [Except.ok.injEq] at h
      exact ⟨Or.inl hempty, _, h.symm⟩
    · rename_i hne1
      split at h
      · simp at h
      · rename_i barcode hbar
        have e2 := index_field hbar
        subst e2
        split at h
        · rename_i hempty
          left
          simp only [Except.ok.injEq] at h
          exact ⟨Or.inr hempty, _, h.symm⟩
        · rename_i hne2
          right
          refine ⟨fun hs => hs.elim hne1 hne2, ?_⟩
          split at h
          · simp at h
          · rename_i maxo hmaxo
            have e3 := index_field hmaxo
            subst e3
            split at h
            · simp at h
            · rename_i found hfound
              split at h
              · simp at h
              · rename_i sku hsku
                have e4 := index_field hsku
                subst e4
                split at h
                · simp at h
                · rename_i svid hsvid
                  have e5 := index_field hsvid
                  subst e5
                  split at h
                  · simp at h
                  · rename_i vv hvv
                    have e6 := index_field hvv
                    subst e6
                    split at h
                    · simp at h
                    · rename_i qid hqid
                      have e7 := index_field hqid
                      subst e7
                      split at h
                      · simp at h
                      · rename_i qen hqen
                        have e8 := index_field hqen
                        subst e8
                        split at h
                        · simp at h
                        · rename_i dv hdv
                          have e9 := index_field hdv
                          subst e9
                          split at h
                          · simp at h
                          · simp at h
                          · rename_i hvalid
                            refine ⟨hvalid, found, hfound, ?_⟩
                            split at h
                            · rename_i j
                              left
                              cases hap : appendVariant st.products j
                                  (variantOf gen vt st line) with
                              | error e =>
                                have h2 : (Except.error e : Except Abort ProductState) =
                                    .ok st1 := by
                                  rw [← h]; simp only [variantOf] at hap
                                  simp only [hap]
                                simp at h2
                              | ok ps1 =>
                                obtain ⟨p, hp, hps1⟩ := appendVariant_ok hap
                                refine ⟨j, p, rfl, hp, ?_⟩
                                have h2 : (Except.ok { st with
                                    products := ps1
                                    logList := parsedLog st.hi st.logList row line
                                    nextID := st.nextID + 1 } : Except Abort ProductState) =
                                    .ok st1 := by
                                  rw [← h]; simp only [variantOf] at hap
                                  simp only [hap]
                                  unfold parsedLog
                                  cases (ParseInt (field line st.hi.maximum_order)).2 <;> rfl
                                simp only [Except.ok.injEq] at h2
                                rw [← h2, hps1]
                            · right
                              exact ⟨rfl, h⟩

theorem kept_append (hi : HeadersIndex) (pre : List (List String)) (line : List String) :
    kept hi (pre ++ [line]) = if Skipped hi line then kept hi pre else kept hi pre ++ [line] := by
  unfold kept
  by_cases h : Skipped hi line <;> simp [List.filter_append, h]

theorem parsedLog_eq_nil {hi : HeadersIndex} {l : List GoError} {row : Nat}
    {line : List String} (h : parsedLog hi l row line = []) : l = [] := by
  unfold parsedLog at h
  split at h
  · simp at h
  · exact h

theorem variantKey_variantOf (gen : Nat → ObjectID) (vt : VariantType) (st : ProductState)
    (line : List String) : variantKey (variantOf gen vt st line) = rowKey st.hi line := by
  unfold variantOf variantKey rowKey
  simp only
  split_ifs <;> rfl

/-- A row that is skipped keeps the invariant. -/
theorem productInv_skipped {hi : HeadersIndex} {cats : List Category}
    {pre : List (List String)} {st : ProductState} {line : List String} {e : GoError}
    (hinv : ProductInv hi cats pre st) (hs : Skipped hi line) :
    ProductInv hi cats (pre ++ [line]) { st with logList := st.logList ++ [e] } := by
  obtain ⟨hh, hnames, hvars, _⟩ := hinv
  refine ⟨hh, ?_, ?_, ?_⟩
  · simpa [kept_append, hs] using hnames
  · simpa [kept_append, hs] using hvars
  · intro hlog; simp at hlog

/-- A row whose product name is in the list keeps the invariant. -/
theorem productInv_found {hi : HeadersIndex} {cats : List Category}
    {pre : List (List String)} {st : ProductState} {line : List String}
    {l1 l2 : List Product} {p : Product} {v : ProductVariant} {n : Nat} {log : List GoError}
    (hinv : ProductInv hi cats pre st) (hs : ¬ Skipped hi line)
    (hps : st.products = l1 ++ p :: l2)
    (hnm : p.Name_EN = field line hi.product_name_EN)
    (hv : variantKey v = rowKey hi line)
    (hlog : log = [] → st.logList = []) :
    ProductInv hi cats (pre ++ [line])
      { st with
        products := st.products.set l1.length
          { p with Variants := some (p.Variants.getD [] ++ [v]) }
        logList := log
        nextID := n } := by
  obtain ⟨hh, hnames, hvars, hres⟩ := hinv
  have hnd : (st.products.map (fun p => p.Name_EN)).Nodup := by
    rw [hnames]; exact firstAppearances_nodup _
  have hset : st.products.set l1.length { p with Variants := some (p.Variants.getD [] ++ [v]) }
      = l1 ++ { p with Variants := some (p.Variants.getD [] ++ [v]) } :: l2 := by
    rw [hps]; simp
  have hin : field line hi.product_name_EN ∈
      (kept hi pre).map (fun r => field r hi.product_name_EN) := by
    rw [← firstAppearances_mem, ← hnames, hps, ← hnm]; simp
  have hother : ∀ q, q ∈ l1 ∨ q ∈ l2 → q.Name_EN ≠ p.Name_EN := by
    intro q hq heq
    rw [hps] at hnd
    simp only [List.map_append, List.map_cons] at hnd
    rw [List.nodup_append] at hnd
    obtain ⟨_, hnd2, hdis⟩ := hnd
    rcases hq with hq | hq
    · exact hdis (List.mem_map_of_mem _ hq) (by rw [heq]; simp)
    · rw [List.nodup_cons] at hnd2
      exact hnd2.1 (by rw [← heq]; exact List.mem_map_of_mem _ hq)
  have hmem : ∀ q, q ∈ l1 ∨ q ∈ l2 → q ∈ st.products := by
    intro q hq; rw [hps]; simp; tauto
  have hpmem : p ∈ st.products := by rw [hps]; simp
  have hkept : kept hi (pre ++ [line]) = kept hi pre ++ [line] := by simp [kept_append, hs]
  refine ⟨hh, ?_, ?_, ?_⟩
  · simp only [hset, hkept, List.map_append, List.map_cons, List.map_nil,
      firstAppearances_snoc, hin, if_true]
    rw [← hnames, hps]; simp
  · intro q hq
    simp only [hset, List.mem_append, List.mem_cons] at hq
    rcases hq with hq | rfl | hq
    · have := hother q (Or.inl hq)
      rw [hnm] at this
      obtain ⟨vs, hvs, hkeys⟩ := hvars q (hmem q (Or.inl hq))
      exact ⟨vs, hvs, by simp [hkept, List.filter_append, Ne.symm this, hkeys]⟩
    · obtain ⟨vs, hvs, hkeys⟩ := hvars p hpmem
      exact ⟨vs ++ [v], by simp [hvs], by simp [hkept, List.filter_append, hnm, hkeys, hv]⟩
    · have := hother q (Or.inr hq)
      rw [hnm] at this
      obtain ⟨vs, hvs, hkeys⟩ := hvars q (hmem q (Or.inr hq))
      exact ⟨vs, hvs, by simp [hkept, List.filter_append, Ne.symm this, hkeys]⟩
  · intro hl q hq
    have hres1 := hres (hlog hl)
    simp only [hset, List.mem_append, List.mem_cons] at hq
    have hkeep : ∀ q1 ∈ st.products, ∀ q2 : Product, q2.Name_EN = q1.Name_EN →
        q2.Category1ID = q1.Category1ID → q2.Category2ID = q1.Category2ID →
        ∃ r, (kept hi (pre ++ [line])).find?
            (fun r => field r hi.product_name_EN = q2.Name_EN) = some r ∧
          ResolvedBy hi cats r q2 := by
      intro q1 hq1 q2 e1 e2 e3
      obtain ⟨r, hr, c, hc, hc1, hcon, hc2⟩ := hres1 q1 hq1
      refine ⟨r, ?_, c, hc, e2.trans hc1, hcon, fun hne => ?_⟩
      · rw [hkept, List.find?_append, e1, hr]; rfl
      · obtain ⟨k, hk, hk2⟩ := hc2 hne
        exact ⟨k, hk, e3.trans hk2⟩
    rcases hq with hq | rfl | hq
    · exact hkeep q (hmem q (Or.inl hq)) q rfl rfl rfl
    · exact hkeep p hpmem _ rfl rfl rfl
    · exact hkeep q (hmem q (Or.inr hq)) q rfl rfl rfl

/-- A row that starts a new product keeps the invariant. -/
theorem productInv_new {hi : HeadersIndex} {cats : List Category}
    {pre : List (List String)} {st : ProductState} {line : List String}
    {p : Product} {v : ProductVariant} {n : Nat} {log : List GoError}
    (hinv : ProductInv hi cats pre st) (hs : ¬ Skipped hi line)
    (hnone : ∀ q ∈ st.products, q.Name_EN ≠ field line hi.product_name_EN)
    (hnm : p.Name_EN = field line hi.product_name_EN)
    (hvar : p.Variants = some [v])
    (hv : variantKey v = rowKey hi line)
    (hlog : log = [] → st.logList = [] ∧ ResolvedBy hi cats line p) :
    ProductInv hi cats (pre ++ [line])
      { st with products := st.products ++ [p], logList := log, nextID := n } := by
  obtain ⟨hh, hnames, hvars, hres⟩ := hinv
  have hkept : kept hi (pre ++ [line]) = kept hi pre ++ [line] := by simp [kept_append, hs]
  have hnotin : field line hi.product_name_EN ∉
      (kept hi pre).map (fun r => field r hi.product_name_EN) := by
    rw [← firstAppearances_mem, ← hnames]
    intro hmem
    obtain ⟨q, hq, hqe⟩ := List.mem_map.mp hmem
    exact hnone q hq hqe
  have hpre : ∀ r ∈ kept hi pre,
      field r hi.product_name_EN ≠ field line hi.product_name_EN := by
    intro r hr heq
    exact hnotin (List.mem_map.mpr ⟨r, hr, heq⟩)
  refine ⟨hh, ?_, ?_, ?_⟩
  · simp only [hkept, List.map_append, List.map_cons, List.map_nil, firstAppearances_snoc,
      hnotin, if_false, hnames, hnm]
  · intro q hq
    simp only [List.mem_append, List.mem_singleton] at hq
    rcases hq with hq | rfl
    · have := hnone q hq
      obtain ⟨vs, hvs, hkeys⟩ := hvars q hq
      exact ⟨vs, hvs, by simp [hkept, List.filter_append, Ne.symm this, hkeys]⟩
    · have hfil : (kept hi pre).filter
          (fun r => decide (field r hi.product_name_EN = field line hi.product_name_EN)) = [] := by
        rw [List.filter_eq_nil_iff]
        intro r hr
        simpa using hpre r hr
      exact ⟨[v], hvar, by simp [hkept, List.filter_append, hnm, hfil, hv]⟩
  · intro hl q hq
    obtain ⟨hl0, hresp⟩ := hlog hl
    simp only [List.mem_append, List.mem_singleton] at hq
    rcases hq with hq | rfl
    · obtain ⟨r, hr, hrr⟩ := hres hl0 q hq
      exact ⟨r, by rw [hkept, List.find?_append, hr]; rfl, hrr⟩
    · refine ⟨line, ?_, hresp⟩
      have hnf : (kept hi pre).find?
          (fun r => decide (field r hi.product_name_EN = q.Name_EN)) = none := by
        rw [List.find?_eq_none]
        intro r hr
        simpa [hnm] using hpre r hr
      rw [hkept, List.find?_append, hnf]
      simp [hnm]

theorem parsedLog_append (hi : HeadersIndex) (l : List GoError) (row : Nat)
    (line : List String) :
    ∃ extra, parsedLog hi l row line = l ++ extra ∧
      ((ParseInt (field line hi.maximum_order)).2 ≠ none → extra ≠ []) := by
  unfold parsedLog
  cases (ParseInt (field line hi.maximum_order)).2 with
  | none => exact ⟨[], by simp, by simp⟩
  | some e => exact ⟨[_], rfl, by simp⟩

theorem productInv_congr {hi : HeadersIndex} {cats : List Category}
    {pre : List (List String)} {st1 st2 : ProductState}
    (h1 : st1.hi = st2.hi) (h2 : st1.products = st2.products)
    (h3 : st1.logList = st2.logList) (h : ProductInv hi cats pre st1) :
    ProductInv hi cats pre st2 := by
  unfold ProductInv at h ⊢
  rw [← h1, ← h2, ← h3]
  exact h

theorem productRow_inv {gen : Nat → ObjectID} {cats : List Category} {b : Brand}
    {vt : VariantType} {hi : HeadersIndex} {pre : List (List String)}
    {st st1 : ProductState} {row : Nat} {line : List String}
    (hinv : ProductInv hi cats pre st)
    (hrow : productRow gen cats b vt st row line = .ok st1) :
    ProductInv hi cats (pre ++ [line]) st1 := by
  have hh : st.hi = hi := hinv.1
  rcases productRow_ok hrow with ⟨hs, e, rfl⟩ | ⟨hs, _, found, hfound, hcase⟩
  · exact productInv_skipped hinv (hh ▸ hs)
  · rw [hh] at hs
    rcases hcase with ⟨j, p, rfl, hp, rfl⟩ | ⟨rfl, hnew⟩
    · obtain ⟨l1, p0, l2, hps, hj, hnm, _⟩ := findProduct_some hfound
      have hp0 : p = p0 := by
        rw [hps, hj, Nat.zero_add, List.getElem?_append_right (le_refl _)] at hp
        simp at hp
        exact hp.symm
      subst hp0
      rw [hj, Nat.zero_add]
      rw [hh] at hnm
      exact productInv_found hinv hs hps hnm (by rw [variantKey_variantOf, hh])
        parsedLog_eq_nil
    · have hnone := findProduct_none hfound
      rw [hh] at hnone
      obtain ⟨p, extra, h1, h2, h3, h4, h5, _, h7⟩ := newProduct_ok hnew
      simp only at h1 h2 h3 h4 h7
      rw [hh] at h4 h7
      have hlog : st1.logList = [] → st.logList = [] ∧ ResolvedBy hi cats line p := by
        intro hl
        rw [h3] at hl
        obtain ⟨hl1, hl2⟩ := List.append_eq_nil.mp hl
        exact ⟨parsedLog_eq_nil hl1, h7 hl2⟩
      have hrec := @productInv_new hi cats pre st line p (variantOf gen vt st line) 0
        st1.logList hinv hs hnone h4 h5 (by rw [variantKey_variantOf, hh]) hlog
      refine productInv_congr ?_ ?_ ?_ hrec
      · exact h1.symm
      · exact h2.symm
      · rfl

theorem productLoop_inv {gen : Nat → ObjectID} {cats : List Category} {b : Brand}
    {vt : VariantType} {hi : HeadersIndex} {st1 : ProductState} :
    ∀ (rest pre : List (List String)) (st : ProductState) (i : Nat), 1 ≤ i →
      ProductInv hi cats pre st → productLoop gen cats b vt st i rest = .ok st1 →
      ProductInv hi cats (pre ++ rest) st1 := by
  intro rest
  induction rest with
  | nil =>
    intro pre st i _ hinv hl
    simp only [productLoop, Except.ok.injEq] at hl
    subst hl
    simpa using hinv
  | cons line rest ih =>
    intro pre st i hi1 hinv hl
    have hne : ¬ (i + 1 = 1) := by omega
    simp only [productLoop, hne, if_false] at hl
    cases hrow : productRow gen cats b vt st (i + 1) line with
    | error e => simp [hrow] at hl
    | ok st2 =>
      simp only [hrow] at hl
      have := ih (pre ++ [line]) st2 (i + 1) (by omega) (productRow_inv hinv hrow) hl
      simpa using this

/-- The product fold on a header and data rows: the reference data, then the data rows
from the state that holds the header indices. -/
theorem productFold_cons (gen : Nat → ObjectID) (db : Database) (header : List String)
    (rows : List (List String)) (hcat : db.category ≠ []) :
    productFold gen db (header :: rows) =
      (productLoop gen db.category (referenceData gen db).1 (referenceData gen db).2.1
        { hi := getProductsHeaderIndex header, nextID := (referenceData gen db).2.2.2 } 1 rows,
        (referenceData gen db).2.2.1) := by
  have hlen : ¬ db.category.length < 1 := by
    have := List.length_pos.mpr hcat
    omega
  simp [productFold, getCategories, hlen, productLoop]

theorem productFold_ok_category {gen : Nat → ObjectID} {db : Database}
    {lines : List (List String)} {st : ProductState}
    (h : (productFold gen db lines).1 = .ok st) : db.category ≠ [] := by
  intro hnil
  simp [productFold, getCategories, hnil] at h

theorem productFold_inv {gen : Nat → ObjectID} {db : Database} {header : List String}
    {rows : List (List String)} {st : ProductState}
    (hfold : (productFold gen db (header :: rows)).1 = .ok st) :
    ProductInv (getProductsHeaderIndex header) db.category rows st := by
  rw [productFold_cons gen db header rows (productFold_ok_category hfold)] at hfold
  have h0 : ProductInv (getProductsHeaderIndex header) db.category []
      { hi := getProductsHeaderIndex header, nextID := (referenceData gen db).2.2.2 } := by
    refine ⟨rfl, ?_, ?_, ?_⟩ <;> simp [firstAppearances, kept]
  simpa using productLoop_inv rows [] _ 1 (le_refl 1) h0 hfold

/-- C7. When the product fold of `importProducts` meets no hard failure, the English
names of the in-progress products are pairwise distinct and are those of the rows that
are not skipped, in order of first appearance, and the variants of every product are,
in row order, one per row that is not skipped and has its product_name_ENG, with the
product_variant_id, SKU and barcode of that row. -/
theorem productFold_groups_rows (gen : Nat → ObjectID) (db : Database)
    (header : List String) (rows : List (List String)) (st : ProductState)
    (hfold : (productFold gen db (header :: rows)).1 = .ok st) :
    (st.products.map (fun p => p.Name_EN)).Nodup ∧
    st.products.map (fun p => p.Name_EN) =
      firstAppearances ((kept (getProductsHeaderIndex header) rows).map
        (fun r => field r (getProductsHeaderIndex header).product_name_EN)) ∧
    ∀ p ∈ st.products, ∃ vs, p.Variants = some vs ∧
      vs.map variantKey =
        ((kept (getProductsHeaderIndex header) rows).filter
          (fun r => field r (getProductsHeaderIndex header).product_name_EN = p.Name_EN)).map
          (rowKey (getProductsHeaderIndex header)) := by
  obtain ⟨_, hnames, hvars, _⟩ := productFold_inv hfold
  exact ⟨by rw [hnames]; exact firstAppearances_nodup _, hnames, hvars⟩

/-- C7, on the two Cola rows: one product Cola with the variants v1 and v2. -/
theorem productFold_groups_rows_witness :
    (productFold sampleGen sampleDb (productHeader :: [colaRow, strayColaRow])).1 =
      .ok colaState ∧
    colaState.products.map (fun p => (p.Name_EN, (p.Variants.getD []).map variantKey)) =
      [("Cola", [("v1", "DRK-001", "899"), ("v2", "XXX-002", "900")])] ∧
    ((colaState.products.map (fun p => p.Name_EN)).Nodup ∧
    colaState.products.map (fun p => p.Name_EN) =
      firstAppearances ((kept (getProductsHeaderIndex productHeader)
        [colaRow, strayColaRow]).map
        (fun r => field r (getProductsHeaderIndex productHeader).product_name_EN)) ∧
    ∀ p ∈ colaState.products, ∃ vs, p.Variants = some vs ∧
      vs.map variantKey =
        ((kept (getProductsHeaderIndex productHeader) [colaRow, strayColaRow]).filter
          (fun r => field r (getProductsHeaderIndex productHeader).product_name_EN
            = p.Name_EN)).map
          (rowKey (getProductsHeaderIndex productHeader))) :=
  ⟨by decide, by decide,
    productFold_groups_rows sampleGen sampleDb productHeader [colaRow, strayColaRow] colaState
      (by decide)⟩

/-- C4, at a failing input. The Cola rows import successfully although the SKU XXX-002
of the second variant of Cola does not contain DRK, the abbreviation of the persisted
category (identifier 100) that the Category1ID of Cola refers to: the SKU is checked
against the abbreviation only on the row that creates the product. -/
theorem importProducts_sku_of_later_variant_unchecked :
    importProducts sampleGen sampleDb [productHeader, colaRow, strayColaRow] =
      (.ok (), { sampleDb with product := colaState.products }) ∧
    colaState.products.map
      (fun p => (p.Name_EN, p.Category1ID, (p.Variants.getD []).map (fun v => v.SKU))) =
      [("Cola", ⟨100⟩, ["DRK-001", "XXX-002"])] ∧
    (sampleDb.category.filter (fun c => c.ID = ⟨100⟩)).map (fun c => c.Abbreviation) =
      ["DRK"] ∧
    Contains "XXX-002" "DRK" = false := by
  decide

/-- C6, as stated, fails: the Cola row alone imports successfully; with a further row
whose barcode is empty, or whose image URL is empty, `importProducts` returns the error
found several errors while importing products and inserts no product, because the
message of the skipped row is appended to `logList`, the list that gates the bulk
insert. -/
theorem importProducts_skipped_row_counterexample :
    importProducts sampleGen sampleDb [productHeader, colaRow] =
      (.ok (), { sampleDb with product := [colaProduct] }) ∧
    field noBarcodeRow (getProductsHeaderIndex productHeader).barcode = "" ∧
    importProducts sampleGen sampleDb [productHeader, colaRow, noBarcodeRow] =
      (.error (.error .foundSeveralErrors), sampleDb) ∧
    (productFold sampleGen sampleDb [productHeader, colaRow, noBarcodeRow]).1.toOption.map
      (fun st => st.logList) = some [.barcodeEmpty 3] ∧
    field noImageRow (getProductsHeaderIndex productHeader).image_url = "" ∧
    importProducts sampleGen sampleDb [productHeader, colaRow, noImageRow] =
      (.error (.error .foundSeveralErrors), sampleDb) ∧
    (productFold sampleGen sampleDb [productHeader, colaRow, noImageRow]).1.toOption.map
      (fun st => st.logList) = some [.imageURLEmpty 3] := by
  decide

/-- C8, as stated, fails: the row of Thing, in the persisted category Misc, which has no
child, imports successfully, and the Category2ID of Thing is a freshly generated
identifier, that of no child of Misc. -/
theorem importProducts_resolves_categories_counterexample :
    (importProducts sampleGen sampleDb [productHeader, miscRow]).1 = .ok () ∧
    (importProducts sampleGen sampleDb [productHeader, miscRow]).2.product.map
      (fun p => (p.Name_EN, p.Category1ID, p.Category2ID)) = [("Thing", ⟨200⟩, ⟨2⟩)] ∧
    (sampleDb.category.filter (fun c => c.Name_EN = "Misc")).map
      (fun c => (c.ID, c.ChildCategories)) = [(⟨200⟩, [])] := by
  decide

theorem referenceData_db (gen : Nat → ObjectID) (db : Database) :
    (referenceData gen db).2.2.1.product = db.product ∧
    (referenceData gen db).2.2.1.category = db.category := by
  unfold referenceData findOrInsertVariantType findOrInsertBrand
  simp only
  split <;> split <;> exact ⟨rfl, rfl⟩

theorem productFold_db (gen : Nat → ObjectID) (db : Database) (lines : List (List String)) :
    (productFold gen db lines).2.product = db.product := by
  unfold productFold
  split
  · rfl
  · exact (referenceData_db gen db).1

theorem productFold_db_eq {gen : Nat → ObjectID} {db : Database}
    {lines : List (List String)} (hcat : db.category ≠ []) :
    (productFold gen db lines).2 = (referenceData gen db).2.2.1 := by
  have hlen : ¬ db.category.length < 1 := by
    have := List.length_pos.mpr hcat
    omega
  simp [productFold, getCategories, hlen]

theorem productRow_log {gen : Nat → ObjectID} {cats : List Category} {b : Brand}
    {vt : VariantType} {st st1 : ProductState} {row : Nat} {line : List String}
    (h : productRow gen cats b vt st row line = .ok st1) :
    (st.logList ≠ [] → st1.logList ≠ []) ∧
    (Skipped st.hi line → st1.logList ≠ []) ∧
    ((ParseInt (field line st.hi.maximum_order)).2 ≠ none → st1.logList ≠ []) ∧
    (¬ Skipped st.hi line →
      (∀ q ∈ st.products, q.Name_EN ≠ field line st.hi.product_name_EN) →
      cats.find? (fun c => c.Name_EN = field line st.hi.category_name_EN) = none →
      st1.logList ≠ []) := by
  rcases productRow_ok h with ⟨hs, e, rfl⟩ | ⟨hs, _, found, hfound, hcase⟩
  · simp
  · obtain ⟨extra, hpl, hparse⟩ := parsedLog_append st.hi st.logList row line
    rcases hcase with ⟨j, p, rfl, hp, rfl⟩ | ⟨rfl, hnew⟩
    · obtain ⟨l1, p0, l2, hps, _, hnm, _⟩ := findProduct_some hfound
      refine ⟨?_, fun h1 => absurd h1 hs, ?_, ?_⟩
      · intro h1; simp [hpl, h1]
      · intro h1; simp [hpl, hparse h1]
      · intro _ hall _
        exact absurd hnm (hall p0 (by rw [hps]; simp))
    · obtain ⟨p, extra2, _, _, h3, _, _, h6, _⟩ := newProduct_ok hnew
      simp only at h3 h6
      refine ⟨?_, fun h1 => absurd h1 hs, ?_, ?_⟩
      · intro h1; simp [h3, hpl, h1]
      · intro h1; simp [h3, hpl, hparse h1]
      · intro _ _ hmiss; simp [h3, h6 hmiss]

theorem productRow_hi {gen : Nat → ObjectID} {cats : List Category} {b : Brand}
    {vt : VariantType} {st st1 : ProductState} {row : Nat} {line : List String}
    (h : productRow gen cats b vt st row line = .ok st1) : st1.hi = st.hi := by
  rcases productRow_ok h with ⟨_, e, rfl⟩ | ⟨_, _, found, _, hcase⟩
  · rfl
  · rcases hcase with ⟨j, p, _, _, rfl⟩ | ⟨_, hnew⟩
    · rfl
    · obtain ⟨p, extra2, h1, _⟩ := newProduct_ok hnew
      exact h1

theorem productLoop_log {gen : Nat → ObjectID} {cats : List Category} {b : Brand}
    {vt : VariantType} {st1 : ProductState} :
    ∀ (rest : List (List String)) (st : ProductState) (i : Nat), 1 ≤ i →
      productLoop gen cats b vt st i rest = .ok st1 → st.logList ≠ [] → st1.logList ≠ [] := by
  intro rest
  induction rest with
  | nil =>
    intro st i _ hl hne
    simp only [productLoop, Except.ok.injEq] at hl
    subst hl
    exact hne
  | cons line rest ih =>
    intro st i hi1 hl hlog
    have hne : ¬ (i + 1 = 1) := by omega
    simp only [productLoop, hne, if_false] at hl
    cases hrow : productRow gen cats b vt st (i + 1) line with
    | error e => simp [hrow] at hl
    | ok st2 =>
      simp only [hrow] at hl
      exact ih st2 (i + 1) (by omega) hl ((productRow_log hrow).1 hlog)

theorem productLoop_append {gen : Nat → ObjectID} {cats : List Category} {b : Brand}
    {vt : VariantType} :
    ∀ (pre rest : List (List String)) (st : ProductState) (i : Nat), 1 ≤ i →
      productLoop gen cats b vt st i (pre ++ rest) =
        match productLoop gen cats b vt st i pre with
        | .error a => .error a
        | .ok st1 => productLoop gen cats b vt st1 (i + pre.length) rest := by
  intro pre
  induction pre with
  | nil => intro rest st i _; simp [productLoop]
  | cons line pre ih =>
    intro rest st i hi
    have hne : ¬ (i + 1 = 1) := by omega
    simp only [List.cons_append, productLoop, hne, if_false]
    cases hrow : productRow gen cats b vt st (i + 1) line with
    | error a => simp
    | ok st2 =>
      simp only
      have := ih rest st2 (i + 1) (by omega)
      rw [show i + 1 + pre.length = i + (line :: pre).length by simp; omega] at this
      exact this

/-- A product fold without hard failure, cut at a data row: the fold of the rows before
it, that row, and the rows after it all end without hard failure. -/
theorem productFold_split {gen : Nat → ObjectID} {db : Database} {header : List String}
    {pre rest : List (List String)} {r : List String} {st : ProductState}
    (h : (productFold gen db (header :: (pre ++ r :: rest))).1 = .ok st) :
    ∃ sa sb, (productFold gen db (header :: pre)).1 = .ok sa ∧
      productRow gen db.category (referenceData gen db).1 (referenceData gen db).2.1 sa
        (pre.length + 2) r = .ok sb ∧
      productLoop gen db.category (referenceData gen db).1 (referenceData gen db).2.1 sb
        (pre.length + 2) rest = .ok st := by
  have hcat := productFold_ok_category h
  rw [productFold_cons gen db _ _ hcat] at h
  simp only at h
  rw [productLoop_append pre (r :: rest) _ 1 (le_refl 1)] at h
  cases hpre : productLoop gen db.category (referenceData gen db).1 (referenceData gen db).2.1
      { hi := getProductsHeaderIndex header, nextID := (referenceData gen db).2.2.2 } 1 pre with
  | error a => simp [hpre] at h
  | ok sa =>
    simp only [hpre] at h
    have hne1 : ¬ (1 + pre.length + 1 = 1) := by omega
    simp only [productLoop, hne1, if_false] at h
    rw [show 1 + pre.length + 1 = pre.length + 2 by omega] at h
    cases hrow : productRow gen db.category (referenceData gen db).1
        (referenceData gen db).2.1 sa (pre.length + 2) r with
    | error a => simp [hrow] at h
    | ok sb =>
      simp only [hrow] at h
      refine ⟨sa, sb, ?_, hrow, h⟩
      rw [productFold_cons gen db _ _ hcat]
      exact hpre

theorem importProducts_of_fold {gen : Nat → ObjectID} {db : Database}
    {lines : List (List String)} {st : ProductState}
    (hfold : (productFold gen db lines).1 = .ok st) :
    importProducts gen db lines =
      if st.logList.length > 0 then
        (.error (.error .foundSeveralErrors), (productFold gen db lines).2)
      else insertProducts (productFold gen db lines).2 st.products := by
  have hpair : productFold gen db lines = (.ok st, (productFold gen db lines).2) :=
    Prod.ext hfold rfl
  unfold importProducts
  rw [hpair]

/-- C3. When the product fold meets no hard failure, `importProducts` issues the bulk
insert into the product collection exactly when no deferred error was recorded. With no
deferred error and at least one product, the run ends normally and the collection is the
one it found followed by the products of the fold; with no deferred error and no
product, the empty batch is refused by the driver and nothing is inserted; with a
deferred error the run returns the error found several errors while importing products
and the collection is the one it found. So the run ends normally exactly when there is
no deferred error and a product, and returns the generic error exactly when there is a
deferred error. Fetching the reference data inserts no product. In particular, when the
maximum_ordered_qty of some data row does not parse, or a row that is not skipped starts
a new product and its category_name_EN is the name of no persisted category, the run
returns that error and the product collection receives no insert. -/
theorem importProducts_deferred_error_gate (gen : Nat → ObjectID) (db : Database)
    (header : List String) (rows : List (List String)) (st : ProductState)
    (hfold : (productFold gen db (header :: rows)).1 = .ok st) :
    ((st.logList = [] → st.products ≠ [] →
        importProducts gen db (header :: rows) =
          (.ok (),
            { (productFold gen db (header :: rows)).2 with
              product := db.product ++ st.products })) ∧
      (st.logList = [] → st.products = [] →
        importProducts gen db (header :: rows) =
          (.error (.error (.bulkWriteProducts .errEmptySlice)),
            (productFold gen db (header :: rows)).2)) ∧
      (st.logList ≠ [] →
        importProducts gen db (header :: rows) =
          (.error (.error .foundSeveralErrors), (productFold gen db (header :: rows)).2)) ∧
      (st.logList = [] →
        (importProducts gen db (header :: rows)).2.product = db.product ++ st.products) ∧
      (st.logList ≠ [] →
        (importProducts gen db (header :: rows)).2.product = db.product) ∧
      ((importProducts gen db (header :: rows)).1 = .ok () ↔
        st.logList = [] ∧ st.products ≠ []) ∧
      ((importProducts gen db (header :: rows)).1 = .error (.error .foundSeveralErrors) ↔
        st.logList ≠ [])) ∧
    (productFold gen db (header :: rows)).2.product = db.product ∧
    ∀ (pre : List (List String)) (r : List String) (rest : List (List String)),
      rows = pre ++ r :: rest →
      ((ParseInt (field r (getProductsHeaderIndex header).maximum_order)).2 ≠ none ∨
        (¬ Skipped (getProductsHeaderIndex header) r ∧
          (∀ q ∈ kept (getProductsHeaderIndex header) pre,
            field q (getProductsHeaderIndex header).product_name_EN ≠
              field r (getProductsHeaderIndex header).product_name_EN) ∧
          db.category.find?
            (fun c => c.Name_EN = field r (getProductsHeaderIndex header).category_name_EN) =
            none)) →
      importProducts gen db (header :: rows) =
          (.error (.error .foundSeveralErrors), (productFold gen db (header :: rows)).2) ∧
        (importProducts gen db (header :: rows)).2.product = db.product := by
  have himp := importProducts_of_fold hfold
  have hdb := productFold_db gen db (header :: rows)
  have hok : st.logList = [] → st.products ≠ [] →
      importProducts gen db (header :: rows) =
        (.ok (),
          { (productFold gen db (header :: rows)).2 with
            product := db.product ++ st.products }) := by
    intro hlog hps
    rw [himp]
    simp only [hlog, List.length_nil, gt_iff_lt, Nat.lt_irrefl, if_false]
    unfold insertProducts BulkWrite
    rw [hdb]
    cases hp : st.products with
    | nil => exact absurd hp hps
    | cons p ps => rfl
  have hempty : st.logList = [] → st.products = [] →
      importProducts gen db (header :: rows) =
        (.error (.error (.bulkWriteProducts .errEmptySlice)),
          (productFold gen db (header :: rows)).2) := by
    intro hlog hps
    rw [himp]
    simp only [hlog, List.length_nil, gt_iff_lt, Nat.lt_irrefl, if_false]
    unfold insertProducts BulkWrite
    rw [hps]
  have hfail : st.logList ≠ [] →
      importProducts gen db (header :: rows) =
        (.error (.error .foundSeveralErrors), (productFold gen db (header :: rows)).2) := by
    intro hlog
    have hpos : st.logList.length > 0 := List.length_pos.mpr hlog
    rw [himp]
    simp [hpos]
  refine ⟨⟨hok, hempty, hfail, ?_, ?_, ?_, ?_⟩, hdb, ?_⟩
  · intro hlog
    by_cases hps : st.products = []
    · rw [hempty hlog hps, hps]
      simpa using hdb
    · rw [hok hlog hps]
  · intro hlog
    rw [hfail hlog]
    exact hdb
  · constructor
    · intro h
      by_cases hlog : st.logList = []
      · refine ⟨hlog, ?_⟩
        intro hps
        rw [hempty hlog hps] at h
        simp at h
      · rw [hfail hlog] at h
        simp at h
    · rintro ⟨hlog, hps⟩
      rw [hok hlog hps]
  · constructor
    · intro h hlog
      by_cases hps : st.products = []
      · rw [hempty hlog hps] at h
        simp at h
      · rw [hok hlog hps] at h
        simp at h
    · intro hlog
      rw [hfail hlog]
  · intro pre r rest hrows hbad
    subst hrows
    obtain ⟨sa, sb, hsa, hrow, hrest⟩ := productFold_split hfold
    obtain ⟨hhi, hnames, _, _⟩ := productFold_inv hsa
    obtain ⟨_, _, hparse, hnew⟩ := productRow_log hrow
    rw [hhi] at hparse hnew
    have hsb : sb.logList ≠ [] := by
      rcases hbad with hp | ⟨hs, hfirst, hmiss⟩
      · exact hparse hp
      · refine hnew hs ?_ hmiss
        intro q hq heq
        have hmem : field r (getProductsHeaderIndex header).product_name_EN ∈
            sa.products.map (fun p => p.Name_EN) :=
          List.mem_map.mpr ⟨q, hq, heq⟩
        rw [hnames, firstAppearances_mem] at hmem
        obtain ⟨q1, hq1, hq1e⟩ := List.mem_map.mp hmem
        exact hfirst q1 hq1 hq1e
    have hst : st.logList ≠ [] := productLoop_log rest sb (pre.length + 2) (by omega) hrest hsb
    refine ⟨hfail hst, ?_⟩
    rw [hfail hst]
    exact hdb

theorem importProducts_ok {gen : Nat → ObjectID} {db db1 : Database}
    {lines : List (List String)} (h : importProducts gen db lines = (.ok (), db1)) :
    ∃ st, (productFold gen db lines).1 = .ok st ∧ st.logList = [] ∧
      db1.product = db.product ++ st.products := by
  cases hfold : (productFold gen db lines).1 with
  | error a =>
    have hpair : productFold gen db lines = (.error a, (productFold gen db lines).2) :=
      Prod.ext hfold rfl
    unfold importProducts at h
    rw [hpair] at h
    simp at h
  | ok st =>
    rw [importProducts_of_fold hfold] at h
    by_cases hpos : st.logList.length > 0
    · simp [hpos] at h
    · simp only [hpos, if_false] at h
      refine ⟨st, rfl, ?_, ?_⟩
      · cases hl : st.logList with
        | nil => rfl
        | cons a l => simp [hl] at hpos
      · unfold insertProducts BulkWrite at h
        rw [← productFold_db gen db lines]
        cases hps : st.products with
        | nil => simp [hps] at h
        | cons p ps =>
          simp only [hps] at h
          simp only [Prod.mk.injEq, true_and] at h
          rw [← h]

/-- C8, amended. After a successful product import, the products inserted are resolved
against the persisted categories by the row that created them, the first row with their
English name that is not skipped: the Category1ID of a product is the identifier of the
first persisted category whose Name_EN is the category_name_EN of that row, and, when
that category has at least one child, its Category2ID is the identifier of the first
child of that category whose Name_EN is the sub_category_name_EN of that row. -/
theorem importProducts_resolves_categories (gen : Nat → ObjectID) (db db1 : Database)
    (header : List String) (rows : List (List String))
    (h : importProducts gen db (header :: rows) = (.ok (), db1)) :
    ∃ ps, db1.product = db.product ++ ps ∧
      ∀ p ∈ ps, ∃ r c,
        (kept (getProductsHeaderIndex header) rows).find?
          (fun r => field r (getProductsHeaderIndex header).product_name_EN = p.Name_EN) =
          some r ∧
        db.category.find?
          (fun c => c.Name_EN = field r (getProductsHeaderIndex header).category_name_EN) =
          some c ∧
        p.Category1ID = c.ID ∧
        (c.ChildCategories ≠ [] →
          ∃ k, c.ChildCategories.find?
              (fun k => k.Name_EN =
                field r (getProductsHeaderIndex header).subcategory_name_EN) = some k ∧
            p.Category2ID = k.ID) := by
  obtain ⟨st, hfold, hlog, hdb⟩ := importProducts_ok h
  obtain ⟨_, _, _, hres⟩ := productFold_inv hfold
  refine ⟨st.products, hdb, ?_⟩
  intro p hp
  obtain ⟨r, hr, c, hc, hc1, _, hc2⟩ := hres hlog p hp
  exact ⟨r, c, hr, hc, hc1, hc2⟩

theorem headersIndex_below_ite {c : Prop} [Decidable c] {a b : HeadersIndex} {n : Nat}
    (ha : a.Below n) (hb : b.Below n) : (if c then a else b).Below n := by
  split <;> assumption

theorem setProductHeader_below {hi : HeadersIndex} {n idx : Nat} {header : String}
    (hb : hi.Below n) (hidx : idx < n) : (setProductHeader hi idx header).Below n := by
  obtain ⟨h1, h2, h3, h4, h5, h6, h7, h8, h9, h10, h11, h12, h13, h14, h15⟩ := hb
  unfold setProductHeader
  repeat' apply headersIndex_below_ite
  all_goals
    exact ⟨by assumption, by assumption, by assumption, by assumption, by assumption,
      by assumption, by assumption, by assumption, by assumption, by assumption,
      by assumption, by assumption, by assumption, by assumption, by assumption⟩

theorem productHeaderLoop_below {n : Nat} : ∀ (l : List String) (hi : HeadersIndex) (i : Nat),
    hi.Below n → i + l.length ≤ n → (productHeaderLoop hi i l).Below n := by
  intro l
  induction l with
  | nil => intro hi i hb _; exact hb
  | cons a l ih =>
    intro hi i hb hlen
    simp only [List.length_cons] at hlen
    exact ih _ (i + 1) (setProductHeader_below hb (by omega)) (by omega)

theorem getProductsHeaderIndex_below {header : List String} (hne : header ≠ []) :
    (getProductsHeaderIndex header).Below header.length := by
  have hpos : 0 < header.length := List.length_pos.mpr hne
  exact productHeaderLoop_below header {} 0
    ⟨hpos, hpos, hpos, hpos, hpos, hpos, hpos, hpos, hpos, hpos, hpos, hpos, hpos, hpos, hpos⟩
    (by omega)

theorem findProduct_absent {line : List String} {hi : HeadersIndex}
    (hn : hi.product_name_EN < line.length) :
    ∀ (ps : List Product) (i : Nat),
      (∀ q ∈ ps, q.Name_EN ≠ field line hi.product_name_EN) →
      findProduct line hi i ps = .ok none := by
  intro ps
  induction ps with
  | nil => intro i _; simp [findProduct]
  | cons p0 rest ih =>
    intro i hall
    simp only [findProduct, index_of_lt hn, bind, Except.bind]
    have hp0 := hall p0 (by simp)
    simp only [hp0, if_false]
    exact ih (i + 1) (fun q hq => hall q (by simp [hq]))

/-- A row that is not skipped, has a valid variant and starts a new product in a
persisted category whose abbreviation is not in its SKU ends the row loop with the
mismatch error. -/
theorem productRow_mismatch {gen : Nat → ObjectID} {cats : List Category} {b : Brand}
    {vt : VariantType} {st : ProductState} {row : Nat} {line : List String} {c : Category}
    (hb : st.hi.Below line.length) (hs : ¬ Skipped st.hi line)
    (hvalid : validateProductVariant (variantOf gen vt st line) = .ok ())
    (hnew : ∀ q ∈ st.products, q.Name_EN ≠ field line st.hi.product_name_EN)
    (hcat : cats.find? (fun c => c.Name_EN = field line st.hi.category_name_EN) = some c)
    (hsku : Contains (field line st.hi.sku) c.Abbreviation = false) :
    productRow gen cats b vt st row line =
      .error (.error (.mismatchSKU (field line st.hi.sku) c.Abbreviation)) := by
  obtain ⟨h1, h2, h3, h4, h5, h6, h7, h8, h9, h10, h11, h12, h13, h14, h15⟩ := hb
  have hs1 : field line st.hi.image_url ≠ "" := fun h => hs (Or.inl h)
  have hs2 : field line st.hi.barcode ≠ "" := fun h => hs (Or.inr h)
  have hfind := findProduct_absent h3 st.products 0 hnew
  have hp : getParentCategory cats (field line st.hi.category_name_EN) row = .ok c :=
    getParentCategory_ok.mpr hcat
  simp only [variantOf] at hvalid
  simp only [productRow, newProduct, index_of_lt h1, index_of_lt h2, index_of_lt h3,
    index_of_lt h4, index_of_lt h5, index_of_lt h6, index_of_lt h7, index_of_lt h8,
    index_of_lt h9, index_of_lt h10, index_of_lt h11, index_of_lt h12, index_of_lt h13,
    index_of_lt h14, index_of_lt h15, bind, Except.bind, hs1, hs2, if_false, hfind, hvalid,
    hp, hsku, if_true]

/-- C3, on the Cola row alone, where the run ends normally and the product collection
receives Cola, and on the Cola row followed by a row in a category that is not persisted,
where the fold ends without hard failure and the run returns the generic error without
any insert. -/
theorem importProducts_deferred_error_gate_witness :
    (productFold sampleGen sampleDb (productHeader :: [colaRow])).1 = .ok colaOnlyState ∧
    importProducts sampleGen sampleDb (productHeader :: [colaRow]) =
      (.ok (),
        { (productFold sampleGen sampleDb (productHeader :: [colaRow])).2 with
          product := sampleDb.product ++ colaOnlyState.products }) ∧
    (importProducts sampleGen sampleDb (productHeader :: [colaRow])).2.product =
      [colaProduct] ∧
    (productFold sampleGen sampleDb (productHeader :: [colaRow, unknownCategoryRow])).1 =
      .ok robotState ∧
    (productFold sampleGen sampleDb (productHeader :: [colaRow, unknownCategoryRow])).2 =
      sampleDb ∧
    (importProducts sampleGen sampleDb (productHeader :: [colaRow, unknownCategoryRow]) =
        (.error (.error .foundSeveralErrors),
          (productFold sampleGen sampleDb
            (productHeader :: [colaRow, unknownCategoryRow])).2) ∧
      (importProducts sampleGen sampleDb
        (productHeader :: [colaRow, unknownCategoryRow])).2.product = sampleDb.product) :=
  ⟨by decide,
    (importProducts_deferred_error_gate sampleGen sampleDb productHeader [colaRow] colaOnlyState (by decide)).1.1
      (by decide) (by decide),
    by decide, by decide, by decide,
    (importProducts_deferred_error_gate sampleGen sampleDb productHeader
      [colaRow, unknownCategoryRow] robotState (by decide)).2.2 [colaRow] unknownCategoryRow []
      rfl (Or.inr ⟨by decide, by decide, by decide⟩)⟩

/-- C8, amended, on the Cola row: Cola is resolved to Drinks and Soda. -/
theorem importProducts_resolves_categories_witness :
    importProducts sampleGen sampleDb (productHeader :: [colaRow]) =
      (.ok (), { sampleDb with product := [colaProduct] }) ∧
    ∃ ps, ({ sampleDb with product := [colaProduct] } : Database).product =
        sampleDb.product ++ ps ∧
      ∀ p ∈ ps, ∃ r c,
        (kept (getProductsHeaderIndex productHeader) [colaRow]).find?
          (fun r => field r (getProductsHeaderIndex productHeader).product_name_EN
            = p.Name_EN) = some r ∧
        sampleDb.category.find?
          (fun c => c.Name_EN =
            field r (getProductsHeaderIndex productHeader).category_name_EN) = some c ∧
        p.Category1ID = c.ID ∧
        (c.ChildCategories ≠ [] →
          ∃ k, c.ChildCategories.find?
              (fun k => k.Name_EN =
                field r (getProductsHeaderIndex productHeader).subcategory_name_EN) = some k ∧
            p.Category2ID = k.ID) :=
  ⟨by decide,
    importProducts_resolves_categories sampleGen sampleDb
      { sampleDb with product := [colaProduct] } productHeader [colaRow] (by decide)⟩

/-- C5. On the records of a CSV file: when a data row is not skipped, has a valid
variant, starts a new product, has the category_name_EN of a persisted category, and
has a SKU that does not contain the abbreviation of the first such category, and no
earlier row failed hard, `importProducts` returns the SKU mismatch error of that row,
whatever the later rows are, and inserts no product. -/
theorem importProducts_sku_mismatch (gen : Nat → ObjectID) (db : Database)
    (header : List String) (pre : List (List String)) (r : List String)
    (rest : List (List String)) (st : ProductState) (c : Category)
    (hrect : Rectangular header (pre ++ r :: rest))
    (hpre : (productFold gen db (header :: pre)).1 = .ok st)
    (hskip : ¬ Skipped (getProductsHeaderIndex header) r)
    (hvalid : validateProductVariant (variantOf gen (referenceData gen db).2.1 st r) = .ok ())
    (hnew : ∀ q ∈ kept (getProductsHeaderIndex header) pre,
      field q (getProductsHeaderIndex header).product_name_EN ≠
        field r (getProductsHeaderIndex header).product_name_EN)
    (hcat : db.category.find?
      (fun c => c.Name_EN = field r (getProductsHeaderIndex header).category_name_EN) = some c)
    (hsku : Contains (field r (getProductsHeaderIndex header).sku) c.Abbreviation = false) :
    importProducts gen db (header :: (pre ++ r :: rest)) =
      (.error (.error
        (.mismatchSKU (field r (getProductsHeaderIndex header).sku) c.Abbreviation)),
        (referenceData gen db).2.2.1) ∧
    (referenceData gen db).2.2.1.product = db.product := by
  obtain ⟨hne, hlen⟩ := hrect
  have hcat0 := productFold_ok_category hpre
  obtain ⟨hhi, hnames, _, _⟩ := productFold_inv hpre
  have hb : st.hi.Below r.length := by
    rw [hhi, hlen r (by simp)]
    exact getProductsHeaderIndex_below hne
  have hnew1 : ∀ q ∈ st.products, q.Name_EN ≠ field r st.hi.product_name_EN := by
    intro q hq heq
    rw [hhi] at heq
    have hmem : field r (getProductsHeaderIndex header).product_name_EN ∈
        st.products.map (fun p => p.Name_EN) := List.mem_map.mpr ⟨q, hq, heq⟩
    rw [hnames, firstAppearances_mem] at hmem
    obtain ⟨q1, hq1, hq1e⟩ := List.mem_map.mp hmem
    exact hnew q1 hq1 hq1e
  have hrow := @productRow_mismatch gen db.category (referenceData gen db).1
    (referenceData gen db).2.1 st (pre.length + 2) r c hb (by rw [hhi]; exact hskip) hvalid
    hnew1 (by rw [hhi]; exact hcat) (by rw [hhi]; exact hsku)
  rw [hhi] at hrow
  have hfold : productFold gen db (header :: (pre ++ r :: rest)) =
      (.error (.error
        (.mismatchSKU (field r (getProductsHeaderIndex header).sku) c.Abbreviation)),
        (referenceData gen db).2.2.1) := by
    rw [productFold_cons gen db _ _ hcat0] at hpre ⊢
    simp only at hpre
    rw [productLoop_append pre (r :: rest) _ 1 (le_refl 1), hpre]
    have hne1 : ¬ (1 + pre.length + 1 = 1) := by omega
    simp only [productLoop, hne1, if_false]
    rw [show 1 + pre.length + 1 = pre.length + 2 by omega, hrow]
  refine ⟨?_, (referenceData_db gen db).1⟩
  unfold importProducts
  rw [hfold]

/-- C5, on the Cola row, a row that starts Fanta in Drinks with the SKU XXX-006, and a
row without barcode: the run fails with the mismatch error of the Fanta row. -/
theorem importProducts_sku_mismatch_witness :
    Rectangular productHeader ([colaRow] ++ wrongSkuRow :: [noBarcodeRow]) ∧
    (productFold sampleGen sampleDb (productHeader :: [colaRow])).1 = .ok colaOnlyState ∧
    importProducts sampleGen sampleDb
        (productHeader :: ([colaRow] ++ wrongSkuRow :: [noBarcodeRow])) =
      (.error (.error (.mismatchSKU "XXX-006" "DRK")), sampleDb) :=
  ⟨by decide, by decide,
    (importProducts_sku_mismatch sampleGen sampleDb productHeader [colaRow] wrongSkuRow
      [noBarcodeRow] colaOnlyState
      { ID := ⟨100⟩, Level := .CATEGORY_LEVEL_1, Name_EN := "Drinks", Name_ID := "Minuman",
        ImagesURLs := ["drinks-0.webp"], Abbreviation := "DRK",
        ChildCategories :=
          [{ ID := ⟨101⟩, Level := .CATEGORY_LEVEL_2, Name_EN := "Soda", Name_ID := "Soda-ID",
             ImagesURLs := ["soda-0.webp"] }] }
      (by decide) (by decide) (by decide) (by decide) (by decide) (by decide) (by decide)).1⟩

theorem startsWith_iff (s p : List Char) : startsWith s p = true ↔ ∃ t, s = p ++ t := by
  induction p generalizing s with
  | nil => simp [startsWith]
  | cons d p ih =>
    cases s with
    | nil => simp [startsWith]
    | cons c s =>
      simp only [startsWith, Bool.and_eq_true, decide_eq_true_eq, ih, List.cons_append,
        List.cons.injEq]
      constructor
      · rintro ⟨rfl, t, rfl⟩; exact ⟨t, rfl, rfl⟩
      · rintro ⟨t, rfl, rfl⟩; exact ⟨rfl, t, rfl⟩

/-- The search of `Contains` finds `sub` exactly when `sub` is a contiguous part of `s`. -/
theorem containsChars_iff (s sub : List Char) :
    containsChars s sub = true ↔ ∃ l r, s = l ++ sub ++ r := by
  induction s with
  | nil =>
    simp only [containsChars, startsWith_iff]
    constructor
    · rintro ⟨t, ht⟩; exact ⟨[], t, by simpa using ht⟩
    · rintro ⟨l, r, h⟩
      have h1 := congrArg List.length h
      simp only [List.length_nil, List.length_append] at h1
      have hl : l = [] := List.eq_nil_of_length_eq_zero (by omega)
      subst hl
      exact ⟨r, by simpa using h⟩
  | cons c s ih =>
    simp only [containsChars, Bool.or_eq_true, startsWith_iff, ih]
    constructor
    · rintro (⟨t, ht⟩ | ⟨l, r, h⟩)
      · exact ⟨[], t, by simpa using ht⟩
      · exact ⟨c :: l, r, by simp [h]⟩
    · rintro ⟨l, r, h⟩
      cases l with
      | nil => left; exact ⟨r, by simpa using h⟩
      | cons a l =>
        right
        simp only [List.cons_append, List.cons.injEq] at h
        exact ⟨l, r, h.2⟩

/-- The model of `strconv.ParseInt(s, 10, 32)` on a few inputs: digits with an optional
sign parse, the bounds of the signed 32-bit range are kept, anything else is a syntax or
a range error. -/
theorem ParseInt_examples :
    ParseInt "12" = (12, none) ∧ ParseInt "+12" = (12, none) ∧ ParseInt "-7" = (-7, none) ∧
    ParseInt "2147483647" = (2147483647, none) ∧
    ParseInt "-2147483648" = (-2147483648, none) ∧
    ParseInt "2147483648" = (2147483647, some (.errRange "2147483648")) ∧
    ParseInt "-2147483649" = (-2147483648, some (.errRange "-2147483649")) ∧
    ParseInt "" = (0, some (.errSyntax "")) ∧ ParseInt "-" = (0, some (.errSyntax "-")) ∧
    ParseInt "1_0" = (0, some (.errSyntax "1_0")) ∧
    ParseInt "12a" = (0, some (.errSyntax "12a")) ∧
    ParseInt " 1" = (0, some (.errSyntax " 1")) := by
  decide

/-- C6, amended. When the data rows of a product file are processed without hard
failure, a data row whose image-URL field or barcode field is empty contributes no
product and no variant (processing it leaves the in-progress product list as it was
and only appends one entry to the list of deferred errors), and for that entry
`importProducts` returns the error found several errors while importing products and
inserts no product. -/
theorem importProducts_skipped_row (gen : Nat → ObjectID) (db : Database)
    (header : List String) (pre : List (List String)) (r : List String)
    (rest : List (List String)) (st : ProductState)
    (hfold : (productFold gen db (header :: (pre ++ r :: rest))).1 = .ok st)
    (hskip : Skipped (getProductsHeaderIndex header) r) :
    importProducts gen db (header :: (pre ++ r :: rest)) =
      (.error (.error .foundSeveralErrors),
        (productFold gen db (header :: (pre ++ r :: rest))).2) ∧
    (productFold gen db (header :: (pre ++ r :: rest))).2.product = db.product ∧
    ∃ sa e, (productFold gen db (header :: pre)).1 = .ok sa ∧
      productRow gen db.category (referenceData gen db).1 (referenceData gen db).2.1 sa
        (pre.length + 2) r = .ok { sa with logList := sa.logList ++ [e] } := by
  obtain ⟨sa, sb, hsa, hrow, hrest⟩ := productFold_split hfold
  obtain ⟨hhi, _, _, _⟩ := productFold_inv hsa
  have hsb : sb.logList ≠ [] := (productRow_log hrow).2.1 (by rw [hhi]; exact hskip)
  have hst : st.logList ≠ [] := productLoop_log rest sb (pre.length + 2) (by omega) hrest hsb
  have hpos : st.logList.length > 0 := List.length_pos.mpr hst
  refine ⟨by rw [importProducts_of_fold hfold]; simp [hpos], productFold_db gen db _, sa, ?_⟩
  rcases productRow_ok hrow with ⟨_, e, he⟩ | ⟨hns, _⟩
  · exact ⟨e, hsa, by rw [hrow, he]⟩
  · exact absurd (hhi ▸ hskip) hns

/-- C6, amended, on the Cola row followed by a row without barcode. -/
theorem importProducts_skipped_row_witness :
    (productFold sampleGen sampleDb (productHeader :: ([colaRow] ++ noBarcodeRow :: []))).1 =
      .ok colaSkipState ∧
    Skipped (getProductsHeaderIndex productHeader) noBarcodeRow ∧
    importProducts sampleGen sampleDb (productHeader :: ([colaRow] ++ noBarcodeRow :: [])) =
      (.error (.error .foundSeveralErrors),
        (productFold sampleGen sampleDb
          (productHeader :: ([colaRow] ++ noBarcodeRow :: []))).2) :=
  ⟨by decide, by decide,
    (importProducts_skipped_row sampleGen sampleDb productHeader [colaRow] noBarcodeRow []
      colaSkipState (by decide) (by decide)).1⟩

/-- C11. For a level-2 category with a non-empty image URL list, `validateC2` returns the
error of the first empty field in the order Name_EN, Name_ID, first image URL, and
returns nil exactly when all three are non-empty. -/
theorem validateC2_first_empty_field (ct : SubCategory) (himg : ct.ImagesURLs ≠ []) :
    (ct.Name_EN = "" → validateC2 ct = .error (.error .errSubcategoryNameENIsRequired)) ∧
    (ct.Name_EN ≠ "" → ct.Name_ID = "" →
      validateC2 ct = .error (.error .errSubcategoryNameIDIsRequired)) ∧
    (ct.Name_EN ≠ "" → ct.Name_ID ≠ "" → ct.ImagesURLs.head himg = "" →
      validateC2 ct = .error (.error .errSubcategoryImageURLIsRequired)) ∧
    (validateC2 ct = .ok () ↔
      ct.Name_EN ≠ "" ∧ ct.Name_ID ≠ "" ∧ ct.ImagesURLs.head himg ≠ "") := by
  obtain ⟨url, rest, hurl⟩ := List.exists_cons_of_ne_nil himg
  have hidx : index ct.ImagesURLs 0 = .ok url := by simp [index, hurl]
  have hhead : ct.ImagesURLs.head himg = url := by simp [hurl]
  rw [hhead]
  unfold validateC2
  rw [hidx]
  by_cases h1 : ct.Name_EN = "" <;> by_cases h2 : ct.Name_ID = "" <;>
    by_cases h4 : url = "" <;> simp [h1, h2, h4]

/-- C11, on a level-2 category whose two names are empty. -/
theorem validateC2_first_empty_field_witness :
    ({ ImagesURLs := ["a-0.webp"] } : SubCategory).ImagesURLs ≠ [] ∧
    ({ ImagesURLs := ["a-0.webp"] } : SubCategory).Name_EN = "" ∧
    validateC2 { ImagesURLs := ["a-0.webp"] } =
      .error (.error .errSubcategoryNameENIsRequired) :=
  ⟨by decide, by decide,
    (validateC2_first_empty_field { ImagesURLs := ["a-0.webp"] } (by decide)).1 (by decide)⟩

/-- C12. For a product variant with a non-empty image URL list, `validateProductVariant`
returns the error of the first failing check in the order: nil ID, empty
ShoptreeVariantID, empty first image URL, nil VariantTypeID, empty VariantValue, empty
VariantQuantifier_ID, empty VariantQuantifier_EN, empty SKU, empty Barcode; it returns
nil exactly when none of these checks fails. -/
theorem validateProductVariant_first_failing_check (pv : ProductVariant)
    (himg : pv.ImagesURLs ≠ []) :
    (pv.ID = NilObjectID →
      validateProductVariant pv = .error (.error .errProductVariantIDIsRequired)) ∧
    (pv.ID ≠ NilObjectID → pv.ShoptreeVariantID = "" →
      validateProductVariant pv = .error (.error .errShoptreeVariantIDIsRequired)) ∧
    (pv.ID ≠ NilObjectID → pv.ShoptreeVariantID ≠ "" → pv.ImagesURLs.head himg = "" →
      validateProductVariant pv = .error (.error .errProductVariantImageURLIsRequired)) ∧
    (pv.ID ≠ NilObjectID → pv.ShoptreeVariantID ≠ "" → pv.ImagesURLs.head himg ≠ "" →
      pv.VariantTypeID = NilObjectID →
      validateProductVariant pv =
        .error (.error .errProductVariantVariantTypeIDIsRequired)) ∧
    (pv.ID ≠ NilObjectID → pv.ShoptreeVariantID ≠ "" → pv.ImagesURLs.head himg ≠ "" →
      pv.VariantTypeID ≠ NilObjectID → pv.VariantValue = "" →
      validateProductVariant pv = .error (.error .errVariantValueIsRequired)) ∧
    (pv.ID ≠ NilObjectID → pv.ShoptreeVariantID ≠ "" → pv.ImagesURLs.head himg ≠ "" →
      pv.VariantTypeID ≠ NilObjectID → pv.VariantValue ≠ "" → pv.VariantQuantifier_ID = "" →
      validateProductVariant pv = .error (.error .errVariantQuantifierIDIsRequired)) ∧
    (pv.ID ≠ NilObjectID → pv.ShoptreeVariantID ≠ "" → pv.ImagesURLs.head himg ≠ "" →
      pv.VariantTypeID ≠ NilObjectID → pv.VariantValue ≠ "" → pv.VariantQuantifier_ID ≠ "" →
      pv.VariantQuantifier_EN = "" →
      validateProductVariant pv = .error (.error .errVariantQuantifierENIsRequired)) ∧
    (pv.ID ≠ NilObjectID → pv.ShoptreeVariantID ≠ "" → pv.ImagesURLs.head himg ≠ "" →
      pv.VariantTypeID ≠ NilObjectID → pv.VariantValue ≠ "" → pv.VariantQuantifier_ID ≠ "" →
      pv.VariantQuantifier_EN ≠ "" → pv.SKU = "" →
      validateProductVariant pv = .error (.error .errSKUIsRequired)) ∧
    (pv.ID ≠ NilObjectID → pv.ShoptreeVariantID ≠ "" → pv.ImagesURLs.head himg ≠ "" →
      pv.VariantTypeID ≠ NilObjectID → pv.VariantValue ≠ "" → pv.VariantQuantifier_ID ≠ "" →
      pv.VariantQuantifier_EN ≠ "" → pv.SKU ≠ "" → pv.Barcode = "" →
      validateProductVariant pv = .error (.error .errBarcodeIsRequired)) ∧
    (validateProductVariant pv = .ok () ↔
      pv.ID ≠ NilObjectID ∧ pv.ShoptreeVariantID ≠ "" ∧ pv.ImagesURLs.head himg ≠ "" ∧
        pv.VariantTypeID ≠ NilObjectID ∧ pv.VariantValue ≠ "" ∧
        pv.VariantQuantifier_ID ≠ "" ∧ pv.VariantQuantifier_EN ≠ "" ∧ pv.SKU ≠ "" ∧
        pv.Barcode ≠ "") := by
  obtain ⟨url, rest, hurl⟩ := List.exists_cons_of_ne_nil himg
  have hidx : index pv.ImagesURLs 0 = .ok url := by simp [index, hurl]
  have hhead : pv.ImagesURLs.head himg = url := by simp [hurl]
  have hlen : ¬ pv.ImagesURLs.length < 1 := by simp [hurl]
  rw [hhead]
  unfold validateProductVariant
  rw [hidx]
  simp only [hlen, if_false]
  by_cases h1 : pv.ID = NilObjectID
  · simp [h1]
  by_cases h2 : pv.ShoptreeVariantID = ""
  · simp [h1, h2]
  by_cases h3 : url = ""
  · simp [h1, h2, h3]
  by_cases h4 : pv.VariantTypeID = NilObjectID
  · simp [h1, h2, h3, h4]
  by_cases h5 : pv.VariantValue = ""
  · simp [h1, h2, h3, h4, h5]
  by_cases h6 : pv.VariantQuantifier_ID = ""
  · simp [h1, h2, h3, h4, h5, h6]
  by_cases h7 : pv.VariantQuantifier_EN = ""
  · simp [h1, h2, h3, h4, h5, h6, h7]
  by_cases h8 : pv.SKU = ""
  · simp [h1, h2, h3, h4, h5, h6, h7, h8]
  by_cases h9 : pv.Barcode = ""
  · simp [h1, h2, h3, h4, h5, h6, h7, h8, h9]
  · simp [h1, h2, h3, h4, h5, h6, h7, h8, h9]

/-- C12, on a variant with an identifier whose ShoptreeVariantID and SKU are empty. -/
theorem validateProductVariant_first_failing_check_witness :
    ({ ID := ⟨1⟩, ImagesURLs := ["-0.webp"] } : ProductVariant).ImagesURLs ≠ [] ∧
    validateProductVariant { ID := ⟨1⟩, ImagesURLs := ["-0.webp"] } =
      .error (.error .errShoptreeVariantIDIsRequired) :=
  ⟨by decide,
    (validateProductVariant_first_failing_check { ID := ⟨1⟩, ImagesURLs := ["-0.webp"] }
      (by decide)).2.1 (by decide) (by decide)⟩

/-- C13. The function `validateProduct` returns the error of the first failing check in
the order: nil ID, empty Name_ID, empty Name_EN, nil BrandID, nil Category1ID, nil
Category2ID, nil Variants; so a product with an identifier and without both names is
rejected with `errProductNameIDIsRequired`; and nil is returned exactly when no check
fails. -/
theorem validateProduct_first_failing_check (p : Product) :
    (p.ID = NilObjectID → validateProduct p = .error (.error .errProductIDIsRequired)) ∧
    (p.ID ≠ NilObjectID → p.Name_ID = "" →
      validateProduct p = .error (.error .errProductNameIDIsRequired)) ∧
    (p.ID ≠ NilObjectID → p.Name_ID ≠ "" → p.Name_EN = "" →
      validateProduct p = .error (.error .errProductNameENIsRequired)) ∧
    (p.ID ≠ NilObjectID → p.Name_ID ≠ "" → p.Name_EN ≠ "" → p.BrandID = NilObjectID →
      validateProduct p = .error (.error .errProductBrandIDIsRequired)) ∧
    (p.ID ≠ NilObjectID → p.Name_ID ≠ "" → p.Name_EN ≠ "" → p.BrandID ≠ NilObjectID →
      p.Category1ID = NilObjectID →
      validateProduct p = .error (.error .errProductCategory1IDIsRequired)) ∧
    (p.ID ≠ NilObjectID → p.Name_ID ≠ "" → p.Name_EN ≠ "" → p.BrandID ≠ NilObjectID →
      p.Category1ID ≠ NilObjectID → p.Category2ID = NilObjectID →
      validateProduct p = .error (.error .errProductCategory2IDIsRequired)) ∧
    (p.ID ≠ NilObjectID → p.Name_ID ≠ "" → p.Name_EN ≠ "" → p.BrandID ≠ NilObjectID →
      p.Category1ID ≠ NilObjectID → p.Category2ID ≠ NilObjectID → p.Variants = none →
      validateProduct p = .error (.error .errProductVariantsIsRequired)) ∧
    (p.ID ≠ NilObjectID → p.Name_ID = "" → p.Name_EN = "" →
      validateProduct p = .error (.error .errProductNameIDIsRequired)) ∧
    (validateProduct p = .ok () ↔
      p.ID ≠ NilObjectID ∧ p.Name_ID ≠ "" ∧ p.Name_EN ≠ "" ∧ p.BrandID ≠ NilObjectID ∧
        p.Category1ID ≠ NilObjectID ∧ p.Category2ID ≠ NilObjectID ∧ p.Variants ≠ none) := by
  unfold validateProduct
  by_cases h1 : p.ID = NilObjectID
  · simp [h1]
  by_cases h2 : p.Name_ID = ""
  · simp [h1, h2]
  by_cases h3 : p.Name_EN = ""
  · simp [h1, h2, h3]
  by_cases h4 : p.BrandID = NilObjectID
  · simp [h1, h2, h3, h4]
  by_cases h5 : p.Category1ID = NilObjectID
  · simp [h1, h2, h3, h4, h5]
  by_cases h6 : p.Category2ID = NilObjectID
  · simp [h1, h2, h3, h4, h5, h6]
  by_cases h7 : p.Variants = none
  · simp [h1, h2, h3, h4, h5, h6, h7]
  · simp [h1, h2, h3, h4, h5, h6, h7]

/-- C16. In the store model, a second call of `findOrInsertBrand` right after a first one
returns the identifier the first call returned, generates no identifier and leaves the
database, hence the brand collection, as the first call left it; the same holds for
`findOrInsertVariantType` and the collection `variant_type`. -/
theorem findOrInsert_twice (gen : Nat → ObjectID) (db : Database) (nextID : Nat) :
    ((findOrInsertBrand gen (findOrInsertBrand gen db nextID).2.1
        (findOrInsertBrand gen db nextID).2.2).1.ID =
      (findOrInsertBrand gen db nextID).1.ID ∧
    (findOrInsertBrand gen (findOrInsertBrand gen db nextID).2.1
        (findOrInsertBrand gen db nextID).2.2).2 =
      (findOrInsertBrand gen db nextID).2) ∧
    ((findOrInsertVariantType gen (findOrInsertVariantType gen db nextID).2.1
        (findOrInsertVariantType gen db nextID).2.2).1.ID =
      (findOrInsertVariantType gen db nextID).1.ID ∧
    (findOrInsertVariantType gen (findOrInsertVariantType gen db nextID).2.1
        (findOrInsertVariantType gen db nextID).2.2).2 =
      (findOrInsertVariantType gen db nextID).2) := by
  constructor
  · cases hfind : db.brand.find? (fun b => b.Name = "Dropezy") with
    | some b0 =>
      have h1 : findOrInsertBrand gen db nextID = (b0, db, nextID) := by
        simp [findOrInsertBrand, hfind]
      rw [h1]
      simp only
      rw [h1]
      exact ⟨rfl, rfl⟩
    | none =>
      have h1 : findOrInsertBrand gen db nextID =
          ({ ID := gen nextID },
            { db with brand := db.brand ++ [{ ID := gen nextID, Name := "Dropezy" }] },
            nextID + 1) := by
        simp [findOrInsertBrand, hfind]
      rw [h1]
      simp only
      have h2 : (db.brand ++ [({ ID := gen nextID, Name := "Dropezy" } : Brand)]).find?
          (fun b => b.Name = "Dropezy") = some { ID := gen nextID, Name := "Dropezy" } := by
        rw [List.find?_append, hfind]
        simp
      simp [findOrInsertBrand, h2]
  · cases hfind : db.variant_type.find? (fun v => v.Name = "UOM") with
    | some v0 =>
      have h1 : findOrInsertVariantType gen db nextID = (v0, db, nextID) := by
        simp [findOrInsertVariantType, hfind]
      rw [h1]
      simp only
      rw [h1]
      exact ⟨rfl, rfl⟩
    | none =>
      have h1 : findOrInsertVariantType gen db nextID =
          ({ ID := gen nextID },
            { db with variant_type := db.variant_type ++ [{ ID := gen nextID, Name := "UOM" }] },
            nextID + 1) := by
        simp [findOrInsertVariantType, hfind]
      rw [h1]
      simp only
      have h2 : (db.variant_type ++ [({ ID := gen nextID, Name := "UOM" } : VariantType)]).find?
          (fun v => v.Name = "UOM") = some { ID := gen nextID, Name := "UOM" } := by
        rw [List.find?_append, hfind]
        simp
      simp [findOrInsertVariantType, h2]

theorem categoryRow_shape {gen : Nat → ObjectID} {st st1 : CategoryState} {row : Nat}
    {line : List String} (hsh : CategoryShape gen st.categories)
    (hrow : categoryRow gen st row line = .ok st1) : CategoryShape gen st1.categories := by
  obtain ⟨found, _, _, hcase⟩ := categoryRow_ok hrow
  have hsub : (∃ n, (subOf gen st line).ID = gen n) ∧
      (subOf gen st line).ImagesURLs = [(subOf gen st line).ID.Hex ++ "-0.webp"] ∧
      (subOf gen st line).Level = .CATEGORY_LEVEL_2 := ⟨⟨st.nextID, rfl⟩, rfl, rfl⟩
  rcases hcase with ⟨j, c, _, hc, rfl⟩ | ⟨_, _, rfl⟩
  · intro c1 hc1
    simp only at hc1
    rcases List.mem_or_eq_of_mem_set hc1 with hc1 | rfl
    · exact hsh c1 hc1
    · have hcm : c ∈ st.categories := List.getElem?_mem hc
      obtain ⟨h1, h2, h3, h4⟩ := hsh c hcm
      refine ⟨h1, h2, h3, ?_⟩
      intro k hk
      simp only [List.mem_append, List.mem_singleton] at hk
      rcases hk with hk | rfl
      · exact h4 k hk
      · exact hsub
  · intro c1 hc1
    simp only [List.mem_append, List.mem_singleton] at hc1
    rcases hc1 with hc1 | rfl
    · exact hsh c1 hc1
    · refine ⟨⟨st.nextID + 1, rfl⟩, rfl, rfl, ?_⟩
      intro k hk
      simp only [catOf, List.mem_singleton] at hk
      subst hk
      exact hsub

theorem categoryLoop_shape {gen : Nat → ObjectID} {st1 : CategoryState} :
    ∀ (rows : List (List String)) (st : CategoryState) (i : Nat),
      CategoryShape gen st.categories → categoryLoop gen st i rows = .ok st1 →
      CategoryShape gen st1.categories := by
  intro rows
  induction rows with
  | nil =>
    intro st i hsh hl
    simp only [categoryLoop, Except.ok.injEq] at hl
    subst hl
    exact hsh
  | cons line rest ih =>
    intro st i hsh hl
    simp only [categoryLoop] at hl
    split at hl
    · exact ih { st with headers := categoryHeaderLoop st.headers 0 line } (i + 1) hsh hl
    · cases hrow : categoryRow gen st (i + 1) line with
      | error e => simp [hrow] at hl
      | ok st2 =>
        simp only [hrow] at hl
        exact ih st2 (i + 1) (categoryRow_shape hsh hrow) hl

/-- C18. After a successful category fold, every level-1 node and every level-2 child of
the result carries exactly one image URL, the hexadecimal form of its own generated
identifier followed by `-0.webp`; the nodes have level 1 and their children level 2. -/
theorem categoryFold_image_urls (gen : Nat → ObjectID) (lines : List (List String))
    (st : CategoryState) (hfold : categoryFold gen lines = .ok st) :
    ∀ c ∈ st.categories,
      (∃ n, c.ID = gen n) ∧ c.ImagesURLs = [c.ID.Hex ++ "-0.webp"] ∧
      c.Level = .CATEGORY_LEVEL_1 ∧
      ∀ k ∈ c.ChildCategories,
        (∃ n, k.ID = gen n) ∧ k.ImagesURLs = [k.ID.Hex ++ "-0.webp"] ∧
        k.Level = .CATEGORY_LEVEL_2 :=
  categoryLoop_shape lines {} 0 (by intro c hc; simp at hc) hfold

/-- C18, on the two DRK rows. -/
theorem categoryFold_image_urls_witness :
    categoryFold sampleGen (categoryHeader :: drinksRows) = .ok drinksState ∧
    drinksState.categories.map
      (fun c => (c.ID, c.ImagesURLs, c.ChildCategories.map (fun k => (k.ID, k.ImagesURLs)))) =
      [(⟨2⟩, ["000000000000000000000002-0.webp"],
        [(⟨1⟩, ["000000000000000000000001-0.webp"]),
         (⟨3⟩, ["000000000000000000000003-0.webp"])])] ∧
    ∀ c ∈ drinksState.categories,
      (∃ n, c.ID = sampleGen n) ∧ c.ImagesURLs = [c.ID.Hex ++ "-0.webp"] ∧
      c.Level = .CATEGORY_LEVEL_1 ∧
      ∀ k ∈ c.ChildCategories,
        (∃ n, k.ID = sampleGen n) ∧ k.ImagesURLs = [k.ID.Hex ++ "-0.webp"] ∧
        k.Level = .CATEGORY_LEVEL_2 :=
  ⟨by decide, by decide,
    categoryFold_image_urls sampleGen (categoryHeader :: drinksRows) drinksState (by decide)⟩

theorem index_error {α : Type} {xs : List α} {i : Nat} {a : Abort}
    (h : index xs i = .error a) : a = .panic := by
  unfold index at h
  split at h <;> simp_all

theorem findCategory_error {line : List String} {h : CategoryHeaders} {row : Nat}
    {e : GoError} : ∀ (cats : List Category) (i : Nat),
      findCategory line h row i cats = .error (.error e) → e = .abbreviationConflict row := by
  intro cats
  induction cats with
  | nil => intro i hf; simp [findCategory] at hf
  | cons c0 rest ih =>
    intro i hf
    cases ha : index line h.abbreviation with
    | error a =>
      have := index_error ha
      subst this
      simp [findCategory, ha, bind, Except.bind] at hf
    | ok a =>
      simp only [findCategory, ha, bind, Except.bind] at hf
      by_cases hc0 : c0.Abbreviation = a
      · simp only [hc0, if_true] at hf
        cases hn : index line h.category_name_EN with
        | error a1 =>
          have := index_error hn
          subst this
          simp [hn] at hf
        | ok n =>
          simp only [hn] at hf
          split at hf
          · simp only [Except.error.injEq, Abort.error.injEq] at hf
            exact hf.symm
          · simp at hf
      · simp only [hc0, if_false] at hf
        exact ih (i + 1) hf

theorem validateC2_error {ct : SubCategory} {e : GoError} {u : String}
    (h : validateC2 ct = .error (.error e)) (himg : ct.ImagesURLs = [u]) (hu : u ≠ "") :
    e = .errSubcategoryNameENIsRequired ∨ e = .errSubcategoryNameIDIsRequired := by
  unfold validateC2 at h
  simp only [himg, index, List.getElem?_cons_zero, hu, if_false] at h
  split_ifs at h
  · left; simpa using h.symm
  · right; simpa using h.symm

theorem validateC1_error {ct : Category} {e : GoError} {u : String}
    (h : validateC1 ct = .error (.error e)) (himg : ct.ImagesURLs = [u]) (hu : u ≠ "") :
    e = .errCategoryNameENIsRequired ∨ e = .errCategoryNameIDIsRequired ∨
      e = .errAbbreviationIsRequired := by
  unfold validateC1 at h
  simp only [himg, index, List.getElem?_cons_zero, hu, if_false] at h
  split_ifs at h
  · left; simpa using h.symm
  · right; left; simpa using h.symm
  · right; right; simpa using h.symm

theorem appendChild_error {cats : List Category} {j : Nat} {k : SubCategory} {a : Abort}
    (h : appendChild cats j k = .error a) : a = .panic := by
  unfold appendChild at h
  split at h <;> simp_all

theorem categoryRow_error {gen : Nat → ObjectID} {st : CategoryState} {row : Nat}
    {line : List String} {e : GoError}
    (h : categoryRow gen st row line = .error (.error e)) : NotImageURLError e := by
  unfold categoryRow at h
  simp only [bind, Except.bind] at h
  split at h
  · rename_i a hf
    simp only [Except.error.injEq] at h
    subst h
    rw [findCategory_error _ _ hf]
    exact ⟨by simp [GoError.Unwrap], by simp [GoError.Unwrap]⟩
  · split at h
    · rename_i a ha
      have := index_error ha
      subst this
      simp at h
    · split at h
      · rename_i a ha
        have := index_error ha
        subst this
        simp at h
      · split at h
        · simp at h
        · rename_i err hv
          simp only [Except.error.injEq, Abort.error.injEq] at h
          subst h
          rcases validateC2_error hv rfl (hex_url_ne_empty _) with rfl | rfl <;>
            exact ⟨by simp [GoError.Unwrap], by simp [GoError.Unwrap]⟩
        · split at h
          · split at h
            · rename_i a hap
              have := appendChild_error hap
              subst this
              simp at h
            · simp at h
          · split at h
            · rename_i a ha
              have := index_error ha
              subst this
              simp at h
            · split at h
              · rename_i a ha
                have := index_error ha
                subst this
                simp at h
              · split at h
                · rename_i a ha
                  have := index_error ha
                  subst this
                  simp at h
                · split at h
                  · simp at h
                  · rename_i err hv
                    simp only [Except.error.injEq, Abort.error.injEq] at h
                    subst h
                    rcases validateC1_error hv rfl (hex_url_ne_empty _) with rfl | rfl | rfl <;>
                      exact ⟨by simp [GoError.Unwrap], by simp [GoError.Unwrap]⟩
                  · simp at h

theorem categoryLoop_error {gen : Nat → ObjectID} {e : GoError} :
    ∀ (rows : List (List String)) (st : CategoryState) (i : Nat),
      categoryLoop gen st i rows = .error (.error e) → NotImageURLError e := by
  intro rows
  induction rows with
  | nil => intro st i hl; simp [categoryLoop] at hl
  | cons line rest ih =>
    intro st i hl
    simp only [categoryLoop] at hl
    split at hl
    · exact ih _ (i + 1) hl
    · cases hrow : categoryRow gen st (i + 1) line with
      | error a =>
        simp only [hrow, Except.error.injEq] at hl
        subst hl
        exact categoryRow_error hrow
      | ok st2 =>
        simp only [hrow] at hl
        exact ih st2 (i + 1) hl

/-- C14, on the code: no category file makes `importCategories` fail with an error whose
Unwrap is `errCategoryImageURLIsRequired` or `errSubcategoryImageURLIsRequired`, because
the image URL of a category is never read from the file: it is the hexadecimal form of
the generated identifier followed by `-0.webp`, which is not empty. A file with empty
image URL columns is imported successfully. -/
theorem importCategories_never_image_url_error :
    (∀ (gen : Nat → ObjectID) (db : Database) (lines : List (List String)) (e : GoError),
      (importCategories gen db lines).1 = .error (.error e) →
        e.Unwrap ≠ some .errCategoryImageURLIsRequired ∧
        e.Unwrap ≠ some .errSubcategoryImageURLIsRequired) ∧
    (importCategories sampleGen {} imageColumnsFile).1 = .ok () := by
  refine ⟨?_, by decide⟩
  intro gen db lines e h
  unfold importCategories at h
  cases hfold : categoryFold gen lines with
  | error a =>
    simp only [hfold, Except.error.injEq] at h
    subst h
    exact categoryLoop_error lines {} 0 hfold
  | ok st =>
    simp only [hfold] at h
    unfold BulkWrite at h
    split at h
    · rename_i err hbw
      split at hbw
      · simp only [Except.error.injEq] at hbw
        subst hbw
        simp only [Except.error.injEq, Abort.error.injEq] at h
        subst h
        exact ⟨by simp [GoError.Unwrap], by simp [GoError.Unwrap]⟩
      · simp at hbw
    · simp at h

theorem withDescription_descriptions (p : Product) (d1 d2 : String) :
    (withDescriptionID (withDescriptionEN p d1) d2).Description_EN =
      (if d1 = "#N/A" then p.Description_EN else d1) ∧
    (withDescriptionID (withDescriptionEN p d1) d2).Description_ID =
      (if d2 = "#N/A" then p.Description_ID else d2) := by
  unfold withDescriptionID withDescriptionEN
  by_cases h1 : d1 = "#N/A" <;> by_cases h2 : d2 = "#N/A" <;> simp [h1, h2]

/-- The product a successful call of `newProduct` appends: a product without
descriptions that carries the English product name of the line, to which the two
description fields of the line are applied. -/
theorem newProduct_product {gen : Nat → ObjectID} {cats : List Category} {b : Brand}
    {st st1 : ProductState} {row : Nat} {line : List String} {v : ProductVariant}
    (h : newProduct gen cats b st row line v = .ok st1) :
    ∃ p0 : Product, p0.Description_EN = "" ∧ p0.Description_ID = "" ∧
      p0.Name_EN = field line st.hi.product_name_EN ∧
      st1.products = st.products ++
        [withDescriptionID (withDescriptionEN p0 (field line st.hi.description_EN))
          (field line st.hi.description_ID)] := by
  obtain ⟨i1, i2, i3, i4, i5, i6, i7⟩ := newProduct_index h
  cases hp : getParentCategory cats (field line st.hi.category_name_EN) row with
  | error e =>
    cases hc : getChildCategory ({ ID := gen st.nextID } : Category).ChildCategories
        (field line st.hi.subcategory_name_EN) row with
    | ok k => simp [getChildCategory] at hc
    | error e2 =>
      simp only [newProduct, i1, i2, i3, i4, i5, i6, i7, hp, hc, bind, Except.bind] at h
      split at h
      · simp at h
      · split at h
        · simp at h
        · simp at h
        · simp only [Except.ok.injEq] at h
          subst h
          exact ⟨_, rfl, rfl, rfl, rfl⟩
  | ok c =>
    cases hc : getChildCategory c.ChildCategories (field line st.hi.subcategory_name_EN) row with
    | ok k =>
      simp only [newProduct, i1, i2, i3, i4, i5, i6, i7, hp, hc, bind, Except.bind] at h
      split at h
      · simp at h
      · split at h
        · simp at h
        · simp at h
        · simp only [Except.ok.injEq] at h
          subst h
          exact ⟨_, rfl, rfl, rfl, rfl⟩
    | error e2 =>
      simp only [newProduct, i1, i2, i3, i4, i5, i6, i7, hp, hc, bind, Except.bind] at h
      split at h
      · simp at h
      · split at h
        · simp at h
        · simp at h
        · simp only [Except.ok.injEq] at h
          subst h
          exact ⟨_, rfl, rfl, rfl, rfl⟩

/-- C20. When a data row that is not skipped creates a new product, the product
appended to the in-progress list has an empty Description_EN when the
product_description_ENG field of the row is `#N/A` and that field otherwise, and,
independently, an empty Description_ID when the product_description_IND field is `#N/A`
and that field otherwise. -/
theorem productRow_descriptions (gen : Nat → ObjectID) (cats : List Category) (b : Brand)
    (vt : VariantType) (st st1 : ProductState) (row : Nat) (line : List String)
    (hrow : productRow gen cats b vt st row line = .ok st1)
    (hs : ¬ Skipped st.hi line)
    (hnew : ∀ q ∈ st.products, q.Name_EN ≠ field line st.hi.product_name_EN) :
    ∃ p, st1.products = st.products ++ [p] ∧
      p.Name_EN = field line st.hi.product_name_EN ∧
      p.Description_EN =
        (if field line st.hi.description_EN = "#N/A" then ""
          else field line st.hi.description_EN) ∧
      p.Description_ID =
        (if field line st.hi.description_ID = "#N/A" then ""
          else field line st.hi.description_ID) := by
  rcases productRow_ok hrow with ⟨hsk, _⟩ | ⟨_, _, found, hfound, hcase⟩
  · exact absurd hsk hs
  · rcases hcase with ⟨j, p, rfl, _, _⟩ | ⟨_, hnewp⟩
    · obtain ⟨l1, p0, l2, hps, _, hnm, _⟩ := findProduct_some hfound
      exact absurd hnm (hnew p0 (by rw [hps]; simp))
    · obtain ⟨p0, hd1, hd2, hnm, hps⟩ := newProduct_product hnewp
      simp only at hnm hps
      obtain ⟨f1, f2⟩ := withDescription_descriptions p0
        (field line st.hi.description_EN) (field line st.hi.description_ID)
      obtain ⟨_, g2, _⟩ := withDescription_fields p0
        (field line st.hi.description_EN) (field line st.hi.description_ID)
      rw [hd1] at f1
      rw [hd2] at f2
      exact ⟨_, hps, g2.trans hnm, f1, f2⟩

/-- C20, on the Cola row: its English description is kept, its `#N/A` description is
dropped. -/
theorem productRow_descriptions_witness :
    productRow sampleGen sampleCategories { ID := ⟨300⟩, Name := "Dropezy" }
        { ID := ⟨301⟩, Name := "UOM" } { hi := getProductsHeaderIndex productHeader } 2 colaRow =
      .ok colaOnlyState ∧
    colaOnlyState.products.map (fun p => (p.Description_EN, p.Description_ID)) =
      [("Cola can", "")] ∧
    ∃ p, colaOnlyState.products =
        ({ hi := getProductsHeaderIndex productHeader } : ProductState).products ++ [p] ∧
      p.Name_EN = field colaRow (getProductsHeaderIndex productHeader).product_name_EN ∧
      p.Description_EN =
        (if field colaRow (getProductsHeaderIndex productHeader).description_EN = "#N/A" then ""
          else field colaRow (getProductsHeaderIndex productHeader).description_EN) ∧
      p.Description_ID =
        (if field colaRow (getProductsHeaderIndex productHeader).description_ID = "#N/A" then ""
          else field colaRow (getProductsHeaderIndex productHeader).description_ID) :=
  ⟨by decide, by decide,
    productRow_descriptions sampleGen sampleCategories { ID := ⟨300⟩, Name := "Dropezy" }
      { ID := ⟨301⟩, Name := "UOM" } { hi := getProductsHeaderIndex productHeader }
      colaOnlyState 2 colaRow (by decide) (by decide) (by intro q hq; simp at hq)⟩

theorem findProduct_ok_of_below {line : List String} {hi : HeadersIndex}
    (hn : hi.product_name_EN < line.length) :
    ∀ (ps : List Product) (i : Nat), ∃ found, findProduct line hi i ps = .ok found := by
  intro ps
  induction ps with
  | nil => intro i; exact ⟨none, by simp [findProduct]⟩
  | cons p0 rest ih =>
    intro i
    simp only [findProduct, index_of_lt hn, bind, Except.bind]
    split_ifs
    · exact ⟨some i, rfl⟩
    · exact ih (i + 1)

/-- A row that is not skipped and whose variant fails validation ends the row loop with
the validation error of that variant. -/
theorem productRow_invalid {gen : Nat → ObjectID} {cats : List Category} {b : Brand}
    {vt : VariantType} {st : ProductState} {row : Nat} {line : List String} {e : GoError}
    (hb : st.hi.Below line.length) (hs : ¬ Skipped st.hi line)
    (hvalid : validateProductVariant (variantOf gen vt st line) = .error (.error e)) :
    productRow gen cats b vt st row line =
      .error (.error (.failedToImportProducts row e)) := by
  obtain ⟨found, hfind⟩ := findProduct_ok_of_below hb.2.2.1 st.products 0
  obtain ⟨h1, h2, h3, h4, h5, h6, h7, h8, h9, h10, h11, h12, h13, h14, h15⟩ := hb
  have hs1 : field line st.hi.image_url ≠ "" := fun h => hs (Or.inl h)
  have hs2 : field line st.hi.barcode ≠ "" := fun h => hs (Or.inr h)
  simp only [variantOf] at hvalid
  simp only [productRow, index_of_lt h1, index_of_lt h2, index_of_lt h3,
    index_of_lt h5, index_of_lt h6, index_of_lt h7, index_of_lt h8,
    index_of_lt h9, index_of_lt h14, index_of_lt h15, bind, Except.bind, hs1, hs2, if_false,
    hfind, hvalid]

/-- A row that is not skipped, has a valid variant and the name of a product of the
list appends its variant to that product and records the parse error, if any. -/
theorem productRow_append {gen : Nat → ObjectID} {cats : List Category} {b : Brand}
    {vt : VariantType} {st : ProductState} {row j : Nat} {line : List String}
    {ps : List Product}
    (hb : st.hi.Below line.length) (hs : ¬ Skipped st.hi line)
    (hvalid : validateProductVariant (variantOf gen vt st line) = .ok ())
    (hfind : findProduct line st.hi 0 st.products = .ok (some j))
    (hap : appendVariant st.products j (variantOf gen vt st line) = .ok ps) :
    productRow gen cats b vt st row line =
      .ok { st with
        products := ps, logList := parsedLog st.hi st.logList row line,
        nextID := st.nextID + 1 } := by
  obtain ⟨h1, h2, h3, h4, h5, h6, h7, h8, h9, h10, h11, h12, h13, h14, h15⟩ := hb
  have hs1 : field line st.hi.image_url ≠ "" := fun h => hs (Or.inl h)
  have hs2 : field line st.hi.barcode ≠ "" := fun h => hs (Or.inr h)
  simp only [variantOf] at hvalid hap
  simp only [productRow, index_of_lt h1, index_of_lt h2, index_of_lt h3,
    index_of_lt h5, index_of_lt h6, index_of_lt h7, index_of_lt h8,
    index_of_lt h9, index_of_lt h14, index_of_lt h15, bind, Except.bind, hs1, hs2, if_false,
    hfind, hvalid, hap]
  unfold parsedLog
  cases (ParseInt (field line st.hi.maximum_order)).2 <;> rfl

/-- A row that is not skipped, has a valid variant and the name of no product of the
list goes on to `newProduct`, with the parse error, if any, recorded. -/
theorem productRow_create {gen : Nat → ObjectID} {cats : List Category} {b : Brand}
    {vt : VariantType} {st : ProductState} {row : Nat} {line : List String}
    (hb : st.hi.Below line.length) (hs : ¬ Skipped st.hi line)
    (hvalid : validateProductVariant (variantOf gen vt st line) = .ok ())
    (hfind : findProduct line st.hi 0 st.products = .ok none) :
    productRow gen cats b vt st row line =
      newProduct gen cats b
        { st with logList := parsedLog st.hi st.logList row line, nextID := st.nextID + 1 }
        row line (variantOf gen vt st line) := by
  obtain ⟨h1, h2, h3, h4, h5, h6, h7, h8, h9, h10, h11, h12, h13, h14, h15⟩ := hb
  have hs1 : field line st.hi.image_url ≠ "" := fun h => hs (Or.inl h)
  have hs2 : field line st.hi.barcode ≠ "" := fun h => hs (Or.inr h)
  simp only [variantOf] at hvalid
  simp only [productRow, index_of_lt h1, index_of_lt h2, index_of_lt h3,
    index_of_lt h5, index_of_lt h6, index_of_lt h7, index_of_lt h8,
    index_of_lt h9, index_of_lt h14, index_of_lt h15, bind, Except.bind, hs1, hs2, if_false,
    hfind, hvalid]
  unfold parsedLog variantOf
  cases (ParseInt (field line st.hi.maximum_order)).2 <;> rfl

theorem ParseInt_error {s : String} {e : GoError} (h : (ParseInt s).2 = some e) :
    (e = .errSyntax s ∧ (ParseInt s).1 = 0) ∨
    (e = .errRange s ∧ ((ParseInt s).1 = 2 ^ 31 - 1 ∨ (ParseInt s).1 = -2 ^ 31)) := by
  cases hP : ParseInt s with
  | mk v err =>
    rw [hP] at h
    simp only at h
    subst h
    simp only
    unfold ParseInt at hP
    split_ifs at hP with h1
    · simp only [Prod.mk.injEq, Option.some.injEq] at hP
      left; exact ⟨hP.2.symm, hP.1.symm⟩
    · simp only at hP
      split at hP
      · simp only [Prod.mk.injEq, Option.some.injEq] at hP
        left; exact ⟨hP.2.symm, hP.1.symm⟩
      · split_ifs at hP
        · simp only [Prod.mk.injEq, Option.some.injEq] at hP
          right; exact ⟨hP.2.symm, Or.inl hP.1.symm⟩
        · simp only [Prod.mk.injEq, Option.some.injEq] at hP
          right; exact ⟨hP.2.symm, Or.inr hP.1.symm⟩
        · simp at hP
        · simp at hP

theorem toInt32_bounds :
    toInt32 0 = 0 ∧ toInt32 (2 ^ 31 - 1) = 2 ^ 31 - 1 ∧ toInt32 (-2 ^ 31) = -2 ^ 31 := by
  unfold toInt32
  refine ⟨by norm_num, by norm_num, by norm_num⟩

theorem parsedLog_of_error {hi : HeadersIndex} {l : List GoError} {row : Nat}
    {line : List String} {err : GoError}
    (h : (ParseInt (field line hi.maximum_order)).2 = some err) :
    parsedLog hi l row line = l ++ [.maximumOrderOnRow row err] := by
  unfold parsedLog
  rw [h]

theorem variantOf_maximumOrder (gen : Nat → ObjectID) (vt : VariantType) (st : ProductState)
    (line : List String) :
    (variantOf gen vt st line).MaximumOrder =
      toInt32 (ParseInt (field line st.hi.maximum_order)).1 := by
  unfold variantOf
  simp only
  split_ifs <;> rfl

/-- C15, as stated, fails: the maximum_ordered_qty 99999999999 of a row that is not
skipped is out of range, the fold records the deferred error and goes on, and the
variant built from the row has MaximumOrder 2147483647, not 0. -/
theorem productRow_maximum_order_counterexample :
    ¬ Skipped (getProductsHeaderIndex productHeader) bigMaximumRow ∧
    ParseInt (field bigMaximumRow (getProductsHeaderIndex productHeader).maximum_order) =
      (2147483647, some (.errRange "99999999999")) ∧
    (productFold sampleGen sampleDb [productHeader, colaRow, bigMaximumRow]).1.toOption.map
      (fun st => (st.logList,
        st.products.map (fun p => (p.Variants.getD []).map (fun v => v.MaximumOrder)))) =
      some ([.maximumOrderOnRow 3 (.errRange "99999999999")], [[5, 2147483647]]) := by
  decide

/-- C15, amended. For a data row that is not skipped and whose maximum_ordered_qty does
not parse as a base-10 signed 32-bit integer, the row loop records the deferred error of
that row and goes on as for any other row: a valid variant is appended to its product,
or `newProduct` is entered, with the error in the list, and every successful outcome of
the row holds that error. The variant built from the row has MaximumOrder 0 when the
field is not a number (syntax error), and the nearest bound of the 32-bit range,
2147483647 or -2147483648, when it is out of range. -/
theorem productRow_maximum_order_unparsable (gen : Nat → ObjectID) (cats : List Category)
    (b : Brand) (vt : VariantType) (st : ProductState) (row : Nat) (line : List String)
    (err : GoError)
    (hb : st.hi.Below line.length) (hs : ¬ Skipped st.hi line)
    (hparse : (ParseInt (field line st.hi.maximum_order)).2 = some err) :
    (∀ j ps, validateProductVariant (variantOf gen vt st line) = .ok () →
      findProduct line st.hi 0 st.products = .ok (some j) →
      appendVariant st.products j (variantOf gen vt st line) = .ok ps →
      productRow gen cats b vt st row line =
        .ok { st with
          products := ps, logList := st.logList ++ [.maximumOrderOnRow row err],
          nextID := st.nextID + 1 }) ∧
    (validateProductVariant (variantOf gen vt st line) = .ok () →
      findProduct line st.hi 0 st.products = .ok none →
      productRow gen cats b vt st row line =
        newProduct gen cats b
          { st with
            logList := st.logList ++ [.maximumOrderOnRow row err], nextID := st.nextID + 1 }
          row line (variantOf gen vt st line)) ∧
    (∀ st1, productRow gen cats b vt st row line = .ok st1 →
      GoError.maximumOrderOnRow row err ∈ st1.logList) ∧
    ((err = .errSyntax (field line st.hi.maximum_order) ∧
        (variantOf gen vt st line).MaximumOrder = 0) ∨
      (err = .errRange (field line st.hi.maximum_order) ∧
        ((variantOf gen vt st line).MaximumOrder = 2147483647 ∨
          (variantOf gen vt st line).MaximumOrder = -2147483648))) := by
  have hlog := @parsedLog_of_error st.hi st.logList row line err hparse
  refine ⟨?_, ?_, ?_, ?_⟩
  · intro j ps hvalid hfind hap
    rw [productRow_append hb hs hvalid hfind hap, hlog]
  · intro hvalid hfind
    rw [productRow_create hb hs hvalid hfind, hlog]
  · intro st1 hrow
    rcases productRow_ok hrow with ⟨hsk, _⟩ | ⟨_, _, found, _, hcase⟩
    · exact absurd hsk hs
    · rcases hcase with ⟨j, p, _, _, rfl⟩ | ⟨_, hnew⟩
      · simp [hlog]
      · obtain ⟨p, extra, _, _, h3, _⟩ := newProduct_ok hnew
        simp only at h3
        rw [h3, hlog]
        simp
  · rw [variantOf_maximumOrder]
    obtain ⟨h0, h1, h2⟩ := toInt32_bounds
    rcases ParseInt_error hparse with ⟨he, hv⟩ | ⟨he, hv | hv⟩
    · left; exact ⟨he, by rw [hv]; exact h0⟩
    · right; refine ⟨he, Or.inl ?_⟩
      rw [hv]; simpa using h1
    · right; refine ⟨he, Or.inr ?_⟩
      rw [hv]; simpa using h2

/-- C15, amended, on a row of Cola whose maximum_ordered_qty is the word many: the
variant is appended with MaximumOrder 0 and the deferred error is recorded. -/
theorem productRow_maximum_order_unparsable_witness :
    colaOnlyState.hi.Below wordMaximumRow.length ∧
    ¬ Skipped colaOnlyState.hi wordMaximumRow ∧
    (ParseInt (field wordMaximumRow colaOnlyState.hi.maximum_order)).2 =
      some (.errSyntax "many") ∧
    wordMaximumVariant.MaximumOrder = 0 ∧
    productRow sampleGen sampleCategories { ID := ⟨300⟩, Name := "Dropezy" }
        { ID := ⟨301⟩, Name := "UOM" } colaOnlyState 3 wordMaximumRow =
      .ok { colaOnlyState with
        products := [{ colaProduct with
          Variants := some (colaProduct.Variants.getD [] ++ [wordMaximumVariant]) }],
        logList := colaOnlyState.logList ++ [.maximumOrderOnRow 3 (.errSyntax "many")],
        nextID := colaOnlyState.nextID + 1 } :=
  ⟨by decide, by decide, by decide, by decide,
    (productRow_maximum_order_unparsable sampleGen sampleCategories
      { ID := ⟨300⟩, Name := "Dropezy" } { ID := ⟨301⟩, Name := "UOM" } colaOnlyState 3
      wordMaximumRow (.errSyntax "many") (by decide) (by decide) (by decide)).1 0
      [{ colaProduct with
          Variants := some (colaProduct.Variants.getD [] ++ [wordMaximumVariant]) }]
      (by decide) (by decide) (by decide)⟩

/-- C19. For a data row that is not skipped, the variant built from it has the status
DEFAULT exactly when the default_variant field of the row is the string yes, and the
zero status otherwise (so for Yes, YES, yes after a blank, and the empty string); that
variant is the one the row loop validates and, when the row succeeds, appends as the
last variant of a product of the list. -/
theorem productRow_default_variant (gen : Nat → ObjectID) (cats : List Category)
    (b : Brand) (vt : VariantType) (st : ProductState) (row : Nat) (line : List String)
    (hs : ¬ Skipped st.hi line) :
    ((variantOf gen vt st line).VariantStatus = .VARIANT_STATUS_DEFAULT ↔
      field line st.hi.default_variant = "yes") ∧
    (field line st.hi.default_variant ≠ "yes" →
      (variantOf gen vt st line).VariantStatus = .VARIANT_STATUS_UNSPECIFIED) ∧
    (field line st.hi.default_variant ∈ ["Yes", "YES", " yes", ""] →
      (variantOf gen vt st line).VariantStatus = .VARIANT_STATUS_UNSPECIFIED) ∧
    (∀ e, st.hi.Below line.length →
      validateProductVariant (variantOf gen vt st line) = .error (.error e) →
      productRow gen cats b vt st row line =
        .error (.error (.failedToImportProducts row e))) ∧
    (∀ st1, productRow gen cats b vt st row line = .ok st1 →
      ∃ p ∈ st1.products, ∃ vs, p.Variants = some (vs ++ [variantOf gen vt st line])) := by
  have hiff : (variantOf gen vt st line).VariantStatus = .VARIANT_STATUS_DEFAULT ↔
      field line st.hi.default_variant = "yes" := by
    unfold variantOf
    simp only
    split_ifs with h <;> simp [h]
  have hno : field line st.hi.default_variant ≠ "yes" →
      (variantOf gen vt st line).VariantStatus = .VARIANT_STATUS_UNSPECIFIED := by
    intro h
    unfold variantOf
    simp only [h, if_false]
  refine ⟨hiff, hno, ?_, ?_, ?_⟩
  · intro hmem
    apply hno
    intro hyes
    rw [hyes] at hmem
    revert hmem
    decide
  · intro e hb hvalid
    exact productRow_invalid hb hs hvalid
  · intro st1 hrow
    rcases productRow_ok hrow with ⟨hsk, _⟩ | ⟨_, _, found, _, hcase⟩
    · exact absurd hsk hs
    · rcases hcase with ⟨j, p, _, hp, rfl⟩ | ⟨_, hnew⟩
      · have hj : j < st.products.length := by
          obtain ⟨hlt, _⟩ := List.getElem?_eq_some.mp hp
          exact hlt
        refine ⟨{ p with Variants := some (p.Variants.getD [] ++ [variantOf gen vt st line]) },
          ?_, p.Variants.getD [], rfl⟩
        simp only
        exact List.mem_iff_getElem.mpr ⟨j, by simpa using hj, by simp⟩
      · obtain ⟨p, extra, _, h2, _, _, h5, _⟩ := newProduct_ok hnew
        simp only at h2
        exact ⟨p, by rw [h2]; simp, [], by simpa using h5⟩

/-- C19, on the Cola row (yes) and on a row of Cola marked Yes. -/
theorem productRow_default_variant_witness :
    ¬ Skipped colaOnlyState.hi wordMaximumRow ∧
    field wordMaximumRow colaOnlyState.hi.default_variant = "Yes" ∧
    (variantOf sampleGen { ID := ⟨301⟩, Name := "UOM" } colaOnlyState
      wordMaximumRow).VariantStatus = .VARIANT_STATUS_UNSPECIFIED ∧
    field colaRow (getProductsHeaderIndex productHeader).default_variant = "yes" ∧
    (variantOf sampleGen { ID := ⟨301⟩, Name := "UOM" }
      { hi := getProductsHeaderIndex productHeader } colaRow).VariantStatus =
      .VARIANT_STATUS_DEFAULT :=
  ⟨by decide, by decide,
    (productRow_default_variant sampleGen sampleCategories { ID := ⟨300⟩, Name := "Dropezy" }
      { ID := ⟨301⟩, Name := "UOM" } colaOnlyState 3 wordMaximumRow (by decide)).2.1
      (by decide),
    by decide, by decide⟩

theorem lastOccurrence_none {name : String} {xs : List String} :
    lastOccurrence name xs = none ↔ name ∉ xs := by
  induction xs with
  | nil => simp [lastOccurrence]
  | cons h t ih =>
    unfold lastOccurrence
    cases hl : lastOccurrence name t with
    | some i =>
      have : name ∈ t := by
        by_contra hn
        rw [ih.mpr hn] at hl
        cases hl
      simp [this]
    | none =>
      have hn := ih.mp hl
      by_cases hh : h = name
      · simp [hh]
      · have hne : ¬ name = h := fun e => hh e.symm
        simp [hh, hn, hne]

theorem lastOccurrence_some {name : String} {xs : List String} {i : Nat} :
    lastOccurrence name xs = some i ↔
      xs[i]? = some name ∧ ∀ j, i < j → xs[j]? ≠ some name := by
  induction xs generalizing i with
  | nil => simp [lastOccurrence]
  | cons h t ih =>
    unfold lastOccurrence
    cases hl : lastOccurrence name t with
    | some k =>
      obtain ⟨hk, hlater⟩ := ih.mp hl
      simp only [Option.some.injEq]
      constructor
      · rintro rfl
        refine ⟨by simpa using hk, ?_⟩
        intro j hj
        obtain ⟨j1, rfl⟩ : ∃ j1, j = j1 + 1 := ⟨j - 1, by omega⟩
        simpa using hlater j1 (by omega)
      · rintro ⟨hi, hlast⟩
        cases i with
        | zero =>
          have hk1 : (h :: t)[k + 1]? = some name := by simpa using hk
          exact absurd hk1 (hlast (k + 1) (by omega))
        | succ i1 =>
          have h1 : lastOccurrence name t = some i1 :=
            ih.mpr ⟨by simpa using hi, fun j hj => by
              simpa using hlast (j + 1) (by omega)⟩
          rw [hl] at h1
          simpa using h1
    | none =>
      have hn : name ∉ t := lastOccurrence_none.mp hl
      have hnever : ∀ j : Nat, t[j]? ≠ some name := by
        intro j hj
        exact hn (List.getElem?_mem hj)
      by_cases hh : h = name
      · simp only [hh, if_true, Option.some.injEq]
        constructor
        · rintro rfl
          refine ⟨by simp, ?_⟩
          intro j hj
          obtain ⟨j1, rfl⟩ : ∃ j1, j = j1 + 1 := ⟨j - 1, by omega⟩
          simpa using hnever j1
        · rintro ⟨hi, _⟩
          cases i with
          | zero => rfl
          | succ i1 =>
            have hi1 : t[i1]? = some name := by simpa using hi
            exact absurd hi1 (hnever i1)
      · simp only [hh, if_false]
        constructor
        · intro hcontra
          cases hcontra
        · rintro ⟨hi, _⟩
          cases i with
          | zero =>
            have h0 : h = name := by simpa using hi
            exact absurd h0 hh
          | succ i1 =>
            have hi1 : t[i1]? = some name := by simpa using hi
            exact absurd hi1 (hnever i1)

theorem headerPosition_absent {name : String} {xs : List String} (h : name ∉ xs) :
    headerPosition name xs = 0 := by
  unfold headerPosition
  rw [lastOccurrence_none.mpr h]
  rfl

theorem headerPosition_present {name : String} {xs : List String} (h : name ∈ xs) :
    xs[headerPosition name xs]? = some name ∧
      ∀ j, headerPosition name xs < j → xs[j]? ≠ some name := by
  unfold headerPosition
  cases hl : lastOccurrence name xs with
  | none => exact absurd h (lastOccurrence_none.mp hl)
  | some i => exact lastOccurrence_some.mp hl

theorem headerPosition_unique {name : String} {xs : List String} {i : Nat}
    (hi : xs[i]? = some name) (hu : ∀ j, xs[j]? = some name → j = i) :
    headerPosition name xs = i :=
  hu _ (headerPosition_present (List.getElem?_mem hi)).1

theorem positionFrom_nil (name : String) (idx dflt : Nat) :
    positionFrom name idx dflt [] = dflt := rfl

theorem positionFrom_cons (name : String) (idx dflt : Nat) (h : String) (t : List String) :
    positionFrom name idx dflt (h :: t) =
      positionFrom name (idx + 1) (if h = name then idx else dflt) t := by
  simp only [positionFrom, lastOccurrence]
  cases hl : lastOccurrence name t with
  | some i =>
    simp only
    omega
  | none =>
    simp only
    split_ifs <;> rfl

theorem positionFrom_zero (name : String) (xs : List String) :
    positionFrom name 0 0 xs = headerPosition name xs := by
  unfold positionFrom headerPosition
  cases lastOccurrence name xs <;> simp

theorem setProductHeader_fields (hi : HeadersIndex) (idx : Nat) (header : String) :
    setProductHeader hi idx header =
      { shoptree_variant_id := if header = "product_variant_id" then idx else hi.shoptree_variant_id
        sku := if header = "sku_structured" then idx else hi.sku
        product_name_EN := if header = "product_name_ENG" then idx else hi.product_name_EN
        product_name_ID := if header = "product_name_IND" then idx else hi.product_name_ID
        variant_value := if header = "option_value_1" then idx else hi.variant_value
        variant_quantifier_EN := if header = "quantifier_ENG" then idx else hi.variant_quantifier_EN
        variant_quantifier_ID := if header = "quantifier_IND" then idx else hi.variant_quantifier_ID
        maximum_order := if header = "maximum_ordered_qty" then idx else hi.maximum_order
        barcode := if header = "barcodes" then idx else hi.barcode
        category_name_EN := if header = "category_name_EN" then idx else hi.category_name_EN
        subcategory_name_EN := if header = "sub_category_name_EN" then idx else hi.subcategory_name_EN
        description_EN := if header = "product_description_ENG" then idx else hi.description_EN
        description_ID := if header = "product_description_IND" then idx else hi.description_ID
        image_url := if header = "image_link" then idx else hi.image_url
        default_variant := if header = "default_variant" then idx else hi.default_variant } := by
  unfold setProductHeader
  by_cases h0 : header = "product_variant_id"
  · subst h0
    simp
  simp only [h0, if_false]
  by_cases h1 : header = "sku_structured"
  · subst h1
    simp
  simp only [h1, if_false]
  by_cases h2 : header = "product_name_ENG"
  · subst h2
    simp
  simp only [h2, if_false]
  by_cases h3 : header = "product_name_IND"
  · subst h3
    simp
  simp only [h3, if_false]
  by_cases h4 : header = "option_value_1"
  · subst h4
    simp
  simp only [h4, if_false]
  by_cases h5 : header = "quantifier_ENG"
  · subst h5
    simp
  simp only [h5, if_false]
  by_cases h6 : header = "quantifier_IND"
  · subst h6
    simp
  simp only [h6, if_false]
  by_cases h7 : header = "maximum_ordered_qty"
  · subst h7
    simp
  simp only [h7, if_false]
  by_cases h8 : header = "barcodes"
  · subst h8
    simp
  simp only [h8, if_false]
  by_cases h9 : header = "category_name_EN"
  · subst h9
    simp
  simp only [h9, if_false]
  by_cases h10 : header = "sub_category_name_EN"
  · subst h10
    simp
  simp only [h10, if_false]
  by_cases h11 : header = "product_description_IND"
  · subst h11
    simp
  simp only [h11, if_false]
  by_cases h12 : header = "product_description_ENG"
  · subst h12
    simp
  simp only [h12, if_false]
  by_cases h13 : header = "image_link"
  · subst h13
    simp
  simp only [h13, if_false]
  by_cases h14 : header = "default_variant"
  · subst h14
    simp
  simp only [h14, if_false]

theorem productHeaderLoop_fields (hi : HeadersIndex) (idx : Nat) (xs : List String) :
    productHeaderLoop hi idx xs =
      { shoptree_variant_id := positionFrom "product_variant_id" idx hi.shoptree_variant_id xs
        sku := positionFrom "sku_structured" idx hi.sku xs
        product_name_EN := positionFrom "product_name_ENG" idx hi.product_name_EN xs
        product_name_ID := positionFrom "product_name_IND" idx hi.product_name_ID xs
        variant_value := positionFrom "option_value_1" idx hi.variant_value xs
        variant_quantifier_EN := positionFrom "quantifier_ENG" idx hi.variant_quantifier_EN xs
        variant_quantifier_ID := positionFrom "quantifier_IND" idx hi.variant_quantifier_ID xs
        maximum_order := positionFrom "maximum_ordered_qty" idx hi.maximum_order xs
        barcode := positionFrom "barcodes" idx hi.barcode xs
        category_name_EN := positionFrom "category_name_EN" idx hi.category_name_EN xs
        subcategory_name_EN := positionFrom "sub_category_name_EN" idx hi.subcategory_name_EN xs
        description_EN := positionFrom "product_description_ENG" idx hi.description_EN xs
        description_ID := positionFrom "product_description_IND" idx hi.description_ID xs
        image_url := positionFrom "image_link" idx hi.image_url xs
        default_variant := positionFrom "default_variant" idx hi.default_variant xs } := by
  induction xs generalizing hi idx with
  | nil =>
    simp only [positionFrom_nil]
    rfl
  | cons h t ih =>
    rw [productHeaderLoop, ih, setProductHeader_fields]
    simp only [positionFrom_cons, eq_comm]

theorem setProductHeader_unrecognised (hi : HeadersIndex) (idx : Nat) {header : String}
    (h : header ∉ recognisedHeaders) : setProductHeader hi idx header = hi := by
  simp only [recognisedHeaders, List.mem_cons, List.mem_singleton, List.not_mem_nil,
    not_or, or_false] at h
  rw [setProductHeader_fields]
  simp only [h, if_false]

theorem productHeaderLoop_congr {xs ys : List String}
    (h : List.Forall₂ (fun x y => x = y ∨ (x ∉ recognisedHeaders ∧ y ∉ recognisedHeaders))
      xs ys) (hi : HeadersIndex) (idx : Nat) :
    productHeaderLoop hi idx ys = productHeaderLoop hi idx xs := by
  induction h generalizing hi idx with
  | nil => rfl
  | cons hxy _ ih =>
    simp only [productHeaderLoop]
    rcases hxy with rfl | ⟨hx, hy⟩
    · exact ih _ _
    · rw [setProductHeader_unrecognised hi idx hx, setProductHeader_unrecognised hi idx hy]
      exact ih _ _

/-- C17. For every header row, each of the 15 fields of the index built by
getProductsHeaderIndex is the position of the last occurrence of its header name in the
row, and 0 when the name is absent (a position holds the name, no later position does,
and a name that occurs at one position only is mapped to that position); replacing
unrecognised names by other unrecognised names does not change the index; and when every
recognised name occurs in the row, each field points at the column of its own name,
whatever the column order. -/
theorem getProductsHeaderIndex_last_occurrence (xs : List String) :
    getProductsHeaderIndex xs =
      { shoptree_variant_id := headerPosition "product_variant_id" xs
        sku := headerPosition "sku_structured" xs
        product_name_EN := headerPosition "product_name_ENG" xs
        product_name_ID := headerPosition "product_name_IND" xs
        variant_value := headerPosition "option_value_1" xs
        variant_quantifier_EN := headerPosition "quantifier_ENG" xs
        variant_quantifier_ID := headerPosition "quantifier_IND" xs
        maximum_order := headerPosition "maximum_ordered_qty" xs
        barcode := headerPosition "barcodes" xs
        category_name_EN := headerPosition "category_name_EN" xs
        subcategory_name_EN := headerPosition "sub_category_name_EN" xs
        description_EN := headerPosition "product_description_ENG" xs
        description_ID := headerPosition "product_description_IND" xs
        image_url := headerPosition "image_link" xs
        default_variant := headerPosition "default_variant" xs } ∧
    (∀ name,
      (name ∉ xs → headerPosition name xs = 0) ∧
      (name ∈ xs → xs[headerPosition name xs]? = some name ∧
        ∀ j, headerPosition name xs < j → xs[j]? ≠ some name) ∧
      (∀ i, xs[i]? = some name → (∀ j : Nat, xs[j]? = some name → j = i) →
        headerPosition name xs = i)) ∧
    (∀ ys,
      List.Forall₂ (fun x y => x = y ∨ (x ∉ recognisedHeaders ∧ y ∉ recognisedHeaders))
        xs ys →
      getProductsHeaderIndex ys = getProductsHeaderIndex xs) ∧
    ((∀ name ∈ recognisedHeaders, name ∈ xs) →
      (getProductsHeaderIndex xs).columns xs = recognisedHeaders.map some) := by
  have hmain : getProductsHeaderIndex xs =
      { shoptree_variant_id := headerPosition "product_variant_id" xs
        sku := headerPosition "sku_structured" xs
        product_name_EN := headerPosition "product_name_ENG" xs
        product_name_ID := headerPosition "product_name_IND" xs
        variant_value := headerPosition "option_value_1" xs
        variant_quantifier_EN := headerPosition "quantifier_ENG" xs
        variant_quantifier_ID := headerPosition "quantifier_IND" xs
        maximum_order := headerPosition "maximum_ordered_qty" xs
        barcode := headerPosition "barcodes" xs
        category_name_EN := headerPosition "category_name_EN" xs
        subcategory_name_EN := headerPosition "sub_category_name_EN" xs
        description_EN := headerPosition "product_description_ENG" xs
        description_ID := headerPosition "product_description_IND" xs
        image_url := headerPosition "image_link" xs
        default_variant := headerPosition "default_variant" xs } := by
    unfold getProductsHeaderIndex
    rw [productHeaderLoop_fields]
    simp only [positionFrom_zero]
  refine ⟨hmain, ?_, ?_, ?_⟩
  · intro name
    exact ⟨headerPosition_absent, headerPosition_present,
      fun i hi hu => headerPosition_unique hi hu⟩
  · intro ys h
    exact productHeaderLoop_congr h _ _
  · intro hall
    have key : ∀ name ∈ recognisedHeaders, xs[headerPosition name xs]? = some name :=
      fun name hn => (headerPosition_present (hall name hn)).1
    rw [hmain]
    simp only [HeadersIndex.columns, recognisedHeaders, List.map_cons, List.map_nil]
    rw [key "product_variant_id" (by decide)]
    rw [key "sku_structured" (by decide)]
    rw [key "product_name_ENG" (by decide)]
    rw [key "product_name_IND" (by decide)]
    rw [key "option_value_1" (by decide)]
    rw [key "quantifier_ENG" (by decide)]
    rw [key "quantifier_IND" (by decide)]
    rw [key "maximum_ordered_qty" (by decide)]
    rw [key "barcodes" (by decide)]
    rw [key "category_name_EN" (by decide)]
    rw [key "sub_category_name_EN" (by decide)]
    rw [key "product_description_ENG" (by decide)]
    rw [key "product_description_IND" (by decide)]
    rw [key "image_link" (by decide)]
    rw [key "default_variant" (by decide)]

/-- C17, on three header rows: the sample header, a header in another column order with
unknown columns, and a header with a repeated and a missing name. -/
theorem getProductsHeaderIndex_last_occurrence_witness :
    (getProductsHeaderIndex shuffledHeader).columns shuffledHeader =
      recognisedHeaders.map some ∧
    (getProductsHeaderIndex productHeader).columns productHeader =
      recognisedHeaders.map some ∧
    (getProductsHeaderIndex repeatedHeader).barcode = 3 ∧
    (getProductsHeaderIndex repeatedHeader).sku = 1 ∧
    (getProductsHeaderIndex repeatedHeader).default_variant = 0 ∧
    (getProductsHeaderIndex repeatedHeader).shoptree_variant_id = 0 :=
  ⟨(getProductsHeaderIndex_last_occurrence shuffledHeader).2.2.2 (by decide),
    by decide, by decide, by decide, by decide, by decide⟩

theorem findProduct_first {line : List String} {hi : HeadersIndex}
    (hn : hi.product_name_EN < line.length) :
    ∀ (l1 : List Product) (p : Product) (l2 : List Product) (i : Nat),
      p.Name_EN = field line hi.product_name_EN →
      (∀ q ∈ l1, q.Name_EN ≠ field line hi.product_name_EN) →
      findProduct line hi i (l1 ++ p :: l2) = .ok (some (i + l1.length)) := by
  intro l1
  induction l1 with
  | nil =>
    intro p l2 i hp _
    simp [findProduct, index_of_lt hn, bind, Except.bind, hp]
  | cons q0 rest ih =>
    intro p l2 i hp hall
    have hq0 := hall q0 (by simp)
    simp only [List.cons_append, findProduct, index_of_lt hn, bind, Except.bind, hq0,
      if_false]
    have h := ih p l2 (i + 1) hp (fun q hq => hall q (by simp [hq]))
    rw [show i + (q0 :: rest).length = i + 1 + rest.length by
      simp only [List.length_cons]; omega]
    exact h

theorem appendVariant_at (l1 : List Product) (p : Product) (l2 : List Product)
    (v : ProductVariant) :
    appendVariant (l1 ++ p :: l2) l1.length v =
      .ok (l1 ++ { p with Variants := some (p.Variants.getD [] ++ [v]) } :: l2) := by
  unfold appendVariant
  have hget : (l1 ++ p :: l2)[l1.length]? = some p := by
    rw [List.getElem?_append_right (le_refl _)]
    simp
  rw [hget]
  simp

theorem findProduct_lt {line : List String} {hi : HeadersIndex} {ps : List Product}
    {j : Nat} (h : findProduct line hi 0 ps = .ok (some j)) : j < ps.length := by
  obtain ⟨l1, p, l2, hps, hj, _, _⟩ := findProduct_some h
  rw [hps, hj]
  simp

/-- C24, on the code: for every product variant whose identifier and external variant id
are present and whose image URL list is empty, `validateProductVariant` does not return
`errProductVariantImageURLIsRequired`: the case `pv.ImagesURLs[0] == ""` is evaluated
before the case `len(pv.ImagesURLs) < 1`, and the index expression panics. So it does on
a variant that is complete but for its image URLs. -/
theorem validateProductVariant_empty_image_list :
    (∀ pv : ProductVariant, pv.ID ≠ NilObjectID → pv.ShoptreeVariantID ≠ "" →
      pv.ImagesURLs = [] →
      validateProductVariant pv = .error .panic ∧
      validateProductVariant pv ≠ .error (.error .errProductVariantImageURLIsRequired)) ∧
    noImageVariant.ImagesURLs = [] ∧
    validateProductVariant noImageVariant = .error .panic := by
  refine ⟨?_, rfl, by decide⟩
  intro pv h1 h2 h3
  have hp : validateProductVariant pv = .error .panic := by
    unfold validateProductVariant
    simp [h1, h2, h3, index]
  exact ⟨hp, by rw [hp]; simp⟩

/-- C21. A data row that is not skipped, whose variant is valid and whose product name is
the English name of a product of the in-progress list, only appends its variant to the
first such product: the list is split at that product, the row ends normally whatever the
persisted categories are (so no category is looked up and the SKU is not compared with
an abbreviation), the product keeps its identifier, names, descriptions, brand and
category references and its earlier variants, the other products are unchanged, and the
list of deferred errors grows by at most the error of the maximum order quantity. -/
theorem productRow_existing_product (gen : Nat → ObjectID) (b : Brand) (vt : VariantType)
    (st : ProductState) (row : Nat) (line : List String)
    (hb : st.hi.Below line.length) (hs : ¬ Skipped st.hi line)
    (hvalid : validateProductVariant (variantOf gen vt st line) = .ok ())
    (hmem : ∃ p ∈ st.products, p.Name_EN = field line st.hi.product_name_EN) :
    ∃ l1 p l2, st.products = l1 ++ p :: l2 ∧
      p.Name_EN = field line st.hi.product_name_EN ∧
      (∀ q ∈ l1, q.Name_EN ≠ field line st.hi.product_name_EN) ∧
      (∀ cats : List Category,
        productRow gen cats b vt st row line =
          .ok { st with
            products :=
              l1 ++ { p with
                Variants := some (p.Variants.getD [] ++ [variantOf gen vt st line]) } :: l2,
            logList := parsedLog st.hi st.logList row line,
            nextID := st.nextID + 1 }) ∧
      (parsedLog st.hi st.logList row line = st.logList ∨
        ∃ err, (ParseInt (field line st.hi.maximum_order)).2 = some err ∧
          parsedLog st.hi st.logList row line =
            st.logList ++ [.maximumOrderOnRow row err]) := by
  obtain ⟨found, hfound⟩ := findProduct_ok_of_below hb.2.2.1 st.products 0
  cases found with
  | none =>
    obtain ⟨p, hp, hname⟩ := hmem
    exact absurd hname (findProduct_none hfound p hp)
  | some j =>
    obtain ⟨l1, p, l2, hps, hj, hname, hfirst⟩ := findProduct_some hfound
    refine ⟨l1, p, l2, hps, hname, hfirst, ?_, ?_⟩
    · intro cats
      have hap : appendVariant st.products j (variantOf gen vt st line) =
          .ok (l1 ++ { p with
            Variants := some (p.Variants.getD [] ++ [variantOf gen vt st line]) } :: l2) := by
        rw [hps, hj, Nat.zero_add]
        exact appendVariant_at l1 p l2 _
      exact productRow_append hb hs hvalid hfound hap
    · unfold parsedLog
      cases hparse : (ParseInt (field line st.hi.maximum_order)).2 with
      | none => exact Or.inl rfl
      | some err => exact Or.inr ⟨err, rfl, rfl⟩

/-- C21, on a second row of Cola whose category names are unknown, whose SKU does not hold
the abbreviation DRK and whose maximum order quantity is a word: the variant is appended
to Cola, with the persisted categories as well as with none. -/
theorem productRow_existing_product_witness :
    colaOnlyState.hi.Below colaCanRow.length ∧
    ¬ Skipped colaOnlyState.hi colaCanRow ∧
    Contains (field colaCanRow colaOnlyState.hi.sku) "DRK" = false ∧
    ∃ l1 p l2, colaOnlyState.products = l1 ++ p :: l2 ∧
      p.Name_EN = field colaCanRow colaOnlyState.hi.product_name_EN ∧
      (∀ q ∈ l1, q.Name_EN ≠ field colaCanRow colaOnlyState.hi.product_name_EN) ∧
      (∀ cats : List Category,
        productRow sampleGen cats { ID := ⟨300⟩, Name := "Dropezy" }
            { ID := ⟨301⟩, Name := "UOM" } colaOnlyState 3 colaCanRow =
          .ok { colaOnlyState with
            products :=
              l1 ++ { p with
                Variants := some (p.Variants.getD [] ++
                  [variantOf sampleGen { ID := ⟨301⟩, Name := "UOM" } colaOnlyState
                    colaCanRow]) } :: l2,
            logList := parsedLog colaOnlyState.hi colaOnlyState.logList 3 colaCanRow,
            nextID := colaOnlyState.nextID + 1 }) ∧
      (parsedLog colaOnlyState.hi colaOnlyState.logList 3 colaCanRow =
          colaOnlyState.logList ∨
        ∃ err, (ParseInt (field colaCanRow colaOnlyState.hi.maximum_order)).2 = some err ∧
          parsedLog colaOnlyState.hi colaOnlyState.logList 3 colaCanRow =
            colaOnlyState.logList ++ [.maximumOrderOnRow 3 err]) :=
  ⟨by decide, by decide, by decide,
    productRow_existing_product sampleGen { ID := ⟨300⟩, Name := "Dropezy" }
      { ID := ⟨301⟩, Name := "UOM" } colaOnlyState 3 colaCanRow (by decide) (by decide)
      (by decide) ⟨colaProduct, by decide, by decide⟩⟩

theorem validateProduct_no_panic (p : Product) : validateProduct p ≠ .error .panic := by
  unfold validateProduct
  split_ifs <;> simp

theorem variantOf_imagesURLs (gen : Nat → ObjectID) (vt : VariantType) (st : ProductState)
    (line : List String) :
    (variantOf gen vt st line).ImagesURLs = [field line st.hi.sku ++ "-0.webp"] := by
  unfold variantOf
  simp only
  split_ifs <;> rfl

theorem validateProductVariant_variantOf_no_panic (gen : Nat → ObjectID) (vt : VariantType)
    (st : ProductState) (line : List String) :
    validateProductVariant (variantOf gen vt st line) ≠ .error .panic := by
  have hi := variantOf_imagesURLs gen vt st line
  generalize variantOf gen vt st line = v at hi
  generalize field line st.hi.sku ++ "-0.webp" = u at hi
  intro h
  unfold validateProductVariant at h
  simp only [hi, index, List.getElem?_cons_zero, List.length_singleton, Nat.lt_irrefl,
    if_false] at h
  split_ifs at h <;> cases h

theorem newProduct_no_panic {gen : Nat → ObjectID} {cats : List Category} {b : Brand}
    {st : ProductState} {row : Nat} {line : List String} {v : ProductVariant}
    (hb : st.hi.Below line.length) :
    newProduct gen cats b st row line v ≠ .error .panic := by
  obtain ⟨h1, h2, h3, h4, h5, h6, h7, h8, h9, h10, h11, h12, h13, h14, h15⟩ := hb
  intro h
  cases hp : getParentCategory cats (field line st.hi.category_name_EN) row with
  | error e =>
    cases hc : getChildCategory ({ ID := gen st.nextID } : Category).ChildCategories
        (field line st.hi.subcategory_name_EN) row with
    | ok k => simp [getChildCategory] at hc
    | error e2 =>
      simp only [newProduct, index_of_lt h2, index_of_lt h3, index_of_lt h4, index_of_lt h10,
        index_of_lt h11, index_of_lt h12, index_of_lt h13, hp, hc, bind, Except.bind] at h
      split at h
      · simp at h
      · split at h
        · rename_i hv
          exact validateProduct_no_panic _ hv
        · simp at h
        · simp at h
  | ok c =>
    cases hc : getChildCategory c.ChildCategories (field line st.hi.subcategory_name_EN) row with
    | ok k =>
      simp only [newProduct, index_of_lt h2, index_of_lt h3, index_of_lt h4, index_of_lt h10,
        index_of_lt h11, index_of_lt h12, index_of_lt h13, hp, hc, bind, Except.bind] at h
      split at h
      · simp at h
      · split at h
        · rename_i hv
          exact validateProduct_no_panic _ hv
        · simp at h
        · simp at h
    | error e2 =>
      simp only [newProduct, index_of_lt h2, index_of_lt h3, index_of_lt h4, index_of_lt h10,
        index_of_lt h11, index_of_lt h12, index_of_lt h13, hp, hc, bind, Except.bind] at h
      split at h
      · simp at h
      · split at h
        · rename_i hv
          exact validateProduct_no_panic _ hv
        · simp at h
        · simp at h

theorem productRow_skipped {gen : Nat → ObjectID} {cats : List Category} {b : Brand}
    {vt : VariantType} {st : ProductState} {row : Nat} {line : List String}
    (hb : st.hi.Below line.length) (hs : Skipped st.hi line) :
    ∃ e, productRow gen cats b vt st row line =
      .ok { st with logList := st.logList ++ [e] } := by
  obtain ⟨h1, h2, h3, h4, h5, h6, h7, h8, h9, h10, h11, h12, h13, h14, h15⟩ := hb
  by_cases hi : field line st.hi.image_url = ""
  · exact ⟨.imageURLEmpty row, by
      simp only [productRow, index_of_lt h14, bind, Except.bind, hi, if_true]⟩
  · have hbar : field line st.hi.barcode = "" := hs.resolve_left hi
    exact ⟨.barcodeEmpty row, by
      simp only [productRow, index_of_lt h14, index_of_lt h9, bind, Except.bind, hi, hbar,
        if_true, if_false]⟩

theorem productRow_no_panic {gen : Nat → ObjectID} {cats : List Category} {b : Brand}
    {vt : VariantType} {st : ProductState} {row : Nat} {line : List String}
    (hb : st.hi.Below line.length) :
    productRow gen cats b vt st row line ≠ .error .panic := by
  by_cases hs : Skipped st.hi line
  · obtain ⟨e, he⟩ := @productRow_skipped gen cats b vt st row line hb hs
    rw [he]
    simp
  · have hv0 := validateProductVariant_variantOf_no_panic gen vt st line
    cases hv : validateProductVariant (variantOf gen vt st line) with
    | error a =>
      cases a with
      | panic => exact absurd hv hv0
      | error e => rw [productRow_invalid hb hs hv]; simp
    | ok u =>
      obtain ⟨found, hf⟩ := findProduct_ok_of_below hb.2.2.1 st.products 0
      cases found with
      | none =>
        rw [productRow_create hb hs hv hf]
        exact newProduct_no_panic hb
      | some j =>
        obtain ⟨l1, p, l2, hps, hj, _, _⟩ := findProduct_some hf
        have hap : appendVariant st.products j (variantOf gen vt st line) =
            .ok (l1 ++ { p with
              Variants := some (p.Variants.getD [] ++ [variantOf gen vt st line]) } :: l2) := by
          rw [hps, hj, Nat.zero_add]
          exact appendVariant_at l1 p l2 _
        rw [productRow_append hb hs hv hf hap]
        simp

theorem productLoop_no_panic {gen : Nat → ObjectID} {cats : List Category} {b : Brand}
    {vt : VariantType} {n : Nat} :
    ∀ (rows : List (List String)) (st : ProductState) (i : Nat), 1 ≤ i →
      st.hi.Below n → (∀ r ∈ rows, r.length = n) →
      productLoop gen cats b vt st i rows ≠ .error .panic := by
  intro rows
  induction rows with
  | nil => intro st i _ _ _; simp [productLoop]
  | cons line rest ih =>
    intro st i hi hb hlen
    have hne : ¬ (i + 1 = 1) := by omega
    have hl : line.length = n := hlen line (by simp)
    simp only [productLoop, hne, if_false]
    cases hrow : productRow gen cats b vt st (i + 1) line with
    | error a =>
      have := @productRow_no_panic gen cats b vt st (i + 1) line (hl ▸ hb)
      rw [hrow] at this
      simpa using this
    | ok st2 =>
      simp only
      exact ih st2 (i + 1) (by omega) (by rw [productRow_hi hrow]; exact hb)
        (fun r hr => hlen r (by simp [hr]))

theorem productFold_no_panic {gen : Nat → ObjectID} {db : Database} {header : List String}
    {rows : List (List String)} (hrect : Rectangular header rows) :
    (productFold gen db (header :: rows)).1 ≠ .error .panic := by
  obtain ⟨hne, hlen⟩ := hrect
  by_cases hcat : db.category = []
  · simp [productFold, getCategories, hcat]
  · rw [productFold_cons gen db header rows hcat]
    exact productLoop_no_panic rows _ 1 (le_refl 1) (getProductsHeaderIndex_below hne) hlen

theorem categoryHeaderLoop_absent :
    ∀ (xs : List String) (h : CategoryHeaders) (idx : Nat),
      ("category_name_EN" ∉ xs →
        (categoryHeaderLoop h idx xs).category_name_EN = h.category_name_EN) ∧
      ("category_name_ID" ∉ xs →
        (categoryHeaderLoop h idx xs).category_name_ID = h.category_name_ID) ∧
      ("abbreviation" ∉ xs →
        (categoryHeaderLoop h idx xs).abbreviation = h.abbreviation) ∧
      ("subcategory_name_EN" ∉ xs →
        (categoryHeaderLoop h idx xs).subcategory_name_EN = h.subcategory_name_EN) ∧
      ("subcategory_name_ID" ∉ xs →
        (categoryHeaderLoop h idx xs).subcategory_name_ID = h.subcategory_name_ID) := by
  intro xs
  induction xs with
  | nil => intro h idx; simp [categoryHeaderLoop]
  | cons x rest ih =>
    intro h idx
    obtain ⟨i1, i2, i3, i4, i5⟩ := ih (setCategoryHeader h idx x) (idx + 1)
    simp only [categoryHeaderLoop, List.mem_cons, not_or]
    refine ⟨?_, ?_, ?_, ?_, ?_⟩
    · rintro ⟨hx, hr⟩
      rw [i1 hr]
      unfold setCategoryHeader
      split_ifs <;> simp_all
    · rintro ⟨hx, hr⟩
      rw [i2 hr]
      unfold setCategoryHeader
      split_ifs <;> simp_all
    · rintro ⟨hx, hr⟩
      rw [i3 hr]
      unfold setCategoryHeader
      split_ifs <;> simp_all
    · rintro ⟨hx, hr⟩
      rw [i4 hr]
      unfold setCategoryHeader
      split_ifs <;> simp_all
    · rintro ⟨hx, hr⟩
      rw [i5 hr]
      unfold setCategoryHeader
      split_ifs <;> simp_all

/-- C26. On the records of a CSV table, a non-empty header and rows with as many fields as
the header, every header index of the category importer and of the product importer is
a position of the row (an index whose header name is absent is 0), so neither the category
fold nor the product fold, nor the importers built on them, end with a panic; and an
index into the in-progress list comes from the scan of that list: it is below its length
and the append at that index does not panic. The image URL lists the folds read hold one
element. -/
theorem folds_index_in_range (gen : Nat → ObjectID) (db : Database) (header : List String)
    (rows : List (List String)) (hrect : Rectangular header rows) :
    ((categoryHeaderLoop {} 0 header).Below header.length ∧
      (getProductsHeaderIndex header).Below header.length ∧
      ∀ r ∈ rows, (categoryHeaderLoop {} 0 header).Below r.length ∧
        (getProductsHeaderIndex header).Below r.length) ∧
    (("category_name_EN" ∉ header → (categoryHeaderLoop {} 0 header).category_name_EN = 0) ∧
      ("category_name_ID" ∉ header → (categoryHeaderLoop {} 0 header).category_name_ID = 0) ∧
      ("abbreviation" ∉ header → (categoryHeaderLoop {} 0 header).abbreviation = 0) ∧
      ("subcategory_name_EN" ∉ header →
        (categoryHeaderLoop {} 0 header).subcategory_name_EN = 0) ∧
      ("subcategory_name_ID" ∉ header →
        (categoryHeaderLoop {} 0 header).subcategory_name_ID = 0) ∧
      ∀ name, name ∉ header → headerPosition name header = 0) ∧
    (categoryFold gen (header :: rows) ≠ .error .panic ∧
      (importCategories gen db (header :: rows)).1 ≠ .error .panic ∧
      (productFold gen db (header :: rows)).1 ≠ .error .panic ∧
      (importProducts gen db (header :: rows)).1 ≠ .error .panic) ∧
    (∀ (line : List String) (h : CategoryHeaders) (row j : Nat) (cats : List Category),
      findCategory line h row 0 cats = .ok (some j) →
        j < cats.length ∧ ∀ c2, appendChild cats j c2 ≠ .error .panic) ∧
    (∀ (line : List String) (hi : HeadersIndex) (j : Nat) (ps : List Product),
      findProduct line hi 0 ps = .ok (some j) →
        j < ps.length ∧ ∀ v, appendVariant ps j v ≠ .error .panic) ∧
    (∀ (st : CategoryState) (line : List String),
      (subOf gen st line).ImagesURLs.length = 1 ∧ (catOf gen st line).ImagesURLs.length = 1) ∧
    (∀ (vt : VariantType) (st : ProductState) (line : List String),
      (variantOf gen vt st line).ImagesURLs.length = 1) := by
  have hne := hrect.1
  have hlen := hrect.2
  have hcb := @categoryHeaders_below header hne
  have hpb := @getProductsHeaderIndex_below header hne
  have hcf : categoryFold gen (header :: rows) ≠ .error .panic := by
    rw [categoryFold_cons]
    exact categoryLoop_no_panic rows _ 1 (le_refl 1) hcb hlen
  have hpf := @productFold_no_panic gen db header rows hrect
  refine ⟨⟨hcb, hpb, ?_⟩, ?_, ⟨hcf, ?_, hpf, ?_⟩, ?_, ?_, ?_, ?_⟩
  · intro r hr
    rw [hlen r hr]
    exact ⟨hcb, hpb⟩
  · obtain ⟨a1, a2, a3, a4, a5⟩ := categoryHeaderLoop_absent header {} 0
    exact ⟨a1, a2, a3, a4, a5, fun name hn => headerPosition_absent hn⟩
  · unfold importCategories
    cases hfold : categoryFold gen (header :: rows) with
    | error a =>
      simp only
      intro hp
      simp only [Except.error.injEq] at hp
      subst hp
      exact hcf hfold
    | ok st =>
      simp only
      cases BulkWrite db.category st.categories <;> simp
  · unfold importProducts
    cases hfold : productFold gen db (header :: rows) with
    | mk res db2 =>
      cases res with
      | error a =>
        simp only
        intro hp
        simp only [Except.error.injEq] at hp
        subst hp
        apply hpf
        rw [hfold]
      | ok st =>
        simp only
        split_ifs
        · simp
        · unfold insertProducts
          cases BulkWrite db2.product st.products <;> simp
  · intro line h row j cats hf
    obtain ⟨l1, c, l2, hcat, hj, _⟩ := findCategory_some hf
    subst hcat
    refine ⟨by rw [hj]; simp, ?_⟩
    intro c2
    unfold appendChild
    rw [hj, Nat.zero_add, List.getElem?_append_right (le_refl _)]
    simp
  · intro line hi j ps hf
    obtain ⟨l1, p, l2, hps, hj, _⟩ := findProduct_some hf
    subst hps
    refine ⟨by rw [hj]; simp, ?_⟩
    intro v
    rw [hj, Nat.zero_add, appendVariant_at]
    simp
  · intro st line
    exact ⟨rfl, rfl⟩
  · intro vt st line
    rw [variantOf_imagesURLs]
    rfl

/-- C26, on the two Drinks rows under the category header, read by both folds. -/
theorem folds_index_in_range_witness :
    Rectangular categoryHeader drinksRows ∧
    categoryFold sampleGen (categoryHeader :: drinksRows) ≠ .error .panic ∧
    (productFold sampleGen sampleDb (categoryHeader :: drinksRows)).1 ≠ .error .panic :=
  ⟨by decide,
    (folds_index_in_range sampleGen sampleDb categoryHeader drinksRows (by decide)).2.2.1.1,
    (folds_index_in_range sampleGen sampleDb categoryHeader drinksRows
      (by decide)).2.2.1.2.2.1⟩

theorem findCategory_first {line : List String} {h : CategoryHeaders} {row : Nat}
    (ha : h.abbreviation < line.length) (hn : h.category_name_EN < line.length) :
    ∀ (l1 : List Category) (c : Category) (l2 : List Category) (i : Nat),
      c.Abbreviation = field line h.abbreviation →
      (∀ c1 ∈ l1, c1.Abbreviation ≠ field line h.abbreviation) →
      findCategory line h row i (l1 ++ c :: l2) =
        if c.Name_EN ≠ field line h.category_name_EN then
          .error (.error (.abbreviationConflict row))
        else .ok (some (i + l1.length)) := by
  intro l1
  induction l1 with
  | nil =>
    intro c l2 i hc _
    simp only [List.nil_append, findCategory, index_of_lt ha, index_of_lt hn, bind,
      Except.bind, hc, if_true, List.length_nil, Nat.add_zero]
  | cons c0 rest ih =>
    intro c l2 i hc hall
    have hc0 := hall c0 (by simp)
    simp only [List.cons_append, findCategory, index_of_lt ha, bind, Except.bind, hc0,
      if_false]
    have h1 := ih c l2 (i + 1) hc (fun q hq => hall q (by simp [hq]))
    rw [show i + (c0 :: rest).length = i + 1 + rest.length by
      simp only [List.length_cons]; omega]
    exact h1

theorem categories_find_split {cats : List Category} {abbr : String} {c : Category}
    (h : cats.find? (fun c => c.Abbreviation = abbr) = some c) :
    c.Abbreviation = abbr ∧ ∃ l1 l2, cats = l1 ++ c :: l2 ∧
      ∀ c1 ∈ l1, c1.Abbreviation ≠ abbr := by
  obtain ⟨hc, l1, l2, hcats, hfirst⟩ := List.find?_eq_some.mp h
  refine ⟨by simpa using hc, l1, l2, hcats, ?_⟩
  intro c1 hc1
  simpa using hfirst c1 hc1

theorem appendChild_at (l1 : List Category) (c : Category) (l2 : List Category)
    (c2 : SubCategory) :
    appendChild (l1 ++ c :: l2) l1.length c2 =
      .ok (l1 ++ { c with ChildCategories := c.ChildCategories ++ [c2] } :: l2) := by
  unfold appendChild
  have hget : (l1 ++ c :: l2)[l1.length]? = some c := by
    rw [List.getElem?_append_right (le_refl _)]
    simp
  rw [hget]
  simp

theorem categoryFold_row {gen : Nat → ObjectID} {header : List String}
    {pre : List (List String)} {r : List String} {rest : List (List String)}
    {st : CategoryState} (hpre : categoryFold gen (header :: pre) = .ok st) :
    (∀ a, categoryRow gen st (pre.length + 2) r = .error a →
      categoryFold gen (header :: (pre ++ r :: rest)) = .error a) ∧
    (∀ st1, categoryRow gen st (pre.length + 2) r = .ok st1 →
      categoryFold gen (header :: (pre ++ r :: rest)) =
        categoryLoop gen st1 (pre.length + 2) rest) := by
  rw [categoryFold_cons] at hpre ⊢
  rw [categoryLoop_append pre (r :: rest) _ 1 (le_refl 1), hpre]
  have hne1 : ¬ (1 + pre.length + 1 = 1) := by omega
  have hne2 : ¬ (pre.length + 2 = 1) := by omega
  have hrow : 1 + pre.length + 1 = pre.length + 2 := by omega
  constructor
  · intro a ha
    simp only [categoryLoop, hne1, hne2, if_false, hrow, ha]
  · intro st1 hok
    simp only [categoryLoop, hne1, hne2, if_false, hrow, hok]

/-- C25. In the category fold, after rows read without failure, the next row fails or
not by a fixed order of checks. When the first category with the abbreviation of the row
has another English name, the fold fails with the abbreviation conflict of that row,
whatever the other fields are. Otherwise, when the subcategory of the row is invalid,
the fold fails with that error on the row, whatever the category fields are. The category
fields are validated only when no category has the abbreviation of the row: then an
invalid category fails the fold with its error, and a row whose abbreviation and English
name are those of a category of the list is accepted whatever its localized category
name is, the list keeping its categories but for the child appended. -/
theorem categoryFold_error_precedence (gen : Nat → ObjectID) (header : List String)
    (pre : List (List String)) (r : List String) (rest : List (List String))
    (st : CategoryState)
    (hrect : Rectangular header (pre ++ r :: rest))
    (hpre : categoryFold gen (header :: pre) = .ok st) :
    (∀ c, st.categories.find? (fun c => c.Abbreviation = field r st.headers.abbreviation) =
        some c →
      c.Name_EN ≠ field r st.headers.category_name_EN →
      categoryFold gen (header :: (pre ++ r :: rest)) =
        .error (.error (.abbreviationConflict (pre.length + 2)))) ∧
    (∀ e,
      (∀ c, st.categories.find? (fun c => c.Abbreviation = field r st.headers.abbreviation) =
          some c →
        c.Name_EN = field r st.headers.category_name_EN) →
      validateC2 (subOf gen st r) = .error (.error e) →
      categoryFold gen (header :: (pre ++ r :: rest)) =
        .error (.error (.errorOnRow (pre.length + 2) e))) ∧
    (∀ e,
      st.categories.find? (fun c => c.Abbreviation = field r st.headers.abbreviation) =
        none →
      validateC2 (subOf gen st r) = .ok () →
      validateC1 (catOf gen st r) = .error (.error e) →
      categoryFold gen (header :: (pre ++ r :: rest)) =
        .error (.error (.errorOnRow (pre.length + 2) e))) ∧
    (∀ c, st.categories.find? (fun c => c.Abbreviation = field r st.headers.abbreviation) =
        some c →
      c.Name_EN = field r st.headers.category_name_EN →
      validateC2 (subOf gen st r) = .ok () →
      ∃ l1 l2, st.categories = l1 ++ c :: l2 ∧
        categoryFold gen (header :: (pre ++ [r])) =
          .ok { st with
            categories :=
              l1 ++ { c with ChildCategories := c.ChildCategories ++ [subOf gen st r] } :: l2,
            nextID := st.nextID + 1 }) := by
  obtain ⟨hne, hlen⟩ := hrect
  have hb := categoryHeaders_below hne
  obtain ⟨hst, _, _, _⟩ := categoryFold_inv hpre
  have hrlen : r.length = header.length := hlen r (by simp)
  have hbr : st.headers.Below r.length := by rw [hst, hrlen]; exact hb
  obtain ⟨hfold, _⟩ := @categoryFold_row gen header pre r rest st hpre
  refine ⟨?_, ?_, ?_, ?_⟩
  · intro c hfind hname
    obtain ⟨hca, l1, l2, hcats, hfirst⟩ := categories_find_split hfind
    have hf := @findCategory_first r st.headers (pre.length + 2) hbr.2.2.1 hbr.1 l1 c l2 0
      hca hfirst
    rw [← hcats] at hf
    simp only [hname, ne_eq, not_false_eq_true, if_true] at hf
    exact hfold _ (categoryRow_find_error hf)
  · intro e hsame hv
    cases hfind : st.categories.find?
        (fun c => c.Abbreviation = field r st.headers.abbreviation) with
    | none =>
      have hf := @findCategory_absent r st.headers (pre.length + 2) hbr.2.2.1 st.categories 0
        (by simpa using hfind)
      exact hfold _ (categoryRow_c2_error hbr hf hv)
    | some c =>
      obtain ⟨hca, l1, l2, hcats, hfirst⟩ := categories_find_split hfind
      have hf := @findCategory_first r st.headers (pre.length + 2) hbr.2.2.1 hbr.1 l1 c l2 0
        hca hfirst
      rw [← hcats] at hf
      simp only [hsame c hfind, ne_eq, not_true_eq_false, if_false] at hf
      exact hfold _ (categoryRow_c2_error hbr hf hv)
  · intro e hfind hv2 hv1
    have hf := @findCategory_absent r st.headers (pre.length + 2) hbr.2.2.1 st.categories 0
      (by simpa using hfind)
    exact hfold _ (categoryRow_c1_error hbr hf hv2 hv1)
  · intro c hfind hname hv2
    obtain ⟨hca, l1, l2, hcats, hfirst⟩ := categories_find_split hfind
    have hf := @findCategory_first r st.headers (pre.length + 2) hbr.2.2.1 hbr.1 l1 c l2 0
      hca hfirst
    rw [← hcats] at hf
    simp only [hname, ne_eq, not_true_eq_false, if_false, Nat.zero_add] at hf
    have hap : appendChild st.categories l1.length (subOf gen st r) =
        .ok (l1 ++ { c with ChildCategories := c.ChildCategories ++ [subOf gen st r] } :: l2) := by
      rw [hcats]
      exact appendChild_at l1 c l2 _
    refine ⟨l1, l2, hcats, ?_⟩
    rw [(@categoryFold_row gen header pre r [] st hpre).2 _
      (categoryRow_found hbr hf hv2 hap)]
    simp only [categoryLoop]

/-- C25, on the two Drinks rows followed by a row that reuses DRK without any name: the
abbreviation conflict of row 4 is reported, not the missing subcategory name. A row with
a new abbreviation and no name at all fails on its subcategory name, and a row of Drinks
without localized category name is accepted. -/
theorem categoryFold_error_precedence_witness :
    Rectangular categoryHeader (drinksRows ++ namelessRow :: []) ∧
    categoryFold sampleGen (categoryHeader :: drinksRows) = .ok drinksState ∧
    validateC2 (subOf sampleGen drinksState namelessRow) =
      .error (.error .errSubcategoryNameENIsRequired) ∧
    categoryFold sampleGen (categoryHeader :: (drinksRows ++ namelessRow :: [])) =
      .error (.error (.abbreviationConflict 4)) ∧
    categoryFold sampleGen (categoryHeader :: (drinksRows ++ [snackNoNamesRow])) =
      .error (.error (.errorOnRow 4 .errSubcategoryNameENIsRequired)) ∧
    (categoryFold sampleGen (categoryHeader :: (drinksRows ++ [drinksJuiceRow]))).toOption.map
      (fun st => st.categories.map
        (fun c => (c.Name_ID, c.ChildCategories.map (fun k => k.Name_EN)))) =
      some [("Minuman", ["Soda", "Water", "Juice"])] :=
  ⟨by decide, by decide, by decide,
    (categoryFold_error_precedence sampleGen categoryHeader drinksRows namelessRow []
      drinksState (by decide) (by decide)).1 (drinksState.categories.getD 0 {}) (by decide)
      (by decide),
    by decide, by decide⟩

theorem getStores_empty {db : Database} (h : db.store = []) :
    getStores db = ([], some (.inventory .errStoreNotFound)) := by
  simp [getStores, h]

theorem getStores_nonempty {db : Database} (h : db.store ≠ []) :
    getStores db = (db.store, none) := by
  have hlen : ¬ db.store.length < 1 := by
    have := List.length_pos.mpr h
    omega
  simp [getStores, hlen]

theorem importStore_nonempty (gen : Nat → ObjectID) {db : Database} (h : db.store ≠ []) :
    importStore gen db = (.error (.error (.inventory .darkstoreAlreadyExist)), db) := by
  have hlen : db.store.length > 0 := List.length_pos.mpr h
  simp [importStore, getStores_nonempty h, hlen]

theorem importStore_empty (gen : Nat → ObjectID) {db : Database} (h : db.store = []) :
    importStore gen db = (.ok (), { db with store := [dropezyStore (gen 0)] }) := by
  have hf : Option.filter (fun err => !(GoError.Is err (.inventory .errStoreNotFound)))
      (some (.inventory .errStoreNotFound)) = none := by decide
  simp [importStore, getStores_empty h, h, hf, dropezyStore]

/-- C22. In the store model, `importStore` on a database whose collection `store` holds
at least one store returns the error that a darkstore already exists and leaves the
database as it is; on an empty collection it succeeds and the collection then holds
exactly one store, named Dropezy Store with location code WHT, the other collections
being unchanged; hence a second `importStore` right after a successful one fails, and
leaves the one store. -/
theorem importStore_once (gen : Nat → ObjectID) (db : Database) :
    (db.store ≠ [] →
      importStore gen db = (.error (.error (.inventory .darkstoreAlreadyExist)), db)) ∧
    (db.store = [] →
      importStore gen db =
        (.ok (),
          { db with
            store :=
              [{ ID := gen 0, Name := "Dropezy Store",
                 ShoptreeLocationID := "962553ec420c45388a6bfb26308bdc23",
                 LocationCode := "WHT" }] })) ∧
    ((importStore gen db).1 = .ok () ↔ db.store = []) ∧
    (∀ gen2 : Nat → ObjectID, (importStore gen db).1 = .ok () →
      importStore gen2 (importStore gen db).2 =
        (.error (.error (.inventory .darkstoreAlreadyExist)), (importStore gen db).2) ∧
      (importStore gen db).2.store.length = 1) := by
  refine ⟨importStore_nonempty gen, fun h => importStore_empty gen h, ?_, ?_⟩
  · constructor
    · intro hok
      by_contra hne
      rw [importStore_nonempty gen hne] at hok
      simp at hok
    · intro h
      rw [importStore_empty gen h]
  · intro gen2 hok
    have hempty : db.store = [] := by
      by_contra hne
      rw [importStore_nonempty gen hne] at hok
      simp at hok
    rw [importStore_empty gen hempty]
    exact ⟨importStore_nonempty gen2 (by simp), rfl⟩

theorem getProduct_ok {ps : List Product} {n : String} {row : Nat} {p : Product} :
    getProduct ps n row = .ok p ↔ ps.find? (fun p => p.Name_EN = n) = some p := by
  induction ps with
  | nil => simp [getProduct]
  | cons p0 rest ih =>
    unfold getProduct
    by_cases h : p0.Name_EN = n <;> simp [h, ih, List.find?_cons]

theorem getProductVariant_ok {vs : List ProductVariant} {n : String} {row : Nat}
    {pv : ProductVariant} :
    getProductVariant vs n row = .ok pv ↔
      vs.find? (fun v => v.ShoptreeVariantID = n) = some pv := by
  induction vs with
  | nil => simp [getProductVariant]
  | cons v0 rest ih =>
    unfold getProductVariant
    by_cases h : v0.ShoptreeVariantID = n <;> simp [h, ih, List.find?_cons]

theorem getProductVariant_absent {n : String} {row : Nat} :
    ∀ (vs : List ProductVariant), (∀ v ∈ vs, v.ShoptreeVariantID ≠ n) →
      getProductVariant vs n row = .error (.inventory (.productVariantNotFound n row)) := by
  intro vs
  induction vs with
  | nil => intro _; rfl
  | cons v0 rest ih =>
    intro hall
    unfold getProductVariant
    have h0 := hall v0 (by simp)
    simp only [h0, if_false]
    exact ih (fun v hv => hall v (by simp [hv]))

theorem validateInventoryProduct_ok {ip : InventoryProduct} :
    validateInventoryProduct ip = .ok () ↔
      ip.ID ≠ NilObjectID ∧ ip.Price ≠ none ∧ ip.ProductID ≠ NilObjectID ∧
        ip.VariantID ≠ NilObjectID ∧ ip.ShoptreeVariantID ≠ "" := by
  unfold validateInventoryProduct
  by_cases h1 : ip.ID = NilObjectID
  · simp [h1]
  by_cases h2 : ip.Price = none
  · simp [h1, h2]
  by_cases h3 : ip.ProductID = NilObjectID
  · simp [h1, h2, h3]
  by_cases h4 : ip.VariantID = NilObjectID
  · simp [h1, h2, h3, h4]
  by_cases h5 : ip.ShoptreeVariantID = ""
  · simp [h1, h2, h3, h4, h5]
  · simp [h1, h2, h3, h4, h5]

theorem validateInventoryProduct_no_panic (ip : InventoryProduct) :
    validateInventoryProduct ip ≠ .error .panic := by
  unfold validateInventoryProduct
  split_ifs <;> simp

theorem validateInventory_ok {i : Inventory} :
    validateInventory i = .ok () ↔
      i.ID ≠ NilObjectID ∧ i.StoreID ≠ NilObjectID ∧ i.ShoptreeLocationID ≠ "" ∧
        i.Products ≠ [] := by
  unfold validateInventory
  by_cases h1 : i.ID = NilObjectID
  · simp [h1]
  by_cases h2 : i.StoreID = NilObjectID
  · simp [h1, h2]
  by_cases h3 : i.ShoptreeLocationID = ""
  · simp [h1, h2, h3]
  by_cases h4 : i.Products = []
  · simp [h1, h2, h3, h4]
  · have hlen : ¬ i.Products.length < 1 := by
      have := List.length_pos.mpr h4
      omega
    simp [h1, h2, h3, h4, hlen]

theorem inventoryProductOf_code (gen : Nat → ObjectID) (st : InventoryState) (p : Product)
    (pv : ProductVariant) (line : List String) :
    (if field line st.headers.variant_product_sellable = "yes" then
        ({ ID := gen st.nextID, Stock := 10,
           Price := some { Num := field line st.headers.price ++ "00", Cur := .CURRENCY_IDR },
           ProductID := p.ID, VariantID := pv.ID,
           ShoptreeVariantID := pv.ShoptreeVariantID,
           Status := .PRODUCT_STATUS_ENABLED } : InventoryProduct)
      else
        { ID := gen st.nextID, Stock := 10,
          Price := some { Num := field line st.headers.price ++ "00", Cur := .CURRENCY_IDR },
          ProductID := p.ID, VariantID := pv.ID,
          ShoptreeVariantID := pv.ShoptreeVariantID,
          Status := .PRODUCT_STATUS_DISABLED }) =
      inventoryProductOf gen st p pv line := by
  unfold inventoryProductOf
  split_ifs <;> rfl

theorem inventoryRow_ok {gen : Nat → ObjectID} {products : List Product}
    {st st1 : InventoryState} {row : Nat} {line : List String}
    (h : inventoryRow gen products st row line = .ok st1) :
    ∃ p pv, products.find? (fun p => p.Name_EN = field line st.headers.product_name_EN) =
        some p ∧
      (p.Variants.getD []).find?
        (fun v => v.ShoptreeVariantID = field line st.headers.product_variant_id) = some pv ∧
      validateInventoryProduct (inventoryProductOf gen st p pv line) = .ok () ∧
      st1 = { st with
        inv := { st.inv with
          Products := st.inv.Products ++ [inventoryProductOf gen st p pv line] }
        nextID := st.nextID + 1 } := by
  unfold inventoryRow at h
  simp only [bind, Except.bind] at h
  split at h
  · simp at h
  · rename_i name hname
    have hname2 := index_ok_field hname
    rw [hname] at hname2
    simp only [Except.ok.injEq] at hname2
    subst hname2
    split at h
    · simp at h
    · rename_i p hp
      split at h
      · simp at h
      · rename_i vid hvid
        have hvid2 := index_ok_field hvid
        rw [hvid] at hvid2
        simp only [Except.ok.injEq] at hvid2
        subst hvid2
        split at h
        · split at h
          · simp at h
          · split at h <;> simp at h
        · rename_i pv hpv
          split at h
          · simp at h
          · rename_i price hprice
            have hprice2 := index_ok_field hprice
            rw [hprice] at hprice2
            simp only [Except.ok.injEq] at hprice2
            subst hprice2
            split at h
            · simp at h
            · rename_i sellable hsell
              have hsell2 := index_ok_field hsell
              rw [hsell] at hsell2
              simp only [Except.ok.injEq] at hsell2
              subst hsell2
              rw [inventoryProductOf_code] at h
              split at h
              · simp at h
              · rename_i hvalid
                simp only [Except.ok.injEq] at h
                exact ⟨p, pv, getProduct_ok.mp hp, getProductVariant_ok.mp hpv, hvalid, h.symm⟩

theorem inventoryRow_found {gen : Nat → ObjectID} {products : List Product}
    {st : InventoryState} {row : Nat} {line : List String} {p : Product}
    {pv : ProductVariant}
    (hb : st.headers.Below line.length)
    (hp : products.find? (fun p => p.Name_EN = field line st.headers.product_name_EN) =
      some p)
    (hpv : (p.Variants.getD []).find?
      (fun v => v.ShoptreeVariantID = field line st.headers.product_variant_id) = some pv)
    (hvalid : validateInventoryProduct (inventoryProductOf gen st p pv line) = .ok ()) :
    inventoryRow gen products st row line =
      .ok { st with
        inv := { st.inv with
          Products := st.inv.Products ++ [inventoryProductOf gen st p pv line] }
        nextID := st.nextID + 1 } := by
  obtain ⟨h1, h2, h3, h4⟩ := hb
  simp only [inventoryRow, index_of_lt h1, index_of_lt h2, index_of_lt h3, index_of_lt h4,
    bind, Except.bind, getProduct_ok.mpr hp, getProductVariant_ok.mpr hpv,
    inventoryProductOf_code, hvalid]

theorem inventoryRow_missing_variant {gen : Nat → ObjectID} {products : List Product}
    {st : InventoryState} {row : Nat} {line : List String} {p : Product}
    (hb : st.headers.Below line.length)
    (hp : products.find? (fun p => p.Name_EN = field line st.headers.product_name_EN) =
      some p)
    (hnone : ∀ v ∈ p.Variants.getD [],
      v.ShoptreeVariantID ≠ field line st.headers.product_variant_id) :
    (p.Variants.getD [] = [] → inventoryRow gen products st row line = .error .panic) ∧
    (p.Variants.getD [] ≠ [] →
      inventoryRow gen products st row line =
        .error (.error (.inventory (.productVariantNotFound
          (field line st.headers.product_variant_id) row)))) := by
  obtain ⟨h1, h2, h3, h4⟩ := hb
  have hv := @getProductVariant_absent (field line st.headers.product_variant_id) row
    (p.Variants.getD []) hnone
  constructor
  · intro hempty
    simp only [inventoryRow, index_of_lt h1, index_of_lt h2, bind, Except.bind,
      getProduct_ok.mpr hp, hv]
    simp [hempty, index]
  · intro hne
    simp only [inventoryRow, index_of_lt h1, index_of_lt h2, bind, Except.bind,
      getProduct_ok.mpr hp, hv]
    cases hvs : p.Variants.getD [] with
    | nil => exact absurd hvs hne
    | cons v0 rest => simp [index]

theorem inventoryLoop_ok {gen : Nat → ObjectID} {products : List Product}
    {st1 : InventoryState} :
    ∀ (rows : List (List String)) (st : InventoryState) (i : Nat), 1 ≤ i →
      inventoryLoop gen products st i rows = .ok st1 →
      st1.headers = st.headers ∧ st1.inv.ID = st.inv.ID ∧ st1.inv.StoreID = st.inv.StoreID ∧
      st1.inv.ShoptreeLocationID = st.inv.ShoptreeLocationID ∧
      ∃ added, st1.inv.Products = st.inv.Products ++ added ∧
        List.Forall₂ (InventoryRowOf st.headers products) rows added ∧
        ∀ ip ∈ added, validateInventoryProduct ip = .ok () := by
  intro rows
  induction rows with
  | nil =>
    intro st i _ h
    simp only [inventoryLoop, Except.ok.injEq] at h
    subst h
    exact ⟨rfl, rfl, rfl, rfl, [], by simp, List.Forall₂.nil, by simp⟩
  | cons line rest ih =>
    intro st i hi h
    have hne : ¬ (i + 1 = 1) := by omega
    simp only [inventoryLoop, hne, if_false] at h
    cases hrow : inventoryRow gen products st (i + 1) line with
    | error a => simp [hrow] at h
    | ok st2 =>
      simp only [hrow] at h
      obtain ⟨p, pv, hp, hpv, hvalid, hst2⟩ := inventoryRow_ok hrow
      obtain ⟨e1, e2, e3, e4, added, e5, e6, e7⟩ := ih st2 (i + 1) (by omega) h
      subst hst2
      simp only at e1 e2 e3 e4 e5 e6
      refine ⟨e1, e2, e3, e4, inventoryProductOf gen st p pv line :: added, ?_, ?_, ?_⟩
      · rw [e5]; simp
      · refine List.Forall₂.cons ?_ e6
        have hname := (List.find?_eq_some.mp hpv).1
        simp only [decide_eq_true_eq] at hname
        exact ⟨p, pv, hp, hpv, rfl, rfl, hname, rfl⟩
      · intro ip hip
        rcases List.mem_cons.mp hip with rfl | hip
        · exact hvalid
        · exact e7 ip hip

theorem inventoryFold_cons (gen : Nat → ObjectID) (ds : Store) (products : List Product)
    (header : List String) (rows : List (List String)) :
    inventoryFold gen ds products (header :: rows) =
      inventoryLoop gen products
        { headers := inventoryHeaderLoop {} 0 header
          inv := { ID := gen 0, StoreID := ds.ID, ShoptreeLocationID := ds.ShoptreeLocationID }
          nextID := 1 } 1 rows := by
  simp [inventoryFold, inventoryLoop]

theorem importInventories_ok {gen : Nat → ObjectID} {db db1 : Database}
    {lines : List (List String)} (h : importInventories gen db lines = (.ok (), db1)) :
    ∃ ds stores st, db.store = ds :: stores ∧ db.product ≠ [] ∧
      inventoryFold gen ds db.product lines = .ok st ∧ validateInventory st.inv = .ok () ∧
      db1 = { db with inventory := db.inventory ++ [st.inv] } := by
  unfold importInventories at h
  by_cases hs : db.store = []
  · simp [getStores, hs] at h
  obtain ⟨ds, stores, hstore⟩ := List.exists_cons_of_ne_nil hs
  have hidx : index db.store 0 = .ok ds := by
    rw [hstore]
    simp [index]
  simp only [getStores_nonempty hs] at h
  by_cases hp : db.product = []
  · simp [getProducts, hp] at h
  have hgp : getProducts db = .ok db.product := by
    have hlen : ¬ db.product.length < 1 := by
      have := List.length_pos.mpr hp
      omega
    simp [getProducts, hlen]
  simp only [hgp, hidx] at h
  cases hfold : inventoryFold gen ds db.product lines with
  | error a => simp [hfold] at h
  | ok st =>
    simp only [hfold] at h
    cases hv : validateInventory st.inv with
    | error a => simp [hv] at h
    | ok u =>
      simp only [hv, Prod.mk.injEq, true_and] at h
      exact ⟨ds, stores, st, hstore, hp, hfold, hv, h.symm⟩

theorem setInventoryHeader_below {h : InventoryHeaders} {n idx : Nat} {header : String}
    (hb : h.Below n) (hidx : idx < n) : (setInventoryHeader h idx header).Below n := by
  obtain ⟨h1, h2, h3, h4⟩ := hb
  unfold setInventoryHeader
  split_ifs <;> exact ⟨by assumption, by assumption, by assumption, by assumption⟩

theorem inventoryHeaderLoop_below {n : Nat} :
    ∀ (l : List String) (h : InventoryHeaders) (i : Nat),
      h.Below n → i + l.length ≤ n → (inventoryHeaderLoop h i l).Below n := by
  intro l
  induction l with
  | nil => intro h i hb _; exact hb
  | cons a l ih =>
    intro h i hb hlen
    simp only [List.length_cons] at hlen
    exact ih _ (i + 1) (setInventoryHeader_below hb (by omega)) (by omega)

theorem inventoryHeaders_below {header : List String} (hne : header ≠ []) :
    (inventoryHeaderLoop {} 0 header).Below header.length := by
  have hpos : 0 < header.length := List.length_pos.mpr hne
  exact inventoryHeaderLoop_below header {} 0 ⟨hpos, hpos, hpos, hpos⟩ (by omega)

theorem inventoryLoop_append {gen : Nat → ObjectID} {products : List Product} :
    ∀ (pre rest : List (List String)) (st : InventoryState) (i : Nat), 1 ≤ i →
      (∀ a, inventoryLoop gen products st i pre = .error a →
        inventoryLoop gen products st i (pre ++ rest) = .error a) ∧
      (∀ st1, inventoryLoop gen products st i pre = .ok st1 →
        inventoryLoop gen products st i (pre ++ rest) =
          inventoryLoop gen products st1 (i + pre.length) rest) := by
  intro pre
  induction pre with
  | nil =>
    intro rest st i _
    constructor
    · intro a ha
      simp [inventoryLoop] at ha
    · intro st1 h1
      simp only [inventoryLoop, Except.ok.injEq] at h1
      subst h1
      simp
  | cons line pre ih =>
    intro rest st i hi
    have hne : ¬ (i + 1 = 1) := by omega
    have hlen : i + (line :: pre).length = i + 1 + pre.length := by
      simp only [List.length_cons]; omega
    simp only [List.cons_append, inventoryLoop, hne, if_false]
    cases hrow : inventoryRow gen products st (i + 1) line with
    | error a => simp
    | ok st2 =>
      simp only
      rw [hlen]
      exact ih rest st2 (i + 1) (by omega)

theorem inventoryFold_row {gen : Nat → ObjectID} {ds : Store} {products : List Product}
    {header : List String} {pre : List (List String)} {r : List String}
    {rest : List (List String)} {st : InventoryState}
    (hpre : inventoryFold gen ds products (header :: pre) = .ok st) :
    st.headers = inventoryHeaderLoop {} 0 header ∧
    (∀ a, inventoryRow gen products st (pre.length + 2) r = .error a →
      inventoryFold gen ds products (header :: (pre ++ r :: rest)) = .error a) := by
  rw [inventoryFold_cons] at hpre ⊢
  refine ⟨(inventoryLoop_ok pre _ 1 (le_refl 1) hpre).1, ?_⟩
  intro a ha
  rw [(inventoryLoop_append pre (r :: rest) _ 1 (le_refl 1)).2 st hpre]
  have hne1 : ¬ (1 + pre.length + 1 = 1) := by omega
  have hne2 : ¬ (pre.length + 2 = 1) := by omega
  have hrow : 1 + pre.length + 1 = pre.length + 2 := by omega
  simp only [inventoryLoop, hne1, hne2, if_false, hrow, ha]

theorem importInventories_fold_error {gen : Nat → ObjectID} {db : Database} {ds : Store}
    {stores : List Store} {lines : List (List String)} {a : Abort}
    (hstore : db.store = ds :: stores) (hp : db.product ≠ [])
    (hfold : inventoryFold gen ds db.product lines = .error a) :
    importInventories gen db lines = (.error a, db) := by
  have hs : db.store ≠ [] := by simp [hstore]
  have hidx : index db.store 0 = .ok ds := by
    rw [hstore]
    simp [index]
  have hgp : getProducts db = .ok db.product := by
    have hlen : ¬ db.product.length < 1 := by
      have := List.length_pos.mpr hp
      omega
    simp [getProducts, hlen]
  unfold importInventories
  simp only [getStores_nonempty hs, hgp, hidx, hfold]

theorem importInventories_fold_ok {gen : Nat → ObjectID} {db : Database} {ds : Store}
    {stores : List Store} {lines : List (List String)} {st : InventoryState}
    (hstore : db.store = ds :: stores) (hp : db.product ≠ [])
    (hfold : inventoryFold gen ds db.product lines = .ok st) :
    (∀ a, validateInventory st.inv = .error a →
      importInventories gen db lines = (.error a, db)) ∧
    (validateInventory st.inv = .ok () →
      importInventories gen db lines =
        (.ok (), { db with inventory := db.inventory ++ [st.inv] })) := by
  have hs : db.store ≠ [] := by simp [hstore]
  have hidx : index db.store 0 = .ok ds := by
    rw [hstore]
    simp [index]
  have hgp : getProducts db = .ok db.product := by
    have hlen : ¬ db.product.length < 1 := by
      have := List.length_pos.mpr hp
      omega
    simp [getProducts, hlen]
  unfold importInventories
  constructor
  · intro a hv
    simp only [getStores_nonempty hs, hgp, hidx, hfold, hv]
  · intro hv
    simp only [getStores_nonempty hs, hgp, hidx, hfold, hv]

theorem importInventories_header_only (gen : Nat → ObjectID) (db : Database)
    (lines : List (List String)) (hlines : lines.length ≤ 1) :
    (importInventories gen db lines).1 ≠ .ok () ∧
    (∀ ds stores, db.store = ds :: stores → db.product ≠ [] → gen 0 ≠ NilObjectID →
      ds.ID ≠ NilObjectID → ds.ShoptreeLocationID ≠ "" →
      importInventories gen db lines =
        (.error (.error (.inventory .errInventoryProductIsRequired)), db)) := by
  have hfold : ∀ ds products, ∃ st, inventoryFold gen ds products lines = .ok st ∧
      st.inv = { ID := gen 0, StoreID := ds.ID,
                 ShoptreeLocationID := ds.ShoptreeLocationID } := by
    intro ds products
    match lines, hlines with
    | [], _ => exact ⟨_, rfl, rfl⟩
    | [header], _ =>
      exact ⟨{ headers := inventoryHeaderLoop {} 0 header
               inv := { ID := gen 0, StoreID := ds.ID,
                        ShoptreeLocationID := ds.ShoptreeLocationID }
               nextID := 1 }, by simp [inventoryFold, inventoryLoop], rfl⟩
    | _ :: _ :: _, hl => simp at hl
  constructor
  · intro hok
    obtain ⟨ds, stores, st, _, _, hf, hv, _⟩ :=
      @importInventories_ok gen db (importInventories gen db lines).2 lines
        (Prod.ext hok rfl)
    obtain ⟨st0, hf0, hinv⟩ := hfold ds db.product
    rw [hf0] at hf
    simp only [Except.ok.injEq] at hf
    subst hf
    have := (validateInventory_ok.mp hv).2.2.2
    rw [hinv] at this
    exact this rfl
  · intro ds stores hstore hp hgen hid hloc
    obtain ⟨st0, hf0, hinv⟩ := hfold ds db.product
    apply (importInventories_fold_ok hstore hp hf0).1
    rw [hinv]
    simp [validateInventory, hgen, hid, hloc]

/-- C23. When `importInventories` ends normally, the file has a header and at least one
data row, and the database it leaves is the one it found with a single inventory more.
That inventory has a non-nil identifier and the non-nil identifier of the first store as
its store reference; its products are, one per data row and in row order, resolved from
the rows: the product reference is that of the first persisted product with the English
name of the row, the variant reference that of the first variant of that product with the
external variant id of the row; and every one of them has a non-nil identifier, product
reference and variant reference, a non-empty external variant id and a price. A file
with no data row never ends normally, and it fails with `errInventoryProductIsRequired`
when a store and a product exist and the identifiers and location id of the inventory
are set. -/
theorem importInventories_inserted_inventory (gen : Nat → ObjectID) (db : Database) :
    (∀ (lines : List (List String)) (db1 : Database),
      importInventories gen db lines = (.ok (), db1) →
      ∃ header rows inv ds, lines = header :: rows ∧ rows ≠ [] ∧
        db.store.head? = some ds ∧
        db1 = { db with inventory := db.inventory ++ [inv] } ∧
        inv.ID ≠ NilObjectID ∧ inv.StoreID = ds.ID ∧ inv.StoreID ≠ NilObjectID ∧
        inv.Products ≠ [] ∧ inv.Products.length = rows.length ∧
        List.Forall₂ (InventoryRowOf (inventoryHeaderLoop {} 0 header) db.product) rows
          inv.Products ∧
        ∀ ip ∈ inv.Products, ip.ID ≠ NilObjectID ∧ ip.ProductID ≠ NilObjectID ∧
          ip.VariantID ≠ NilObjectID ∧ ip.ShoptreeVariantID ≠ "" ∧ ip.Price ≠ none) ∧
    (∀ lines : List (List String), lines.length ≤ 1 →
      (importInventories gen db lines).1 ≠ .ok ()) ∧
    (∀ (lines : List (List String)) (ds : Store) (stores : List Store), lines.length ≤ 1 →
      db.store = ds :: stores → db.product ≠ [] → gen 0 ≠ NilObjectID →
      ds.ID ≠ NilObjectID → ds.ShoptreeLocationID ≠ "" →
      importInventories gen db lines =
        (.error (.error (.inventory .errInventoryProductIsRequired)), db)) := by
  refine ⟨?_, ?_, ?_⟩
  · intro lines db1 h
    obtain ⟨ds, stores, st, hstore, hp, hf, hv, hdb1⟩ := importInventories_ok h
    obtain ⟨v1, v2, v3, v4⟩ := validateInventory_ok.mp hv
    match lines, h, hf with
    | [], h, _ =>
      have := (importInventories_header_only gen db [] (by simp)).1
      rw [h] at this
      exact absurd rfl this
    | header :: rows, h, hf =>
      rw [inventoryFold_cons] at hf
      obtain ⟨_, e2, e3, _, added, e5, e6, e7⟩ := inventoryLoop_ok rows _ 1 (le_refl 1) hf
      simp only [List.nil_append] at e2 e3 e5
      have hrows : rows ≠ [] := by
        intro hnil
        subst hnil
        cases e6
        exact v4 e5
      refine ⟨header, rows, st.inv, ds, rfl, hrows, by rw [hstore]; rfl, hdb1, v1, e3,
        v2, v4, ?_, ?_, ?_⟩
      · rw [e5]
        exact e6.length_eq.symm
      · rw [e5]
        exact e6
      · intro ip hip
        rw [e5] at hip
        obtain ⟨a1, a2, a3, a4, a5⟩ := validateInventoryProduct_ok.mp (e7 ip hip)
        exact ⟨a1, a3, a4, a5, a2⟩
  · intro lines hl
    exact (importInventories_header_only gen db lines hl).1
  · intro lines ds stores hl
    exact (importInventories_header_only gen db lines hl).2 ds stores

/-- C23, on the inventory file with the one row of the variant v1 of Cola. -/
theorem importInventories_inserted_inventory_witness :
    importInventories sampleGen inventoryDb [inventoryHeader, colaInventoryRow] =
      (.ok (),
        { inventoryDb with
          inventory :=
            [{ ID := ⟨1⟩, StoreID := ⟨500⟩,
               ShoptreeLocationID := "962553ec420c45388a6bfb26308bdc23",
               Products :=
                 [{ ID := ⟨2⟩, Stock := 10,
                    Price := some { Num := "1500000", Cur := .CURRENCY_IDR },
                    ProductID := ⟨2⟩, VariantID := ⟨1⟩, ShoptreeVariantID := "v1",
                    Status := .PRODUCT_STATUS_ENABLED }] }] }) ∧
    (∃ header rows inv ds, [inventoryHeader, colaInventoryRow] = header :: rows ∧ rows ≠ [] ∧
      inventoryDb.store.head? = some ds ∧
      (importInventories sampleGen inventoryDb [inventoryHeader, colaInventoryRow]).2 =
        { inventoryDb with inventory := inventoryDb.inventory ++ [inv] } ∧
      inv.ID ≠ NilObjectID ∧ inv.StoreID = ds.ID ∧ inv.StoreID ≠ NilObjectID ∧
      inv.Products ≠ [] ∧ inv.Products.length = rows.length ∧
      List.Forall₂ (InventoryRowOf (inventoryHeaderLoop {} 0 header) inventoryDb.product) rows
        inv.Products ∧
      ∀ ip ∈ inv.Products, ip.ID ≠ NilObjectID ∧ ip.ProductID ≠ NilObjectID ∧
        ip.VariantID ≠ NilObjectID ∧ ip.ShoptreeVariantID ≠ "" ∧ ip.Price ≠ none) ∧
    importInventories sampleGen inventoryDb [inventoryHeader] =
      (.error (.error (.inventory .errInventoryProductIsRequired)), inventoryDb) :=
  ⟨by decide,
    (importInventories_inserted_inventory sampleGen inventoryDb).1
      [inventoryHeader, colaInventoryRow]
      (importInventories sampleGen inventoryDb [inventoryHeader, colaInventoryRow]).2
      (by decide),
    by decide⟩

/-- C27, on the code: after rows read without failure, a data row that names a persisted
product none of whose variants has the external variant id of the row makes
`importInventories` return the error that the variant is not found, with the number of
the row, and insert nothing, only when the product has at least one variant. When the
product has no variant, the print statement of the error branch reads `p.Variants[0]`
and the call ends with a panic, index out of range; so it does on a file naming Cola
when Cola is persisted without variants. -/
theorem importInventories_missing_variant :
    (∀ (gen : Nat → ObjectID) (db : Database) (header : List String)
        (pre : List (List String)) (r : List String) (rest : List (List String))
        (ds : Store) (stores : List Store) (st : InventoryState) (p : Product),
      db.store = ds :: stores →
      Rectangular header (pre ++ r :: rest) →
      inventoryFold gen ds db.product (header :: pre) = .ok st →
      db.product.find? (fun p => p.Name_EN = field r st.headers.product_name_EN) = some p →
      (∀ v ∈ p.Variants.getD [],
        v.ShoptreeVariantID ≠ field r st.headers.product_variant_id) →
      (p.Variants.getD [] ≠ [] →
        importInventories gen db (header :: (pre ++ r :: rest)) =
          (.error (.error (.inventory (.productVariantNotFound
            (field r st.headers.product_variant_id) (pre.length + 2)))), db)) ∧
      (p.Variants.getD [] = [] →
        importInventories gen db (header :: (pre ++ r :: rest)) = (.error .panic, db))) ∧
    importInventories sampleGen inventoryDb [inventoryHeader, colaUnknownVariantRow] =
      (.error (.error (.inventory (.productVariantNotFound "v7" 2))), inventoryDb) ∧
    importInventories sampleGen noVariantDb [inventoryHeader, colaInventoryRow] =
      (.error .panic, noVariantDb) := by
  refine ⟨?_, by decide, by decide⟩
  intro gen db header pre r rest ds stores st p hstore hrect hpre hfind hnone
  obtain ⟨hne, hlen⟩ := hrect
  obtain ⟨hst, hrow⟩ := @inventoryFold_row gen ds db.product header pre r rest st hpre
  have hbr : st.headers.Below r.length := by
    rw [hst, hlen r (by simp)]
    exact inventoryHeaders_below hne
  have hp : db.product ≠ [] := by
    intro hnil
    rw [hnil] at hfind
    simp at hfind
  obtain ⟨hpanic, herr⟩ := @inventoryRow_missing_variant gen db.product st (pre.length + 2) r p
    hbr hfind hnone
  constructor
  · intro hvs
    exact importInventories_fold_error hstore hp (hrow _ (herr hvs))
  · intro hvs
    exact importInventories_fold_error hstore hp (hrow _ (hpanic hvs))

end Importer
